import Mathlib

/-!
# PONAlyzer: the stress driver, the packet extractor, the attribute parser, the builders
and the injector, the ring buffer, and the decoder

A shallow embedding of `src/injector/injector.go` and `src/messages.go`.

Conventions of the embedding:
* a Go `uint16` is a `Nat` reduced modulo `65536` after every operation;
* a Go `int` is an `Int` reduced to the 64-bit two's-complement range after every
  operation that can leave it (`wrapInt`); 64 bits is the width of `int` on the targets
  the tool is built for.  Offsets into a string, which the code only ever obtains as
  non-negative values, are `Nat`, and are cast to `Int` where the code subtracts from them;
* a Go `string` or `[]byte` is a list of bytes (`Fin 256`), except in the attribute
  parser, whose input is text and is a list of characters;
* a loop is a function with a fuel argument; each entry point passes a fuel that is
  proved to be sufficient.  A slice or index expression out of range (a run-time panic)
  is `none`.
-/

namespace PONAlyzer

/-! ## Machine integers -/

/-- Conversion `uint16(x)` of a Go `int`: the low 16 bits. -/
def toUint16 (x : Int) : Nat := (x % 65536).toNat

/-- Addition of two `uint16` values. -/
def addU16 (a b : Nat) : Nat := (a + b) % 65536

/-- Multiplication of two `uint16` values. -/
def mulU16 (a b : Nat) : Nat := (a * b) % 65536

/-- Reduction of a mathematical integer to the 64-bit two's-complement range: what an
`int` holds after an arithmetic operation whose exact result is `x`. -/
def wrapInt (x : Int) : Int :=
  (x + 9223372036854775808) % 18446744073709551616 - 9223372036854775808

/-! ## The single-client stress driver (`buildStresstest`) -/

/-- Class id of the OnuData managed entity (`generated.OnuDataClassID`). -/
def OnuDataClassID : Nat := 2

/-- The OMCI layer and the GetRequest layer handed to `buildMessage`: what one
pre-built PDU carries. -/
structure GetRequestPDU where
  TransactionID : Nat
  EntityClass : Nat
  EntityInstance : Nat
  AttributeMask : Nat
deriving DecidableEq

/-- The PDU that `buildStresstest` builds once the transaction id is set to `t`. -/
def stressPDU (mask t : Nat) : GetRequestPDU :=
  { TransactionID := t, EntityClass := OnuDataClassID, EntityInstance := 0,
    AttributeMask := mask }

/-- The loop `for i := 0; i < commands; i++` of `buildStresstest`, from the loop state
`(i, commands, messages)`.  Its body is
`if tid+uint16(i) == 0 { i++; commands++ }`,
`omciPart.TransactionID = tid + uint16(i)`,
`messages = append(messages, buildMessage(omciPart, messagetype))`. -/
def stressLoop (mask tid : Nat) : Nat → Int → Int → List GetRequestPDU → List GetRequestPDU
  | 0, _, _, messages => messages
  | fuel + 1, i, commands, messages =>
    if i < commands then
      let skip : Bool := addU16 tid (toUint16 i) == 0
      let i1 := if skip then wrapInt (i + 1) else i
      let commands1 := if skip then wrapInt (commands + 1) else commands
      let pdu := stressPDU mask (addU16 tid (toUint16 i1))
      stressLoop mask tid fuel (wrapInt (i1 + 1)) commands1 (messages ++ [pdu])
    else messages

/-- The messages pre-built by `buildStresstest(…, tid, commands, …)`; `none` is the
early return `"No. commands is 0!"`.  The argument `mask` is the allowed-attribute mask
of OnuData, which the schema library supplies: its lookup of the OnuData class is taken
to succeed.  The loop runs at most `commands` times, so that `commands` is fuel enough
(`stressLoop_fuel_enough`). -/
def buildStresstestMessages (mask tid : Nat) (commands : Int) : Option (List GetRequestPDU) :=
  if commands ≤ 0 then none
  else some (stressLoop mask tid commands.toNat 0 commands [])

/-- The transaction ids of the pre-built messages, in the order they are sent. -/
def buildStresstestTids (mask tid : Nat) (commands : Int) : Option (List Nat) :=
  (buildStresstestMessages mask tid commands).map (fun ms => ms.map (fun m => m.TransactionID))

/-- The sequence `tid, tid+1, tid+2, …` modulo `2^16`: its `m` terms from term `j` on. -/
def rawTids (tid j m : Nat) : List Nat :=
  (List.range' j m).map (fun k => (tid + k) % 65536)

/-- The same stretch of the sequence with the terms equal to `0` removed. -/
def nonzeroTids (tid j m : Nat) : List Nat :=
  (rawTids tid j m).filter (fun t => t ≠ 0)

/-! ## The multi-client stress driver (`buildStresstestMulti`) -/

/-- The loop `for i := uint16(0); i < totalClients; i++` of `buildStresstestMulti`,
collecting the starting transaction id `tid+(i*tidInterval)` handed to each client. -/
def multiLoop (tid totalClients tidInterval : Nat) : Nat → Nat → List Nat → List Nat
  | 0, _, starts => starts
  | fuel + 1, i, starts =>
    if i < totalClients then
      multiLoop tid totalClients tidInterval fuel (addU16 i 1)
        (starts ++ [addU16 tid (mulU16 i tidInterval)])
    else starts

/-- The starting transaction ids `buildStresstestMulti` hands to its clients, client
`0` first, for the process count `totalProcesses` that `strconv.Atoi` returned; `none`
is the return `"Bad number of clients!"`.  Every channel is taken to open. -/
def buildStresstestMultiStarts (tid : Nat) (totalProcesses : Int) : Option (List Nat) :=
  if totalProcesses ≤ 0 ∨ totalProcesses > 65000 then none
  else
    let totalClients := toUint16 totalProcesses
    let tidInterval := 65000 / totalClients
    some (multiLoop tid totalClients tidInterval totalClients 0 [])

/-- The transaction ids carried by the PDUs of client `k` of a multi-client run. -/
def buildStresstestMultiClientTids (mask tid : Nat) (commands totalProcesses : Int) (k : Nat) :
    Option (List Nat) :=
  (buildStresstestMultiStarts tid totalProcesses).bind
    (fun starts => starts[k]?.bind (fun s => buildStresstestTids mask s commands))

/-! ## Strings of bytes -/

/-- One byte. -/
abbrev Byte := Fin 256

/-- A Go string: a sequence of bytes. -/
abbrev GoString := List Byte

/-- The end-of-frame marker `"00000028"`, as ASCII bytes. -/
def marker : GoString := [48, 48, 48, 48, 48, 48, 50, 56]

/-- The slice expression `s[a:b]`; `none` when it is out of range. -/
def slice (s : GoString) (a b : Int) : Option GoString :=
  if 0 ≤ a ∧ a ≤ b ∧ b ≤ s.length then some ((s.take b.toNat).drop a.toNat) else none

/-- The index expression `s[i]`; `none` when it is out of range. -/
def byteAt (s : GoString) (i : Int) : Option Byte :=
  if 0 ≤ i then s[i.toNat]? else none

/-- Go's `strings.Index(s, substr)`: the offset of the first instance of `substr` in `s`;
`none` is the result `-1`. -/
def stringsIndex (substr : GoString) : GoString → Option Nat
  | [] => if substr.isPrefixOf [] then some 0 else none
  | c :: t =>
    if substr.isPrefixOf (c :: t) then some 0 else (stringsIndex substr t).map (fun k => k + 1)

/-- Go's `utf8string.NewString(s).IsASCII()`: no byte of `s` is `0x80` or above. -/
def isASCII (s : GoString) : Bool := s.all (fun b => decide (b.val < 128))

/-- The digits `"0123456789abcdef"` of `encoding/hex`. -/
def hextable : GoString := [48, 49, 50, 51, 52, 53, 54, 55, 56, 57, 97, 98, 99, 100, 101, 102]

/-- The hex digit `hextable[n]`. -/
def hexDigit (n : Nat) : Byte := hextable.getD n 0

/-- Go's `hex.EncodeToString`: each byte `v` becomes `hextable[v>>4]`, `hextable[v&0x0f]`. -/
def hexEncodeToString : GoString → GoString
  | [] => []
  | v :: rest => hexDigit (v.val / 16) :: hexDigit (v.val % 16) :: hexEncodeToString rest

/-- Go's `strings.CutPrefix(s, pre)`, first result: `s` without the leading `pre` when
`s` starts with it, `s` itself otherwise. -/
def cutPrefix (s pre : GoString) : GoString :=
  if pre.isPrefixOf s then s.drop pre.length else s

/-! ## The packet extractor (`findOMCIMessageIndices`, `processPacket`) -/

/-- The loop of `findOMCIMessageIndices`, from the loop state `(start, omciIndex)`:
`currentIndex := strings.Index(payloadString[start:], "00000028")`, `break` on `-1`,
else `omciIndex = append(omciIndex, currentIndex+start)` and
`start += currentIndex + 1`.  Exhausted fuel is `none`. -/
def findLoop (payloadString : GoString) : Nat → Nat → List Nat → Option (List Nat)
  | 0, _, _ => none
  | fuel + 1, start, omciIndex =>
    match slice payloadString start payloadString.length with
    | none => none
    | some rest =>
      match stringsIndex marker rest with
      | none => some omciIndex
      | some currentIndex =>
        findLoop payloadString fuel (start + (currentIndex + 1)) (omciIndex ++ [currentIndex + start])

/-- The function `findOMCIMessageIndices`.  The loop runs at most `len + 1` times
(`findLoop_eq`). -/
def findOMCIMessageIndices (payloadString : GoString) : Option (List Nat) :=
  findLoop payloadString (payloadString.length + 1) 0 []

/-- A record returned by the decoder, with the two fields `processPacket` stamps on it
from the bytes in front of the message.  (The timestamp and the two endpoints, which are
copied from the packet's metadata, are left out.) -/
structure StampedMessage (μ : Type) where
  message : μ
  InterfaceId : GoString
  OnuId : GoString

/-- The state of one scan: the state of the decoder (its counters), the `messagesList`
built so far, and the strings handed to `decodeOMCIMessage` so far, in call order. -/
structure ScanState (σ μ : Type) where
  decoder : σ
  messagesList : List (StampedMessage μ)
  handed : List GoString

/-- The first loop of `processPacket` (case 1, the payload read as text), over the
marker offsets `omciIndex`, for a decoder `decode` that returns a record or `nil` and a
new decoder state. -/
def textViewLoop {σ μ : Type} (decode : σ → GoString → Option μ × σ) (payloadString : GoString) :
    List Nat → ScanState σ μ → Option (ScanState σ μ)
  | [], st => some st
  | index :: rest, st =>
    if 91 ≤ (index : Int) then
      match slice payloadString ((index : Int) - 80) ((index : Int) + 8) with
      | none => none
      | some omciString =>
        if isASCII omciString then
          match decode st.decoder omciString with
          | (none, d) =>
            textViewLoop decode payloadString rest
              { decoder := d, messagesList := st.messagesList,
                handed := st.handed ++ [omciString] }
          | (some message, d) =>
            match byteAt payloadString ((index : Int) - 91),
                  byteAt payloadString ((index : Int) - 86) with
            | some b1, some b2 =>
              textViewLoop decode payloadString rest
                { decoder := d,
                  messagesList := st.messagesList ++
                    [{ message := message,
                       InterfaceId := cutPrefix (hexEncodeToString [b1]) [48],
                       OnuId := cutPrefix (hexEncodeToString [b2]) [48] }],
                  handed := st.handed ++ [omciString] }
            | _, _ => none
        else textViewLoop decode payloadString rest st
    else textViewLoop decode payloadString rest st

/-- The second loop of `processPacket` (case 2), over the marker offsets of the
hex-encoded payload `payloadString`. -/
def hexViewLoop {σ μ : Type} (decode : σ → GoString → Option μ × σ) (payloadString : GoString) :
    List Nat → ScanState σ μ → Option (ScanState σ μ)
  | [], st => some st
  | index :: rest, st =>
    if 102 ≤ (index : Int) then
      match (if (index : Int) + 16 ≤ (payloadString.length : Int)
             then slice payloadString ((index : Int) - 80) ((index : Int) + 16)
             else slice payloadString ((index : Int) - 80) ((index : Int) + 8)) with
      | none => none
      | some omciString =>
        if isASCII omciString then
          match decode st.decoder omciString with
          | (none, d) =>
            hexViewLoop decode payloadString rest
              { decoder := d, messagesList := st.messagesList,
                handed := st.handed ++ [omciString] }
          | (some message, d) =>
            match slice payloadString ((index : Int) - 102) ((index : Int) - 100),
                  slice payloadString ((index : Int) - 92) ((index : Int) - 90) with
            | some s1, some s2 =>
              hexViewLoop decode payloadString rest
                { decoder := d,
                  messagesList := st.messagesList ++
                    [{ message := message,
                       InterfaceId := cutPrefix s1 [48],
                       OnuId := cutPrefix s2 [48] }],
                  handed := st.handed ++ [omciString] }
            | _, _ => none
        else hexViewLoop decode payloadString rest st
    else hexViewLoop decode payloadString rest st

/-- Case 1 of `processPacket`: the marker search in `string(payload)` and the loop over
its results. -/
def textView {σ μ : Type} (decode : σ → GoString → Option μ × σ) (payload : GoString)
    (st : ScanState σ μ) : Option (ScanState σ μ) :=
  (findOMCIMessageIndices payload).bind (fun omciIndex => textViewLoop decode payload omciIndex st)

/-- Case 2 of `processPacket`: the marker search in `hex.EncodeToString(payload)` and
the loop over its results. -/
def hexView {σ μ : Type} (decode : σ → GoString → Option μ × σ) (payload : GoString)
    (st : ScanState σ μ) : Option (ScanState σ μ) :=
  (findOMCIMessageIndices (hexEncodeToString payload)).bind
    (fun omciIndex => hexViewLoop decode (hexEncodeToString payload) omciIndex st)

/-- The function `processPacket` on the payload of a TCP packet, started with the decoder
in state `d`: payloads below 60 bytes are not scanned, the others go through case 1 and
then case 2.  (The counter `seenPackets` is left out.) -/
def processPacket {σ μ : Type} (decode : σ → GoString → Option μ × σ) (payload : GoString)
    (d : σ) : Option (ScanState σ μ) :=
  if 60 ≤ payload.length then
    (textView decode payload { decoder := d, messagesList := [], handed := [] }).bind
      (fun st => hexView decode payload st)
  else some { decoder := d, messagesList := [], handed := [] }

/-! ### Notions the statements about the extractor are written in -/

/-- The 8 characters of `s` starting at offset `i` are the marker. -/
def markerAt (s : GoString) (i : Nat) : Bool := (s.drop i).take 8 == marker

/-- The characters of `s` at the offsets `a, …, b - 1`. -/
def window (s : GoString) (a b : Nat) : GoString := (s.take b).drop a

/-- The text-view candidates for the marker offsets `idxs`. -/
def textCandidates (s : GoString) (idxs : List Nat) : List GoString :=
  ((idxs.filter (fun idx => decide (91 ≤ idx))).map
    (fun idx => window s (idx - 80) (idx + 8))).filter isASCII

/-- The hex-view candidates for the marker offsets `idxs` of the string `h`. -/
def hexCandidates (h : GoString) (idxs : List Nat) : List GoString :=
  ((idxs.filter (fun idx => decide (102 ≤ idx))).map
    (fun idx => if idx + 16 ≤ h.length then window h (idx - 80) (idx + 16)
                else window h (idx - 80) (idx + 8))).filter isASCII

/-- The bytes of a text of ASCII characters. -/
def asciiBytes (cs : List Char) : GoString := cs.map (fun c => Fin.ofNat c.toNat)

/-- The shortest lowercase hexadecimal numeral of `n`. -/
def shortestHex (n : Nat) : GoString := asciiBytes (Nat.toDigits 16 n)

/-- A decoder that returns its argument as the record, for every argument. -/
def acceptAll (u : Unit) (c : GoString) : Option GoString × Unit := (some c, u)

/-- The frame `0001490a01010000c000…00000028` that the comment on `decodeOMCIMessage`
gives as its example (a GetRequest for ONU-G), followed by the checksum `deadbeef`: 96
hex characters. -/
def exampleFrame : GoString :=
  [48, 48, 48, 49, 52, 57, 48, 97, 48, 49, 48, 49, 48, 48, 48, 48, 99] ++ List.replicate 69 48 ++
    [50, 56, 100, 101, 97, 100, 98, 101, 101, 102]

/-- A payload of 60 bytes whose hex encoding is `a12bffffffc34dfffffffff`, then
`exampleFrame`, then `0`: the frame starts in the middle of the twelfth byte. -/
def misalignedPayload : GoString :=
  [161, 43, 255, 255, 255, 195, 77, 255, 255, 255, 255, 240, 0, 20, 144, 160, 16, 16, 0, 12] ++
    List.replicate 34 0 ++ [2, 141, 234, 219, 238, 240]

/-- A text-view payload of 99 bytes: 11 bytes `0x07`, then 80 characters `0`, then the
marker. -/
def textExamplePayload : GoString :=
  List.replicate 11 (7 : Byte) ++ List.replicate 80 48 ++ marker

/-! ## The attribute parser (`parseAttributes`) -/

/-- The attribute types of the schema library (`generated.AttributeType`). -/
inductive AttributeType where
  | Unknown | Octets | String | UnsignedInteger | Table | SignedInteger | Pointer | BitField
  | Enumeration | Counter
deriving DecidableEq

/-- The fields of a `generated.AttributeDefinition` that the injector reads. -/
structure AttributeDefinition where
  Name : List Char
  Mask : Nat
  AttributeType : AttributeType
deriving DecidableEq

/-- A `generated.AttributeDefinitionMap`, seen through the library's lookup
`generated.GetAttributeDefinitionByName`: `none` is the lookup's error. -/
structure AttributeDefinitionMap where
  getByName : List Char → Option AttributeDefinition

/-- A value stored in a `generated.AttributeValueMap` by `parseAttributes`: a string or
an `int`. -/
inductive AttributeValue where
  | str (s : List Char)
  | int (n : Int)
deriving DecidableEq

/-- A `generated.AttributeValueMap` (`map[string]interface{}`): at most one entry for
each key. -/
abbrev AttributeValueMap := List (List Char × AttributeValue)

/-- The assignment `m[key] = v`. -/
def mapSet (m : AttributeValueMap) (key : List Char) (v : AttributeValue) : AttributeValueMap :=
  match m with
  | [] => [(key, v)]
  | (k, w) :: rest => if k = key then (k, v) :: rest else (k, w) :: mapSet rest key v

/-- The errors `parseAttributes` returns: its own `"attribute list is empty"`, the
error of the lookup by name, and the error of `strconv.Atoi`. -/
inductive ParseError where
  | emptyAttributeList
  | attributeNotFound (name : List Char)
  | atoiError (value : List Char)
deriving DecidableEq

/-- Go's `strings.Split(s, sep)` for a separator of one character. -/
def stringsSplit (sep : Char) : List Char → List (List Char)
  | [] => [[]]
  | c :: rest =>
    if c = sep then [] :: stringsSplit sep rest
    else
      match stringsSplit sep rest with
      | [] => [[c]]
      | p :: ps => (c :: p) :: ps

/-- The value of a string of decimal digits, continuing from `acc`; `none` when a
character is not a digit. -/
def digitsValue : List Char → Nat → Option Nat
  | [], acc => some acc
  | c :: rest, acc =>
    if '0' ≤ c ∧ c ≤ '9' then digitsValue rest (acc * 10 + (c.toNat - '0'.toNat)) else none

/-- Go's `strconv.Atoi`: an optional sign and one or more decimal digits denoting a
value in the range of `int`; `none` is an error. -/
def Atoi (s : List Char) : Option Int :=
  let signed : Bool × List Char :=
    match s with
    | '+' :: rest => (false, rest)
    | '-' :: rest => (true, rest)
    | _ => (false, s)
  if signed.2 = [] then none
  else
    match digitsValue signed.2 0 with
    | none => none
    | some n =>
      let v : Int := if signed.1 then -(n : Int) else (n : Int)
      if -9223372036854775808 ≤ v ∧ v ≤ 9223372036854775807 then some v else none

/-- The loop `for _, pair := range keyValue` of `parseAttributes`.  The result is the
pair `(map, error)` the function returns: `none` stands for `nil`. -/
def parseLoop (definitions : AttributeDefinitionMap) :
    List (List Char) → AttributeValueMap → Option AttributeValueMap × Option ParseError
  | [], attributesMap => (some attributesMap, none)
  | pair :: rest, attributesMap =>
    match stringsSplit '=' pair with
    | name :: value :: _ =>
      match definitions.getByName name with
      | none => (none, some (ParseError.attributeNotFound name))
      | some definition =>
        if definition.AttributeType = AttributeType.String then
          parseLoop definitions rest (mapSet attributesMap name (AttributeValue.str value))
        else if definition.AttributeType ≠ AttributeType.BitField ∧
            definition.AttributeType ≠ AttributeType.Octets ∧
            definition.AttributeType ≠ AttributeType.Table then
          match Atoi value with
          | none => (none, some (ParseError.atoiError value))
          | some n => parseLoop definitions rest (mapSet attributesMap name (AttributeValue.int n))
        else parseLoop definitions rest attributesMap
    | _ => parseLoop definitions rest attributesMap

/-- The function `parseAttributes(attributes, definitions)`. -/
def parseAttributes (attributes : List Char) (definitions : AttributeDefinitionMap) :
    Option AttributeValueMap × Option ParseError :=
  if attributes = [] then (none, some ParseError.emptyAttributeList)
  else
    parseLoop definitions (stringsSplit ',' (attributes.filter (fun c => c ≠ ' '))) []

/-! ### Notions the statements about the attribute parser are written in -/

/-- A decimal integer: an optional sign followed by one or more decimal digits. -/
def isDecimalInteger (s : List Char) : Bool :=
  match s with
  | '+' :: rest => !rest.isEmpty && rest.all (fun c => decide ('0' ≤ c ∧ c ≤ '9'))
  | '-' :: rest => !rest.isEmpty && rest.all (fun c => decide ('0' ≤ c ∧ c ≤ '9'))
  | _ => !s.isEmpty && s.all (fun c => decide ('0' ≤ c ∧ c ≤ '9'))

/-- The natural number a string of decimal digits denotes. -/
def digitsNat (s : List Char) : Nat :=
  s.foldl (fun acc c => acc * 10 + (c.toNat - '0'.toNat)) 0

/-- The integer a decimal integer denotes. -/
def decimalValue (s : List Char) : Int :=
  match s with
  | '+' :: rest => (digitsNat rest : Int)
  | '-' :: rest => -(digitsNat rest : Int)
  | _ => (digitsNat s : Int)

/-- The text made of the comma-separated entries `ps`. -/
def joinEntries : List (List Char) → List Char
  | [] => []
  | [p] => p
  | p :: q :: rest => p ++ ',' :: joinEntries (q :: rest)

/-- The entry `name=tail`. -/
def entryText (e : List Char × List Char) : List Char := e.1 ++ '=' :: e.2

/-- The field of an entry `name=tail` that `parseAttributes` reads as the value: the part
of `tail` in front of its first `=`, the whole of `tail` when it has none. -/
def valueField (tail : List Char) : List Char := tail.takeWhile (fun c => c ≠ '=')

/-- An attribute type whose values `parseAttributes` converts with `strconv.Atoi`. -/
def isIntegerTyped (t : AttributeType) : Bool :=
  t ≠ AttributeType.String ∧ t ≠ AttributeType.BitField ∧ t ≠ AttributeType.Octets ∧
    t ≠ AttributeType.Table

/-- What `parseAttributes` stores for the entry `name=tail`, if anything. -/
def storedEntry (definitions : AttributeDefinitionMap) (e : List Char × List Char) :
    Option (List Char × AttributeValue) :=
  match definitions.getByName e.1 with
  | none => none
  | some d =>
    if d.AttributeType = AttributeType.String then some (e.1, AttributeValue.str (valueField e.2))
    else if isIntegerTyped d.AttributeType then
      (Atoi (valueField e.2)).map (fun k => (e.1, AttributeValue.int k))
    else none

/-- The value stored under `key` in an attribute-value map. -/
def mapGet (m : AttributeValueMap) (key : List Char) : Option AttributeValue :=
  (m.find? (fun kv => kv.1 = key)).map (fun kv => kv.2)

/-- A schema for the examples: `AllocId` and `FixedBitRate` are integer-typed, `Name` is
a string and `Bits` a bit field. -/
def exampleDefinitions : AttributeDefinitionMap :=
  { getByName := fun n =>
      if n = "AllocId".toList then
        some { Name := n, Mask := 0x8000, AttributeType := AttributeType.UnsignedInteger }
      else if n = "FixedBitRate".toList then
        some { Name := n, Mask := 0x4000, AttributeType := AttributeType.UnsignedInteger }
      else if n = "Name".toList then
        some { Name := n, Mask := 0x2000, AttributeType := AttributeType.String }
      else if n = "Bits".toList then
        some { Name := n, Mask := 0x1000, AttributeType := AttributeType.BitField }
      else none }

/-- The result of `Atoi` on the digits `body` read with the sign `neg`. -/
def atoiDigits (neg : Bool) (body : List Char) : Option Int :=
  if body = [] then none
  else
    match digitsValue body 0 with
    | none => none
    | some n =>
      let v : Int := if neg then -(n : Int) else (n : Int)
      if -9223372036854775808 ≤ v ∧ v ≤ 9223372036854775807 then some v else none

/-- One or more decimal digits. -/
def isDigits (s : List Char) : Bool :=
  !s.isEmpty && s.all (fun c => decide ('0' ≤ c ∧ c ≤ '9'))

/-! ## The builders and the injector (`buildMessage`, `build…Request`, `injectOmciMessage`,
`buildMIBUploadProcess`, `InjectMessage`) -/

/-- The message types of the requests the injector builds (`omci.MessageType`). -/
inductive MessageType where
  | GetRequest | SetRequest | CreateRequest | DeleteRequest | MibResetRequest | MibUploadRequest
  | MibUploadNextRequest | RebootRequest | GetAllAlarmsRequest
deriving DecidableEq

/-- The OMCI layer `omci.OMCI` as the builders fill it in. -/
structure OMCI where
  TransactionID : Nat
  MessageType : MessageType
deriving DecidableEq

/-- The message-type layer a builder hands to `buildMessage`, with the fields it sets. -/
inductive MessageLayer where
  | GetRequest (EntityClass EntityInstance AttributeMask : Nat)
  | SetRequest (EntityClass EntityInstance AttributeMask : Nat) (Attributes : AttributeValueMap)
  | CreateRequest (EntityClass EntityInstance : Nat) (Attributes : AttributeValueMap)
  | DeleteRequest (EntityClass EntityInstance : Nat)
  | MibResetRequest (EntityClass EntityInstance : Nat)
  | MibUploadRequest (EntityClass EntityInstance : Nat)
  | MibUploadNextRequest (EntityClass EntityInstance CommandSequenceNumber : Nat)
  | RebootRequest (EntityClass EntityInstance RebootCondition : Nat)
  | GetAllAlarmsRequest (EntityClass EntityInstance AlarmRetrievalMode : Nat)
deriving DecidableEq

/-- What the injector reads of a managed-entity definition of the schema library. -/
structure ManagedEntityDefinition where
  AttributeDefinitions : AttributeDefinitionMap
  AllowedAttributeMask : Nat

/-- The libraries and the run time, as far as the builders depend on them:
`generated.LoadManagedEntityDefinition` (the definition of a class, or the text of its
error), `gopacket.SerializeLayers` (the bytes of a message, or the text of its error), the
text `err.Error()` of an error of `parseAttributes`, and the order in which a `range` over
an attribute-value map yields its keys. -/
structure Libraries where
  LoadManagedEntityDefinition : Nat → Except GoString ManagedEntityDefinition
  SerializeLayers : OMCI → MessageLayer → Except GoString GoString
  errorText : ParseError → GoString
  mapRange : AttributeValueMap → List (List Char)

/-- The text `"ERROR:"`. -/
def errorTag : GoString := [69, 82, 82, 79, 82, 58]

/-- The text `"ERROR: "` that the builders put in front of an error. -/
def errorLead : GoString := errorTag ++ [32]

/-- The text `"OMCI message injected!"`. -/
def injectedText : GoString := asciiBytes "OMCI message injected!".toList

/-- The text `"No. commands is 0!"`. -/
def noCommandsText : GoString := asciiBytes "No. commands is 0!".toList

/-- Class id of the ONU-G managed entity (`generated.OnuGClassID`). -/
def OnuGClassID : Nat := 256

/-- The function `buildMessage`: the hex string of the serialised layers, or `"ERROR: "`
and the text of the serialisation error. -/
def buildMessage (lib : Libraries) (omciPart : OMCI) (messagetype : MessageLayer) : GoString :=
  match lib.SerializeLayers omciPart messagetype with
  | Except.error text => errorLead ++ text
  | Except.ok message => hexEncodeToString message

/-- The function `buildGetRequest`. -/
def buildGetRequest (lib : Libraries) (tid instanceId classId : Nat) : GoString :=
  match lib.LoadManagedEntityDefinition classId with
  | Except.error text => text
  | Except.ok meDef =>
    buildMessage lib { TransactionID := tid, MessageType := MessageType.GetRequest }
      (MessageLayer.GetRequest classId instanceId meDef.AllowedAttributeMask)

/-- The loop `for attribute, _ := range attributesParsed` of `buildSetRequest`, over the
keys in the order the `range` yields them: `attributeMask = attributeMask | definition.Mask`
for the definition found under the key; `none` when there is none (a nil dereference). -/
def attributeMaskLoop (definitions : AttributeDefinitionMap) : List (List Char) → Nat → Option Nat
  | [], attributeMask => some attributeMask
  | attributeName :: rest, attributeMask =>
    match definitions.getByName attributeName with
    | none => none
    | some definition => attributeMaskLoop definitions rest (attributeMask ||| definition.Mask)

/-- What `buildSetRequest` hands to `buildMessage`: `Except.error` is the string it
returns instead when the class or the attributes are rejected, `none` a run-time panic. -/
def setRequestLayers (lib : Libraries) (tid instanceId classId : Nat) (attributes : List Char) :
    Except GoString (Option (OMCI × MessageLayer)) :=
  match lib.LoadManagedEntityDefinition classId with
  | Except.error text => Except.error (errorLead ++ text)
  | Except.ok meDef =>
    match parseAttributes attributes meDef.AttributeDefinitions with
    | (_, some err) => Except.error (errorLead ++ lib.errorText err)
    | (none, none) => Except.ok none
    | (some attributesParsed, none) =>
      match attributeMaskLoop meDef.AttributeDefinitions (lib.mapRange attributesParsed) 0 with
      | none => Except.ok none
      | some attributeMask =>
        Except.ok (some ({ TransactionID := tid, MessageType := MessageType.SetRequest },
          MessageLayer.SetRequest classId instanceId attributeMask attributesParsed))

/-- The function `buildSetRequest`; `none` is a run-time panic. -/
def buildSetRequest (lib : Libraries) (tid instanceId classId : Nat) (attributes : List Char) :
    Option GoString :=
  match setRequestLayers lib tid instanceId classId attributes with
  | Except.error text => some text
  | Except.ok none => none
  | Except.ok (some layers) => some (buildMessage lib layers.1 layers.2)

/-- The function `buildCreateRequest`; `none` is a run-time panic. -/
def buildCreateRequest (lib : Libraries) (tid instanceId classId : Nat) (attributes : List Char) :
    Option GoString :=
  match lib.LoadManagedEntityDefinition classId with
  | Except.error text => some (errorLead ++ text)
  | Except.ok meDef =>
    match parseAttributes attributes meDef.AttributeDefinitions with
    | (_, some err) => some (errorLead ++ lib.errorText err)
    | (none, none) => none
    | (some attributesParsed, none) =>
      some (buildMessage lib { TransactionID := tid, MessageType := MessageType.CreateRequest }
        (MessageLayer.CreateRequest classId instanceId attributesParsed))

/-- The function `buildDeleteRequest`. -/
def buildDeleteRequest (lib : Libraries) (tid instanceId classId : Nat) : GoString :=
  buildMessage lib { TransactionID := tid, MessageType := MessageType.DeleteRequest }
    (MessageLayer.DeleteRequest classId instanceId)

/-- The function `buildMIBResetRequest`. -/
def buildMIBResetRequest (lib : Libraries) (tid : Nat) : GoString :=
  buildMessage lib { TransactionID := tid, MessageType := MessageType.MibResetRequest }
    (MessageLayer.MibResetRequest OnuDataClassID 0)

/-- The function `buildMIBUploadRequest`. -/
def buildMIBUploadRequest (lib : Libraries) (tid : Nat) : GoString :=
  buildMessage lib { TransactionID := tid, MessageType := MessageType.MibUploadRequest }
    (MessageLayer.MibUploadRequest OnuDataClassID 0)

/-- The function `buildRebootRequest`. -/
def buildRebootRequest (lib : Libraries) (tid : Nat) : GoString :=
  buildMessage lib { TransactionID := tid, MessageType := MessageType.RebootRequest }
    (MessageLayer.RebootRequest OnuGClassID 0 0)

/-- The function `buildGetAllAlarmsRequest`. -/
def buildGetAllAlarmsRequest (lib : Libraries) (tid : Nat) : GoString :=
  buildMessage lib { TransactionID := tid, MessageType := MessageType.GetAllAlarmsRequest }
    (MessageLayer.GetAllAlarmsRequest OnuDataClassID 0 0)

/-- The argument `stub.OmciMsg` of the RPC `OmciMsgOut`. -/
structure OmciMsg where
  IntfId : Nat
  OnuId : Nat
  Pkt : GoString
deriving DecidableEq

/-- The OLT behind the gRPC client: from its state and the message of an `OmciMsgOut`
call, the text of the call's error (`none` when the call succeeds) and its next state. -/
structure OltClient (ρ : Type) where
  OmciMsgOut : ρ → OmciMsg → Option GoString × ρ

/-- The state of an injection: the state of the OLT, the `OmciMsgOut` calls issued so
far, and the PDUs handed to `buildMessage` by `buildMIBUploadProcess` so far. -/
structure World (ρ : Type) where
  olt : ρ
  sent : List OmciMsg
  built : List (OMCI × MessageLayer)

/-- The function `injectOmciMessage`. -/
def injectOmciMessage {ρ : Type} (client : OltClient ρ) (w : World ρ) (intfId onuId : Nat)
    (omciMessage : GoString) : GoString × World ρ :=
  if errorTag.isPrefixOf omciMessage then (omciMessage, w)
  else
    let oltMessage : OmciMsg := { IntfId := intfId, OnuId := onuId, Pkt := omciMessage }
    match client.OmciMsgOut w.olt oltMessage with
    | (some text, olt) => (text, { olt := olt, sent := w.sent ++ [oltMessage], built := w.built })
    | (none, olt) =>
      (injectedText, { olt := olt, sent := w.sent ++ [oltMessage], built := w.built })

/-- The loop `for i := 0; i < commands; i++` of `buildMIBUploadProcess`, from the loop
state `(i, result)`. -/
def mibUploadLoop {ρ : Type} (lib : Libraries) (client : OltClient ρ) (intfId onuId tid : Nat)
    (commands : Int) : Nat → Int → GoString → World ρ → GoString × World ρ
  | 0, _, result, w => (result, w)
  | fuel + 1, i, result, w =>
    if i < commands then
      let omciPart : OMCI :=
        { TransactionID := addU16 tid (toUint16 i), MessageType := MessageType.MibUploadNextRequest }
      let messagetype := MessageLayer.MibUploadNextRequest OnuDataClassID 0 (toUint16 i)
      let message := buildMessage lib omciPart messagetype
      let r := injectOmciMessage client
        { olt := w.olt, sent := w.sent, built := w.built ++ [(omciPart, messagetype)] }
        intfId onuId message
      mibUploadLoop lib client intfId onuId tid commands fuel (wrapInt (i + 1)) r.1 r.2
    else (result, w)

/-- The function `buildMIBUploadProcess`.  The loop runs at most `commands` times, so that
`commands` is fuel enough (`mibUploadLoop_fuel_enough`). -/
def buildMIBUploadProcess {ρ : Type} (lib : Libraries) (client : OltClient ρ) (w : World ρ)
    (intfId onuId tid : Nat) (commands : Int) : GoString × World ρ :=
  mibUploadLoop lib client intfId onuId tid commands commands.toNat 0 noCommandsText w

/-- The injection types of `InjectMessage` that send OMCI messages built here; the
fixed SetRequests, the three OLT RPCs and the stress tests are left out. -/
inductive InjectionType where
  | OMCI_GetRequest | OMCI_MibResetRequest | OMCI_MIBUploadRequest | OMCI_RebootRequest
  | OMCI_GetAllAlarmsRequest | OMCI_CustomMessage | OMCI_SetRequest | OMCI_MIBUploadProcess
  | OMCI_CreateRequest | OMCI_DeleteRequest
deriving DecidableEq

/-- The function `InjectMessage` once the channel to the OLT is open; `none` is a
run-time panic. -/
def InjectMessage {ρ : Type} (lib : Libraries) (client : OltClient ρ) (w : World ρ)
    (injectionType : InjectionType) (intfId onuId transactionID entityInstance entityClass : Nat)
    (commands : Int) (attributes : List Char) (customMessage : GoString) :
    Option (GoString × World ρ) :=
  match injectionType with
  | InjectionType.OMCI_GetRequest =>
    some (injectOmciMessage client w intfId onuId
      (buildGetRequest lib transactionID entityInstance entityClass))
  | InjectionType.OMCI_MibResetRequest =>
    some (injectOmciMessage client w intfId onuId (buildMIBResetRequest lib transactionID))
  | InjectionType.OMCI_MIBUploadRequest =>
    some (injectOmciMessage client w intfId onuId (buildMIBUploadRequest lib transactionID))
  | InjectionType.OMCI_RebootRequest =>
    some (injectOmciMessage client w intfId onuId (buildRebootRequest lib transactionID))
  | InjectionType.OMCI_GetAllAlarmsRequest =>
    some (injectOmciMessage client w intfId onuId (buildGetAllAlarmsRequest lib transactionID))
  | InjectionType.OMCI_CustomMessage =>
    some (injectOmciMessage client w intfId onuId customMessage)
  | InjectionType.OMCI_SetRequest =>
    (buildSetRequest lib transactionID entityInstance entityClass attributes).map
      (fun message => injectOmciMessage client w intfId onuId message)
  | InjectionType.OMCI_MIBUploadProcess =>
    some (buildMIBUploadProcess lib client w intfId onuId transactionID commands)
  | InjectionType.OMCI_CreateRequest =>
    (buildCreateRequest lib transactionID entityInstance entityClass attributes).map
      (fun message => injectOmciMessage client w intfId onuId message)
  | InjectionType.OMCI_DeleteRequest =>
    some (injectOmciMessage client w intfId onuId
      (buildDeleteRequest lib transactionID entityInstance entityClass))

/-- The function `bufferOMCIPacket` on the ring buffer `omciPacketsBuffer` and the bound
`bufferSize`: the new content of the buffer; `none` when the slice expression is out of
range.  (A length fits an `int`, so that `(len - bufferSize) + 1` does not wrap around for
a `bufferSize` that is not negative.) -/
def bufferOMCIPacket {α : Type} (omciPacketsBuffer : List α) (bufferSize : Int) (omciPacket : α) :
    Option (List α) :=
  if (omciPacketsBuffer.length : Int) ≥ bufferSize then
    let start : Int := ((omciPacketsBuffer.length : Int) - bufferSize) + 1
    if 0 ≤ start ∧ start ≤ (omciPacketsBuffer.length : Int) then
      some (omciPacketsBuffer.drop start.toNat ++ [omciPacket])
    else none
  else some (omciPacketsBuffer ++ [omciPacket])

/-! ### Notions the statements about the builders are written in -/

/-- The mask of the attribute `key` in the schema (`0` for a name it does not have). -/
def schemaMask (definitions : AttributeDefinitionMap) (key : List Char) : Nat :=
  match definitions.getByName key with
  | some definition => definition.Mask
  | none => 0

/-- The bitwise OR of the schema masks of the names `keys` (`0` for no name). -/
def orMasks (definitions : AttributeDefinitionMap) (keys : List (List Char)) : Nat :=
  keys.foldl (fun mask key => mask ||| schemaMask definitions key) 0

/-! ### Examples of libraries and of an OLT -/

/-- The class id a message-type layer carries in its `MeBasePacket`. -/
def layerClass : MessageLayer → Nat
  | MessageLayer.GetRequest entityClass _ _ => entityClass
  | MessageLayer.SetRequest entityClass _ _ _ => entityClass
  | MessageLayer.CreateRequest entityClass _ _ => entityClass
  | MessageLayer.DeleteRequest entityClass _ => entityClass
  | MessageLayer.MibResetRequest entityClass _ => entityClass
  | MessageLayer.MibUploadRequest entityClass _ => entityClass
  | MessageLayer.MibUploadNextRequest entityClass _ _ => entityClass
  | MessageLayer.RebootRequest entityClass _ _ => entityClass
  | MessageLayer.GetAllAlarmsRequest entityClass _ _ => entityClass

/-- Libraries for the examples.  The registry answers every class id: for the class 262
(T-CONT) with the schema `exampleDefinitions`, for every other class with a definition
that has no attributes.  The serialiser refuses the transaction id 0 and every class but
262, OnuData and ONU-G, and otherwise returns the two bytes of the transaction id.  A
`range` over a map yields its keys in the reverse of the order they were stored in. -/
def exampleLibraries : Libraries :=
  { LoadManagedEntityDefinition := fun classId =>
      if classId = 262 then
        Except.ok { AttributeDefinitions := exampleDefinitions, AllowedAttributeMask := 0xF000 }
      else
        Except.ok { AttributeDefinitions := { getByName := fun _ => none },
                    AllowedAttributeMask := 0 },
    SerializeLayers := fun omciPart messagetype =>
      if omciPart.TransactionID = 0 then
        Except.error (asciiBytes "transaction id 0 is not allowed".toList)
      else if layerClass messagetype = 262 ∨ layerClass messagetype = OnuDataClassID ∨
          layerClass messagetype = OnuGClassID then
        Except.ok [Fin.ofNat (omciPart.TransactionID / 256), Fin.ofNat omciPart.TransactionID]
      else Except.error (asciiBytes "managed entity does not support the message type".toList),
    errorText := fun _ => asciiBytes "attribute error".toList,
    mapRange := fun m => (m.map (fun kv => kv.1)).reverse }

/-- An OLT that accepts every message. -/
def acceptingOlt : OltClient Unit :=
  { OmciMsgOut := fun u _ => (none, u) }

/-- The state in which nothing has been sent or built. -/
def emptyWorld : World Unit := { olt := (), sent := [], built := [] }

/-! ## Hex decoding (`hex.DecodeString`) -/

/-- The value of a hex digit (`fromHexChar` of `encoding/hex`): `0`–`9`, `a`–`f`, `A`–`F`. -/
def fromHexChar (c : Byte) : Option Nat :=
  if 48 ≤ c.val ∧ c.val ≤ 57 then some (c.val - 48)
  else if 97 ≤ c.val ∧ c.val ≤ 102 then some (c.val - 97 + 10)
  else if 65 ≤ c.val ∧ c.val ≤ 70 then some (c.val - 65 + 10)
  else none

/-- Go's `hex.DecodeString`: the bytes a string of hex digit pairs denotes; `none` is an
error (a character that is no hex digit, or an odd length). -/
def hexDecodeString : GoString → Option GoString
  | [] => some []
  | [_] => none
  | a :: b :: rest =>
    match fromHexChar a, fromHexChar b, hexDecodeString rest with
    | some x, some y, some bytes => some (Fin.ofNat (x * 16 + y) :: bytes)
    | _, _, _ => none

/-! ## The ring buffer as a state machine -/

/-- The two globals `omciPacketsBuffer` and `bufferSize`. -/
structure BufferState (α : Type) where
  omciPacketsBuffer : List α
  bufferSize : Int
  deriving DecidableEq

/-- What changes the two globals: a call of `bufferOMCIPacket`, the re-read of
`bufferSize` from `config["buffer"]` at the start of `packetsFromPCAP` and of
`startSniffer`, and `omciPacketsBuffer = nil` in the index handler. -/
inductive BufferAction (α : Type) where
  | push (omciPacket : α)
  | reread (configBuffer : List Char)
  | clear

/-- The value `bufferSize` gets from the text `config["buffer"]`:
`bufferSize, err = strconv.Atoi(config["buffer"])`, then `10000` if `err != nil`, then
`10000` if `bufferSize <= 1`. -/
def rereadBufferSize (configBuffer : List Char) : Int :=
  match Atoi configBuffer with
  | none => 10000
  | some n => if n ≤ 1 then 10000 else n

/-- One step of the ring buffer; `none` is a run-time panic. -/
def bufferStep {α : Type} (s : BufferState α) : BufferAction α → Option (BufferState α)
  | BufferAction.push omciPacket =>
    (bufferOMCIPacket s.omciPacketsBuffer s.bufferSize omciPacket).map
      (fun b => { omciPacketsBuffer := b, bufferSize := s.bufferSize })
  | BufferAction.reread configBuffer =>
    some { omciPacketsBuffer := s.omciPacketsBuffer, bufferSize := rereadBufferSize configBuffer }
  | BufferAction.clear => some { omciPacketsBuffer := [], bufferSize := s.bufferSize }

/-- A sequence of steps. -/
def bufferRun {α : Type} (s : BufferState α) : List (BufferAction α) → Option (BufferState α)
  | [] => some s
  | a :: rest => (bufferStep s a).bind (fun s1 => bufferRun s1 rest)

/-- The initial state: `var omciPacketsBuffer []omciPacketStruct` and
`var bufferSize int = 10000`. -/
def initialBuffer (α : Type) : BufferState α := { omciPacketsBuffer := [], bufferSize := 10000 }

/-- The last step is a push or a clear. -/
def endsWithPushOrClear {α : Type} (actions : List (BufferAction α)) : Bool :=
  match actions.getLast? with
  | some (BufferAction.push _) => true
  | some BufferAction.clear => true
  | _ => false

/-- A payload of 60 bytes: 12 bytes of framing, then the 48 bytes that `exampleFrame`
is the hex encoding of. -/
def alignedPayload : GoString :=
  [161, 43, 255, 255, 255, 195, 77, 255, 255, 255, 255, 255, 0, 1, 73, 10, 1, 1, 0, 0, 192, 0] ++
    List.replicate 33 0 ++ [40, 222, 173, 190, 239]

/-! ## A whole stress run: the send loop, the result channel and the aggregator -/

/-- The value `resultStruct{count, mps}` a client writes into the result channel.  The
`float64` field `mps` is a value of a type `φ` that the clock supplies. -/
structure resultStruct (φ : Type) where
  count : Int
  mps : φ
  deriving DecidableEq

/-- The clock of one stress run: the outcome of the test
`time.Since(startTime).Seconds() > float64(timeout)` made after the `k`-th send, and, for
the final value of `counter`, the quotient `float64(counter) / elapsedTime` and the text
`"Injected … messages in … seconds! (… msg/s)"`. -/
structure StressClock (φ : Type) where
  exceeded : Int → Nat → Bool
  messagesPerSecond : Nat → φ
  report : Nat → GoString

/-- The string `buildMessage(omciPart, messagetype)` of a pre-built PDU. -/
def pduMessage (lib : Libraries) (m : GetRequestPDU) : GoString :=
  buildMessage lib { TransactionID := m.TransactionID, MessageType := MessageType.GetRequest }
    (MessageLayer.GetRequest m.EntityClass m.EntityInstance m.AttributeMask)

/-- The loop `for _, message := range messages` of `buildStresstest`, from the state
`(counter, w)`: `injectOmciMessage(…, message)`, `counter++`, and `break` when the test of
the clock after this send succeeds.  The result of `injectOmciMessage` is dropped. -/
def sendLoop {ρ : Type} (client : OltClient ρ) (intfId onuId : Nat) (exceeded : Nat → Bool) :
    List GoString → Nat → World ρ → Nat × World ρ
  | [], counter, w => (counter, w)
  | message :: rest, counter, w =>
    let w1 := (injectOmciMessage client w intfId onuId message).2
    if exceeded (counter + 1) then (counter + 1, w1)
    else sendLoop client intfId onuId exceeded rest (counter + 1) w1

/-- What a call of `buildStresstest` leaves: the string it returns, the state of the
injection, the content of the result channel (`none` for the `nil` channel), and the
value of `counter` (`0` when the call returns before the send loop). -/
structure StressOutcome (ρ φ : Type) where
  result : GoString
  world : World ρ
  resultChannel : Option (List (resultStruct φ))
  counter : Nat

/-- The function `buildStresstest`.  The result channel is the list of the values written
into it so far.  The pre-build loop runs at most `commands` times, so that `commands` is
fuel enough (`stressLoop_fuel_enough`). -/
def buildStresstest {ρ φ : Type} (lib : Libraries) (client : OltClient ρ) (clock : StressClock φ)
    (w : World ρ) (intfId onuId tid : Nat) (commands timeout : Int)
    (resultChannel : Option (List (resultStruct φ))) : StressOutcome ρ φ :=
  if commands ≤ 0 then
    { result := noCommandsText, world := w, resultChannel := resultChannel, counter := 0 }
  else
    match lib.LoadManagedEntityDefinition OnuDataClassID with
    | Except.error text =>
      { result := text, world := w, resultChannel := resultChannel, counter := 0 }
    | Except.ok meDef =>
      let messages :=
        (stressLoop meDef.AllowedAttributeMask tid commands.toNat 0 commands []).map
          (pduMessage lib)
      let r := sendLoop client intfId onuId (clock.exceeded timeout) messages 0 w
      { result := clock.report r.1,
        world := r.2,
        resultChannel := resultChannel.map
          (fun results => results ++ [{ count := (r.1 : Int), mps := clock.messagesPerSecond r.1 }]),
        counter := r.1 }

/-- How a call of `buildStresstestMulti` ends: with `"Bad number of clients!"`, never
(a receive from the result channel blocks for ever), or with the sum `totalCount`. -/
inductive MultiOutcome where
  | badClients
  | blocked
  | total (totalCount : Int)
  deriving DecidableEq

/-- The loop `for i := uint16(0); i < totalClients; i++ { result := <-resultChannel;
totalCount += result.count; … }` over the values the clients write into the channel;
`none` when a receive finds that no client writes a value any more. -/
def receiveLoop {φ : Type} : Nat → List (resultStruct φ) → Int → Option Int
  | 0, _, totalCount => some totalCount
  | _ + 1, [], _ => none
  | n + 1, r :: rest, totalCount => receiveLoop n rest (wrapInt (totalCount + r.count))

/-- The values the clients of `buildStresstestMulti` write into the result channel, client
`0` first.  Every client has a connection and a clock of its own and is run from the
state `w`. -/
def clientResults {ρ φ : Type} (lib : Libraries) (client : OltClient ρ)
    (clocks : Nat → StressClock φ) (w : World ρ) (intfId onuId : Nat) (commands timeout : Int)
    (starts : List Nat) : List (resultStruct φ) :=
  (starts.enum.map (fun ks =>
    ((buildStresstest lib client (clocks ks.1) w intfId onuId ks.2 commands timeout
      (some [])).resultChannel).getD [])).flatten

/-- The function `buildStresstestMulti` for the process count `totalProcesses` that
`strconv.Atoi` returned, every connection taken to open. -/
def buildStresstestMulti {ρ φ : Type} (lib : Libraries) (client : OltClient ρ)
    (clocks : Nat → StressClock φ) (w : World ρ) (intfId onuId tid : Nat)
    (commands timeout totalProcesses : Int) : MultiOutcome :=
  match buildStresstestMultiStarts tid totalProcesses with
  | none => MultiOutcome.badClients
  | some starts =>
    match receiveLoop (toUint16 totalProcesses)
        (clientResults lib client clocks w intfId onuId commands timeout starts) 0 with
    | none => MultiOutcome.blocked
    | some totalCount => MultiOutcome.total totalCount

/-- The position of the first send after which the elapsed seconds exceed the timeout,
among `n` sends; `n` when there is none. -/
def firstExceeded (exceeded : Nat → Bool) (n : Nat) : Nat :=
  match (List.range' 1 n).find? exceeded with
  | some k => k
  | none => n

/-- A library for the examples of the stress driver: the registry answers OnuData with
the allowed-attribute mask `0x8000` and every other class with a definition that has no
attributes, and the serialiser returns the two bytes of the transaction id. -/
def onuDataLibraries : Libraries :=
  { LoadManagedEntityDefinition := fun classId =>
      if classId = OnuDataClassID then
        Except.ok { AttributeDefinitions := exampleDefinitions, AllowedAttributeMask := 0x8000 }
      else
        Except.ok { AttributeDefinitions := { getByName := fun _ => none },
                    AllowedAttributeMask := 0 },
    SerializeLayers := fun omciPart _ =>
      Except.ok [Fin.ofNat (omciPart.TransactionID / 256), Fin.ofNat omciPart.TransactionID],
    errorText := fun _ => [],
    mapRange := fun m => m.map (fun kv => kv.1) }

/-- An OLT that rejects every message. -/
def rejectingOlt : OltClient Unit :=
  { OmciMsgOut := fun u _ => (some (asciiBytes "unavailable".toList), u) }

/-- A clock on which every send takes `secondsPerSend` seconds. -/
def steadyClock (secondsPerSend : Int) : StressClock Unit :=
  { exceeded := fun timeout k => decide (timeout < (k : Int) * secondsPerSend),
    messagesPerSecond := fun _ => (),
    report := fun _ => [] }

/-! ## The decoder (`decodeOMCIMessage`, `getAlarm`) -/

/-- The decimal digits of `n`, most significant first, in front of `acc`; a fuel above
`n` is enough. -/
def itoaDigits : Nat → Nat → GoString → GoString
  | 0, _, acc => acc
  | fuel + 1, n, acc =>
    if n < 10 then Fin.ofNat (48 + n) :: acc
    else itoaDigits fuel (n / 10) (Fin.ofNat (48 + n % 10) :: acc)

/-- Go's `strconv.Itoa`: the decimal numeral of an `int`, with `-` in front of a negative
one. -/
def Itoa (i : Int) : GoString :=
  if i < 0 then 45 :: itoaDigits (i.natAbs + 1) i.natAbs []
  else itoaDigits (i.natAbs + 1) i.natAbs []

/-- Conversion `uint8(x)` of a Go `int`: the low 8 bits. -/
def toUint8 (x : Int) : Nat := (x % 256).toNat

/-- A value stored in `MessageData` (a `map[string]any`): a string, the attribute-value
map of a managed entity, or a `uint16`. -/
inductive DataValue where
  | text (s : GoString)
  | attributes (m : AttributeValueMap)
  | number (n : Nat)
  deriving DecidableEq

/-- The map `MessageData`: the keys that have been assigned, each with its value. -/
abbrev MessageDataMap := List (GoString × DataValue)

/-- The assignment `MessageData[key] = v`. -/
def dataSet (m : MessageDataMap) (key : GoString) (v : DataValue) : MessageDataMap :=
  match m with
  | [] => [(key, v)]
  | (k, w) :: rest => if k = key then (k, v) :: rest else (k, w) :: dataSet rest key v

/-- The value stored under `key` in `MessageData`. -/
def dataGet (m : MessageDataMap) (key : GoString) : Option DataValue :=
  (m.find? (fun kv => kv.1 = key)).map (fun kv => kv.2)

/-- The OMCI layer of a decoded packet, as far as `decodeOMCIMessage` reads it: the text
`MessageType.String()` and the transaction id. -/
structure OMCIHeader where
  MessageType : GoString
  TransactionID : Nat
  deriving DecidableEq

/-- The field `ReportedME` of a message layer, as far as it is read: the results of
`GetAttributeValueMap()`, `GetClassID().String()` and `GetEntityID()`. -/
structure ReportedManagedEntity where
  AttributeValueMap : AttributeValueMap
  ClassID : GoString
  EntityID : Nat
  deriving DecidableEq

/-- The message layer as reflection shows it: for each field name the code looks up,
the value of the field, or `none` when the layer has no field of that name. -/
structure MessageLayerFields where
  EntityClass : Option Nat
  EntityInstance : Option Nat
  Result : Option GoString
  ReportedME : Option ReportedManagedEntity
  AlarmBitmap : Option (List Byte)
  AlarmBitMap : Option (List Byte)
  AlarmEntityClass : Option Nat

/-- The packet `gp.NewPacket(bytes, omci.LayerTypeOMCI, gp.NoCopy)`, as far as it is
read: the text of its error layer, its OMCI layer, and the layer of the type
`omciLayer.NextLayerType()`; `none` where the packet has no such layer. -/
structure Packet where
  ErrorLayer : Option GoString
  omciLayer : Option OMCIHeader
  messageLayer : Option MessageLayerFields

/-- The OMCI library as far as the decoder depends on it: the packet built from the
bytes of a message, the text `ClassID.String()`, and the alarm map
`me.GetAlarmMap()` of the definition `generated.LoadManagedEntityDefinition(class)`
(`none` when that reports an error). -/
structure OmciLibrary where
  NewPacket : GoString → Packet
  classString : Nat → GoString
  LoadAlarmMap : Nat → Option (Nat → Option GoString)

/-- The function `getAlarm`. -/
def getAlarm (lib : OmciLibrary) (classId : Nat) (alarmNo : Int) : GoString :=
  match lib.LoadAlarmMap classId with
  | none => asciiBytes "Unknown Class/Alarm".toList
  | some alarmMap =>
    match alarmMap (toUint8 alarmNo) with
    | some alarm => asciiBytes "Type ".toList ++ Itoa alarmNo ++ asciiBytes ": ".toList ++ alarm
    | none => asciiBytes "Unknown Alarm No: ".toList ++ Itoa alarmNo

/-- The constant `omci.AlarmBitmapSize`: the number of bits of an alarm bitmap. -/
def AlarmBitmapSize : Nat := 224

/-- The text `"Alarm "`. -/
def alarmLead : GoString := asciiBytes "Alarm ".toList

/-- The key `"Alarm "+strconv.Itoa(totalAlarms)`. -/
def alarmKey (totalAlarms : Nat) : GoString := alarmLead ++ Itoa (totalAlarms : Int)

/-- The body of the loop `for j := 0; j < 8; j++` on the state
`(totalAlarms, MessageData)`, for the byte `alarmBitmap[i]`: when
`alarmBitmap[i]&byte(math.Pow(2, float64(7-j))) != 0`, the assignment
`MessageData["Alarm "+strconv.Itoa(totalAlarms)] = getAlarm(alarmClass, i*8+j)` and
`totalAlarms++`. -/
def alarmBit (lib : OmciLibrary) (alarmClass : Nat) (b : Byte) (i : Nat)
    (st : Nat × MessageDataMap) (j : Nat) : Nat × MessageDataMap :=
  if b.val &&& 2 ^ (7 - j) ≠ 0 then
    (st.1 + 1,
      dataSet st.2 (alarmKey st.1) (DataValue.text (getAlarm lib alarmClass ((i * 8 + j : Nat) : Int))))
  else st

/-- The body of the loop `for i := 0; i < omci.AlarmBitmapSize/8; i++`: the inner loop
over the bits of `alarmBitmap[i]`; `none` when the index `i` is out of range. -/
def alarmByte (lib : OmciLibrary) (alarmClass : Nat) (alarmBitmap : List Byte)
    (st : Nat × MessageDataMap) (i : Nat) : Option (Nat × MessageDataMap) :=
  match alarmBitmap[i]? with
  | none => none
  | some b => some ((List.range 8).foldl (alarmBit lib alarmClass b i) st)

/-- The two nested loops that decode an alarm bitmap, started with `totalAlarms := 0`:
the final `totalAlarms` and `MessageData`. -/
def alarmLoop (lib : OmciLibrary) (alarmClass : Nat) (alarmBitmap : List Byte)
    (data : MessageDataMap) : Option (Nat × MessageDataMap) :=
  (List.range (AlarmBitmapSize / 8)).foldlM (alarmByte lib alarmClass alarmBitmap) (0, data)

/-- The record `omciMessageStruct`, as far as `decodeOMCIMessage` fills it (the field
`MessageLayer`, a reference to the library's layer, is left out; `InterfaceId` and `OnuId`
are stamped by `processPacket`). -/
structure omciMessageStruct where
  MessageNumber : Int
  Messagetype : GoString
  TransactionId : Nat
  EntityClass : GoString
  InstanceId : Nat
  MessageData : MessageDataMap
  deriving DecidableEq

/-- The two global counters the decoder writes.  They count calls, which a run cannot
make `2^63` of, and are not reduced to the range of `int`. -/
structure Counters where
  totalOmciMessages : Int
  totalDecodingErrors : Int
  deriving DecidableEq

/-- The counters after `resetStats`. -/
def resetCounters : Counters := { totalOmciMessages := 0, totalDecodingErrors := 0 }

/-- The text `"Decoding Error"`. -/
def decodingErrorKey : GoString := asciiBytes "Decoding Error".toList

/-- The assignments to `MessageData` for the fields `Result` and `ReportedME` of the
message layer: the key `"Result"` when the layer has a field `Result`, and the keys
`"Attributes"`, `"Class"` and `"Instance"` when it has a field `ReportedME`. -/
def fieldData (layer : MessageLayerFields) (data : MessageDataMap) : MessageDataMap :=
  let data1 :=
    match layer.Result with
    | some result => dataSet data (asciiBytes "Result".toList) (DataValue.text result)
    | none => data
  match layer.ReportedME with
  | some managedEntity =>
    dataSet
      (dataSet
        (dataSet data1 (asciiBytes "Attributes".toList)
          (DataValue.attributes managedEntity.AttributeValueMap))
        (asciiBytes "Class".toList) (DataValue.text managedEntity.ClassID))
      (asciiBytes "Instance".toList) (DataValue.number managedEntity.EntityID)
  | none => data1

/-- The part of `decodeOMCIMessage` under `if reflect.ValueOf(messageLayer).IsValid()`:
the fields `EntityClass` and `InstanceId` of the record and its `MessageData`; `none` is
a run-time panic (the layer has no field `EntityClass` or `EntityInstance`, or the alarm
bitmap is shorter than 28 bytes). -/
def messageLayerData (lib : OmciLibrary) (layer : MessageLayerFields) (data : MessageDataMap) :
    Option (GoString × Nat × MessageDataMap) :=
  match layer.EntityClass, layer.EntityInstance with
  | some entityClass, some entityInstance =>
    if layer.AlarmBitmap.isSome ∨ layer.AlarmBitMap.isSome then
      let alarmBitmap : List Byte :=
        match layer.AlarmBitmap with
        | some bitmap => bitmap
        | none => layer.AlarmBitMap.getD []
      let alarmClass : Nat :=
        match layer.AlarmEntityClass with
        | some classId => classId
        | none => entityClass
      (alarmLoop lib alarmClass alarmBitmap (fieldData layer data)).map
        (fun st => (lib.classString entityClass, entityInstance, st.2))
    else some (lib.classString entityClass, entityInstance, fieldData layer data)
  | _, _ => none

/-- The `MessageData` of a record before the message layer is looked at: the key
`"Decoding Error"` with the text of the error layer, when the packet has one. -/
def errorData (omciPacket : Packet) : MessageDataMap :=
  match omciPacket.ErrorLayer with
  | some errorText => dataSet [] decodingErrorKey (DataValue.text errorText)
  | none => []

/-- The function `decodeOMCIMessage` on the counters `c`: the record it returns (`none`
for `nil`) and the counters after the call; the outer `none` is a run-time panic (the type
assertion on a missing OMCI layer, or a panic of `messageLayerData`). -/
def decodeOMCIMessage (lib : OmciLibrary) (c : Counters) (omciMessage : GoString) :
    Option (Option omciMessageStruct × Counters) :=
  match hexDecodeString omciMessage with
  | none => some (none, c)
  | some omciMessageBytes =>
    let omciPacket := lib.NewPacket omciMessageBytes
    let c1 : Counters :=
      match omciPacket.ErrorLayer with
      | some _ =>
        { totalOmciMessages := c.totalOmciMessages,
          totalDecodingErrors := c.totalDecodingErrors + 1 }
      | none => c
    if omciPacket.ErrorLayer.isSome ∧ omciPacket.omciLayer.isNone then some (none, c1)
    else
      let c2 : Counters :=
        { totalOmciMessages := c1.totalOmciMessages + 1,
          totalDecodingErrors := c1.totalDecodingErrors }
      match omciPacket.omciLayer with
      | none => none
      | some omciLayer =>
        match omciPacket.messageLayer with
        | none =>
          some (some { MessageNumber := c2.totalOmciMessages,
                       Messagetype := omciLayer.MessageType,
                       TransactionId := omciLayer.TransactionID,
                       EntityClass := [],
                       InstanceId := 0,
                       MessageData := errorData omciPacket }, c2)
        | some layer =>
          match messageLayerData lib layer (errorData omciPacket) with
          | none => none
          | some filled =>
            some (some { MessageNumber := c2.totalOmciMessages,
                         Messagetype := omciLayer.MessageType,
                         TransactionId := omciLayer.TransactionID,
                         EntityClass := filled.1,
                         InstanceId := filled.2.1,
                         MessageData := filled.2.2 }, c2)

/-- The decoder as `processPacket` calls it: on the counters, or on `none` once a call
has panicked. -/
def decodeStep (lib : OmciLibrary) (c : Option Counters) (omciMessage : GoString) :
    Option omciMessageStruct × Option Counters :=
  match c with
  | none => (none, none)
  | some counters =>
    match decodeOMCIMessage lib counters omciMessage with
    | none => (none, none)
    | some r => (r.1, some r.2)

/-- The loop `for packet := range packets` around `processPacket`, on the payloads of
the packets: the state of the decoder after the last packet and the records returned, in
the order they were decoded; `none` is a panic of the extractor. -/
def processPackets {σ μ : Type} (decode : σ → GoString → Option μ × σ) :
    List GoString → σ → List (StampedMessage μ) → Option (σ × List (StampedMessage μ))
  | [], d, messagesList => some (d, messagesList)
  | payload :: rest, d, messagesList =>
    match processPacket decode payload d with
    | none => none
    | some st => processPackets decode rest st.decoder (messagesList ++ st.messagesList)

/-! ### Notions the statements about the decoder are written in -/

/-- The decoder run over the strings `cs` in order, from the state `d` and the records
`ms`: its final state and the records it has returned. -/
def decodeAll {σ μ : Type} (decode : σ → GoString → Option μ × σ) :
    List GoString → σ → List μ → σ × List μ
  | [], d, ms => (d, ms)
  | c :: rest, d, ms =>
    match decode d c with
    | (none, d1) => decodeAll decode rest d1 ms
    | (some m, d1) => decodeAll decode rest d1 (ms ++ [m])

/-- The bit at position `p = 8*i + j` of a bitmap, with the bytes in order and the bits
of each byte counted from the most significant one: bit `7 - j` of byte `i`. -/
def alarmBitSet (alarmBitmap : List Byte) (p : Nat) : Bool :=
  match alarmBitmap[p / 8]? with
  | some b => b.val.testBit (7 - p % 8)
  | none => false

/-- The number of set bits of a bitmap before position `p`. -/
def setBitsBefore (alarmBitmap : List Byte) (p : Nat) : Nat :=
  ((List.range p).filter (alarmBitSet alarmBitmap)).length

/-- One step of the scan of a bitmap by position. -/
def alarmStep (lib : OmciLibrary) (alarmClass : Nat) (alarmBitmap : List Byte)
    (st : Nat × MessageDataMap) (p : Nat) : Nat × MessageDataMap :=
  if alarmBitSet alarmBitmap p then
    (st.1 + 1, dataSet st.2 (alarmKey st.1) (DataValue.text (getAlarm lib alarmClass (p : Int))))
  else st

/-- The alarm bitmap of a message layer: its field `AlarmBitmap`, or else its field
`AlarmBitMap`. -/
def alarmBitmapOf (layer : MessageLayerFields) : Option (List Byte) :=
  match layer.AlarmBitmap with
  | some bitmap => some bitmap
  | none => layer.AlarmBitMap

/-- The class whose alarms a bitmap is read by: the field `AlarmEntityClass` of the
message layer, or else its `EntityClass`. -/
def alarmClassOf (layer : MessageLayerFields) (entityClass : Nat) : Nat :=
  match layer.AlarmEntityClass with
  | some classId => classId
  | none => entityClass

/-- The library's contract as far as the decoder relies on it: a packet without an error
layer has an OMCI layer, a message layer has the fields `EntityClass` and
`EntityInstance`, and an alarm bitmap has 28 bytes. -/
def wellFormed (lib : OmciLibrary) : Prop :=
  ∀ bytes : GoString,
    ((lib.NewPacket bytes).ErrorLayer = none → (lib.NewPacket bytes).omciLayer ≠ none) ∧
    ∀ layer, (lib.NewPacket bytes).messageLayer = some layer →
      layer.EntityClass ≠ none ∧ layer.EntityInstance ≠ none ∧
      (∀ bitmap, layer.AlarmBitmap = some bitmap → bitmap.length = 28) ∧
      (∀ bitmap, layer.AlarmBitMap = some bitmap → bitmap.length = 28)

/-- A library for the examples of the decoder.  A message of fewer than four bytes has
an error layer and no OMCI layer.  Otherwise the first two bytes are the transaction id,
the third the message type, the fourth the class, and the rest the alarm bitmap; a rest
that is not 28 bytes long is reported as an error and replaced by an empty bitmap of 28
bytes.  Class 1 has the alarms 0 (`LOS`) and 15 (`DG`). -/
def exampleOmciLibrary : OmciLibrary :=
  { NewPacket := fun bytes =>
      match bytes with
      | b0 :: b1 :: b2 :: b3 :: rest =>
        { ErrorLayer := if rest.length = 28 then none else some (asciiBytes "bad length".toList),
          omciLayer := some { MessageType := [b2], TransactionID := b0.val * 256 + b1.val },
          messageLayer := some
            { EntityClass := some b3.val, EntityInstance := some 0, Result := none,
              ReportedME := none,
              AlarmBitmap := some (if rest.length = 28 then rest else List.replicate 28 0),
              AlarmBitMap := none, AlarmEntityClass := none } }
      | _ =>
        { ErrorLayer := some (asciiBytes "too short".toList), omciLayer := none,
          messageLayer := none },
    classString := fun classId => Itoa (classId : Int),
    LoadAlarmMap := fun classId =>
      if classId = 1 then
        some (fun alarmNo =>
          if alarmNo = 0 then some (asciiBytes "LOS".toList)
          else if alarmNo = 15 then some (asciiBytes "DG".toList)
          else none)
      else none }

/-- The bytes of an example message: transaction id 1, message type 16, class 1, and a
bitmap with the bits 0, 15 and 16 set. -/
def exampleAlarmBytes : GoString := [0, 1, 16, 1, 128, 1, 128] ++ List.replicate 25 0

/-- The hex string of the example message. -/
def exampleAlarmMessage : GoString := hexEncodeToString exampleAlarmBytes

/-- The bitmap of the example message. -/
def exampleAlarmBitmap : List Byte := [128, 1, 128] ++ List.replicate 25 0

/-- The message layer of the example message. -/
def exampleAlarmLayer : MessageLayerFields :=
  { EntityClass := some 1, EntityInstance := some 0, Result := none, ReportedME := none,
    AlarmBitmap := some exampleAlarmBitmap, AlarmBitMap := none, AlarmEntityClass := none }

/-! ### Notions the statements about the stamped records are written in -/

/-- The offsets of `s` at which the marker `"00000028"` starts, in increasing order. -/
def markerOffsets (s : GoString) : List Nat :=
  (List.range (s.length + 1)).filter (fun idx => decide ((s.drop idx).take 8 = marker))

/-- The hex-view candidate for the marker offset `idx` of the string `h`: `h[idx-80 : idx+16]`
when `idx + 16 ≤ len(h)`, and `h[idx-80 : idx+8]` otherwise. -/
def hexCandidate (h : GoString) (idx : Nat) : GoString :=
  if idx + 16 ≤ h.length then window h (idx - 80) (idx + 16) else window h (idx - 80) (idx + 8)

/-- A candidate together with the interface id and the ONU id that belong to it. -/
abbrev Stamp := GoString × GoString × GoString

/-- The decoder run over candidates in order, from the state `d` and the records `ms`: a
candidate the decoder returns a record for adds that record, stamped with the two ids
that come with the candidate; a candidate it returns `nil` for adds nothing. -/
def stampAll {σ μ : Type} (decode : σ → GoString → Option μ × σ) :
    List Stamp → σ → List (StampedMessage μ) → σ × List (StampedMessage μ)
  | [], d, ms => (d, ms)
  | t :: rest, d, ms =>
    match decode d t.1 with
    | (none, d1) => stampAll decode rest d1 ms
    | (some m, d1) =>
      stampAll decode rest d1 (ms ++ [{ message := m, InterfaceId := t.2.1, OnuId := t.2.2 }])

/-- The candidates of the text view with their ids: for each marker offset `idx ≥ 91` of
the payload whose window `payload[idx-80 : idx+8]` is ASCII, that window with the
shortest hexadecimal numerals of the bytes `payload[idx-91]` and `payload[idx-86]`. -/
def textStamps (payload : GoString) : List Stamp :=
  ((markerOffsets payload).filter
      (fun idx => decide (91 ≤ idx) && isASCII (window payload (idx - 80) (idx + 8)))).map
    (fun idx => (window payload (idx - 80) (idx + 8),
      shortestHex (payload.getD (idx - 91) 0).val, shortestHex (payload.getD (idx - 86) 0).val))

/-- The candidates of the hex view with their ids: for each marker offset `idx ≥ 102` of
the hex encoding `h` of the payload, the candidate with the digit pairs
`h[idx-102 : idx-100]` and `h[idx-92 : idx-90]`, a single leading `0` removed from each. -/
def hexStamps (payload : GoString) : List Stamp :=
  ((markerOffsets (hexEncodeToString payload)).filter (fun idx => decide (102 ≤ idx))).map
    (fun idx => (hexCandidate (hexEncodeToString payload) idx,
      cutPrefix (window (hexEncodeToString payload) (idx - 102) (idx - 100)) [48],
      cutPrefix (window (hexEncodeToString payload) (idx - 92) (idx - 90)) [48]))

/-- The MibUploadNext message of index `i` of a MIB upload process that starts at `tid`:
the argument of the `OmciMsgOut` call, or `none` when the serialiser refuses the PDU. -/
def mibUploadMessage (lib : Libraries) (intfId onuId tid i : Nat) : Option OmciMsg :=
  match lib.SerializeLayers
      { TransactionID := addU16 tid (toUint16 (i : Int)),
        MessageType := MessageType.MibUploadNextRequest }
      (MessageLayer.MibUploadNextRequest OnuDataClassID 0 (toUint16 (i : Int))) with
  | Except.ok bytes => some { IntfId := intfId, OnuId := onuId, Pkt := hexEncodeToString bytes }
  | Except.error _ => none

/-! ## Theorems -/

theorem wrapInt_of_range (x : Int) (h1 : -9223372036854775808 ≤ x) (h2 : x ≤ 9223372036854775807) :
    wrapInt x = x := by
  unfold wrapInt; omega

theorem addU16_toUint16_natCast (tid j : Nat) : addU16 tid (toUint16 (j : Int)) = (tid + j) % 65536 := by
  unfold addU16 toUint16
  have : ((j : Int) % 65536).toNat = j % 65536 := by omega
  rw [this]; omega

theorem nonzeroTids_zero (tid j : Nat) : nonzeroTids tid j 0 = [] := rfl

theorem nonzeroTids_succ (tid j m : Nat) :
    nonzeroTids tid j (m + 1) =
      if (tid + j) % 65536 = 0 then nonzeroTids tid (j + 1) m
      else (tid + j) % 65536 :: nonzeroTids tid (j + 1) m := by
  unfold nonzeroTids rawTids
  simp only [List.range'_succ, List.map_cons, List.filter_cons]
  split <;> simp_all

theorem stressLoop_eq (mask tid : Nat) : ∀ (fuel j c : Nat) (acc : List GetRequestPDU) (m : Nat),
    j ≤ c → 2 * c ≤ 9223372036854775807 + j → c - j ≤ fuel →
    c - j ≤ (nonzeroTids tid j m).length →
    stressLoop mask tid fuel (j : Int) (c : Int) acc
      = acc ++ ((nonzeroTids tid j m).take (c - j)).map (stressPDU mask) := by
  intro fuel
  induction fuel with
  | zero =>
    intro j c acc m hjc _ hf _
    have : c - j = 0 := by omega
    simp [stressLoop, this]
  | succ fuel ih =>
    intro j c acc m hjc hb hf hlen
    unfold stressLoop
    by_cases hlt : (j : Int) < (c : Int)
    · have hjc' : j < c := by exact_mod_cast hlt
      rw [if_pos hlt]
      -- m ≥ 1
      obtain ⟨m1, rfl⟩ : ∃ m1, m = m1 + 1 := by
        cases m with
        | zero => simp [nonzeroTids_zero] at hlen; omega
        | succ m1 => exact ⟨m1, rfl⟩
      rw [nonzeroTids_succ] at hlen ⊢
      by_cases hz : (tid + j) % 65536 = 0
      · rw [if_pos hz] at hlen ⊢
        obtain ⟨m2, rfl⟩ : ∃ m2, m1 = m2 + 1 := by
          cases m1 with
          | zero => simp [nonzeroTids_zero] at hlen; omega
          | succ m2 => exact ⟨m2, rfl⟩
        have hnz : (tid + (j + 1)) % 65536 ≠ 0 := by omega
        rw [nonzeroTids_succ, if_neg hnz] at hlen ⊢
        have hskip : (addU16 tid (toUint16 (j : Int)) == 0) = true := by
          rw [addU16_toUint16_natCast]; simp [hz]
        simp only [hskip, if_true]
        have e1 : wrapInt ((j : Int) + 1) = ((j + 1 : Nat) : Int) := by
          rw [wrapInt_of_range] <;> push_cast <;> omega
        have e2 : wrapInt ((c : Int) + 1) = ((c + 1 : Nat) : Int) := by
          rw [wrapInt_of_range] <;> push_cast <;> omega
        have e3 : wrapInt (((j + 1 : Nat) : Int) + 1) = ((j + 2 : Nat) : Int) := by
          rw [wrapInt_of_range] <;> push_cast <;> omega
        rw [e1, e2, e3, addU16_toUint16_natCast]
        simp only [List.length_cons] at hlen
        have hlen2 : c - j ≤ (nonzeroTids tid (j + 2) m2).length + 1 := hlen
        rw [ih (j + 2) (c + 1) _ m2 (by omega) (by omega) (by omega) (by omega)]
        have : c - j = (c + 1 - (j + 2)) + 1 := by omega
        rw [this, List.take_succ_cons]
        simp
      · rw [if_neg hz] at hlen ⊢
        have hskip : (addU16 tid (toUint16 (j : Int)) == 0) = false := by
          rw [addU16_toUint16_natCast]; simp [hz]
        simp only [hskip]
        have e3 : wrapInt ((j : Int) + 1) = ((j + 1 : Nat) : Int) := by
          rw [wrapInt_of_range] <;> push_cast <;> omega
        simp only [Bool.false_eq_true, if_false]
        rw [e3, addU16_toUint16_natCast]
        simp only [List.length_cons] at hlen
        rw [ih (j + 1) c _ m1 (by omega) (by omega) (by omega) (by omega)]
        have : c - j = (c - (j + 1)) + 1 := by omega
        rw [this, List.take_succ_cons]
        simp
    · have hjc' : c = j := by
        have : ¬ j < c := by exact_mod_cast hlt
        omega
      rw [if_neg hlt]
      subst hjc'
      simp

theorem wrapInt_range (x : Int) :
    -9223372036854775808 ≤ wrapInt x ∧ wrapInt x ≤ 9223372036854775807 := by
  unfold wrapInt; omega

theorem stressLoop_succ (mask tid fuel : Nat) (i commands : Int) (messages : List GetRequestPDU) :
    stressLoop mask tid (fuel + 1) i commands messages =
      if i < commands then
        stressLoop mask tid fuel
          (wrapInt ((if (addU16 tid (toUint16 i) == 0) = true then wrapInt (i + 1) else i) + 1))
          (if (addU16 tid (toUint16 i) == 0) = true then wrapInt (commands + 1) else commands)
          (messages ++ [stressPDU mask (addU16 tid (toUint16
            (if (addU16 tid (toUint16 i) == 0) = true then wrapInt (i + 1) else i)))])
      else messages := rfl

/-- The loop of `buildStresstest` stops by its own condition: any fuel of at least
`commands - i` gives the same list. -/
theorem stressLoop_fuel_stable (mask tid : Nat) : ∀ (f1 f2 : Nat) (i c : Int)
    (acc : List GetRequestPDU), c ≤ 9223372036854775807 → (c - i).toNat ≤ f1 → (c - i).toNat ≤ f2 →
    stressLoop mask tid f1 i c acc = stressLoop mask tid f2 i c acc := by
  intro f1
  induction f1 with
  | zero =>
    intro f2 i c acc _ h1 _
    have hic : ¬ i < c := by omega
    cases f2 with
    | zero => rfl
    | succ f2 => rw [stressLoop_succ, if_neg hic]; rfl
  | succ f1 ih =>
    intro f2 i c acc hc h1 h2
    cases f2 with
    | zero =>
      have hic : ¬ i < c := by omega
      rw [stressLoop_succ, if_neg hic]; rfl
    | succ f2 =>
      rw [stressLoop_succ, stressLoop_succ]
      by_cases hic : i < c
      · rw [if_pos hic, if_pos hic]
        apply ih
        · split
          · exact (wrapInt_range _).2
          · exact hc
        · split <;> (unfold wrapInt; omega)
        · split <;> (unfold wrapInt; omega)
      · rw [if_neg hic, if_neg hic]

theorem stressLoop_fuel_enough (mask tid fuel : Nat) (commands : Int)
    (hc : commands ≤ 9223372036854775807) (hf : commands.toNat ≤ fuel) :
    stressLoop mask tid fuel 0 commands [] = stressLoop mask tid commands.toNat 0 commands [] := by
  apply stressLoop_fuel_stable <;> simp_all

/-- Every message the loop appends carries a non-zero transaction id. -/
theorem stressLoop_nonzero (mask tid : Nat) : ∀ (fuel : Nat) (i c : Int) (acc : List GetRequestPDU),
    (∀ p ∈ acc, p.TransactionID ≠ 0) →
    ∀ p ∈ stressLoop mask tid fuel i c acc, p.TransactionID ≠ 0 := by
  intro fuel
  induction fuel with
  | zero => intro i c acc h; exact h
  | succ fuel ih =>
    intro i c acc h
    rw [stressLoop_succ]
    by_cases hic : i < c
    · rw [if_pos hic]
      apply ih
      intro p hp
      rcases List.mem_append.1 hp with hp | hp
      · exact h p hp
      · rw [List.mem_singleton] at hp
        subst hp
        show addU16 tid (toUint16 _) ≠ 0
        by_cases hz : addU16 tid (toUint16 i) = 0
        · have : (addU16 tid (toUint16 i) == 0) = true := by simp [hz]
          rw [if_pos this]
          unfold addU16 toUint16 wrapInt at *
          omega
        · have : ¬ (addU16 tid (toUint16 i) == 0) = true := by simp [hz]
          rw [if_neg this]
          exact hz
    · rw [if_neg hic]; exact h

theorem nonzeroTids_length_ge (tid : Nat) : ∀ (n j : Nat), n ≤ (nonzeroTids tid j (2 * n)).length := by
  intro n
  induction n with
  | zero => intro j; simp
  | succ n ih =>
    intro j
    have e : 2 * (n + 1) = (2 * n + 1) + 1 := by ring
    rw [e, nonzeroTids_succ, nonzeroTids_succ]
    have := ih (j + 1 + 1)
    by_cases h1 : (tid + j) % 65536 = 0
    · have h2 : ¬ (tid + (j + 1)) % 65536 = 0 := by omega
      rw [if_pos h1, if_neg h2]
      simp only [List.length_cons]; omega
    · rw [if_neg h1]
      split <;> simp only [List.length_cons] <;> omega

theorem mem_nonzeroTids {tid j m t : Nat} (h : t ∈ nonzeroTids tid j m) :
    t ≠ 0 ∧ ∃ k, j ≤ k ∧ k < j + m ∧ t = (tid + k) % 65536 := by
  unfold nonzeroTids rawTids at h
  rw [List.mem_filter, List.mem_map] at h
  obtain ⟨⟨k, hk, rfl⟩, hz⟩ := h
  rw [List.mem_range'_1] at hk
  exact ⟨by simpa using hz, k, hk.1, hk.2, rfl⟩

/-- The messages of a stress run whose command count leaves the loop counters inside the
range of `int`: the first `commands` non-zero terms of the sequence of transaction ids. -/
theorem buildStresstestMessages_eq (mask tid : Nat) (commands : Int) (h0 : 0 < commands)
    (hb : commands < 4611686018427387904) (m : Nat)
    (hm : commands.toNat ≤ (nonzeroTids tid 0 m).length) :
    buildStresstestMessages mask tid commands
      = some (((nonzeroTids tid 0 m).take commands.toNat).map (stressPDU mask)) := by
  unfold buildStresstestMessages
  rw [if_neg (by omega)]
  have hc : commands = ((commands.toNat : Nat) : Int) := by omega
  have := stressLoop_eq mask tid commands.toNat 0 commands.toNat [] m (by omega) (by omega)
    (by omega) (by simpa using hm)
  rw [← hc] at this
  simp only [Nat.cast_zero] at this
  rw [this]
  simp

theorem buildStresstestTids_eq (mask tid : Nat) (commands : Int) (h0 : 0 < commands)
    (hb : commands < 4611686018427387904) (m : Nat)
    (hm : commands.toNat ≤ (nonzeroTids tid 0 m).length) :
    buildStresstestTids mask tid commands = some ((nonzeroTids tid 0 m).take commands.toNat) := by
  unfold buildStresstestTids
  rw [buildStresstestMessages_eq mask tid commands h0 hb m hm]
  simp [Function.comp_def, stressPDU]

theorem nonzeroTids_eq_raw (tid : Nat) : ∀ (m j : Nat),
    (∀ k, j ≤ k → k < j + m → (tid + k) % 65536 ≠ 0) → nonzeroTids tid j m = rawTids tid j m := by
  intro m
  induction m with
  | zero => intro j _; rfl
  | succ m ih =>
    intro j h
    rw [nonzeroTids_succ, if_neg (h j (by omega) (by omega)), ih (j + 1) (fun k h1 h2 => h k (by omega) (by omega))]
    simp [rawTids, List.range'_succ]

theorem rawTids_length (tid j m : Nat) : (rawTids tid j m).length = m := by
  simp [rawTids]

theorem nonzeroTids_length_window (tid : Nat) : ∀ (m j : Nat), m ≤ 65536 →
    m ≤ (nonzeroTids tid j m).length + 1 := by
  intro m
  induction m with
  | zero => intro j _; omega
  | succ m ih =>
    intro j hm
    rw [nonzeroTids_succ]
    by_cases hz : (tid + j) % 65536 = 0
    · rw [if_pos hz, nonzeroTids_eq_raw tid m (j + 1) (fun k h1 h2 => by omega), rawTids_length]
    · rw [if_neg hz, List.length_cons]
      have := ih (j + 1) (by omega)
      omega

theorem rawTids_nodup (tid j m : Nat) (hm : m ≤ 65536) : (rawTids tid j m).Nodup := by
  unfold rawTids
  refine List.Nodup.map_on ?_ (List.nodup_range' j m)
  intro a ha b hb hab
  rw [List.mem_range'_1] at ha hb
  omega

theorem nonzeroTids_nodup (tid j m : Nat) (hm : m ≤ 65536) : (nonzeroTids tid j m).Nodup :=
  (rawTids_nodup tid j m hm).filter _

theorem nodup_length_le_of_tid_range (l : List Nat) (hnd : l.Nodup)
    (h : ∀ t ∈ l, t ≠ 0 ∧ t < 65536) : l.length ≤ 65535 := by
  have hsub : l.toFinset ⊆ Finset.Icc 1 65535 := by
    intro t ht
    rw [List.mem_toFinset] at ht
    have := h t ht
    rw [Finset.mem_Icc]; omega
  have hcard := Finset.card_le_card hsub
  rw [List.toFinset_card_of_nodup hnd] at hcard
  simpa using hcard

theorem multiLoop_eq (tid T I : Nat) (hT : T ≤ 65535) : ∀ (fuel i : Nat) (starts : List Nat),
    i ≤ T → T - i ≤ fuel →
    multiLoop tid T I fuel i starts
      = starts ++ (List.range' i (T - i)).map (fun k => addU16 tid (mulU16 k I)) := by
  intro fuel
  induction fuel with
  | zero => intro i starts h1 h2; have : T - i = 0 := by omega
            simp [multiLoop, this]
  | succ fuel ih =>
    intro i starts h1 h2
    unfold multiLoop
    by_cases hi : i < T
    · rw [if_pos hi]
      have e : addU16 i 1 = i + 1 := by unfold addU16; omega
      rw [e, ih (i + 1) _ (by omega) (by omega)]
      have : T - i = (T - (i + 1)) + 1 := by omega
      rw [this, List.range'_succ]
      simp
    · rw [if_neg hi]
      have : T - i = 0 := by omega
      simp [this]

theorem buildStresstestMultiStarts_eq (tid M : Nat) (h1 : 1 ≤ M) (h2 : M ≤ 65000) :
    buildStresstestMultiStarts tid (M : Int)
      = some ((List.range M).map (fun k => (tid + k * (65000 / M)) % 65536)) := by
  unfold buildStresstestMultiStarts
  rw [if_neg (by omega)]
  have hT : toUint16 (M : Int) = M := by unfold toUint16; omega
  simp only [hT]
  rw [multiLoop_eq tid M _ (by omega) M 0 [] (by omega) (by omega)]
  simp only [List.nil_append, Nat.sub_zero, Option.some.injEq]
  rw [List.range_eq_range']
  apply List.map_congr_left
  intro k hk
  rw [List.mem_range'_1] at hk
  have hI : M * (65000 / M) ≤ 65000 := Nat.mul_div_le 65000 M
  have hk2 : k * (65000 / M) ≤ M * (65000 / M) := Nat.mul_le_mul_right _ (by omega)
  unfold addU16 mulU16
  omega

theorem buildStresstestMultiClientTids_eq (mask tid M k : Nat) (commands : Int) (h1 : 1 ≤ M)
    (h2 : M ≤ 65000) (hk : k < M) :
    buildStresstestMultiClientTids mask tid commands (M : Int) k
      = buildStresstestTids mask ((tid + k * (65000 / M)) % 65536) commands := by
  unfold buildStresstestMultiClientTids
  rw [buildStresstestMultiStarts_eq tid M h1 h2]
  simp [List.getElem?_range hk, hk]

/-- C1, counterexample.  With `tid = 0` and `commands = 2^63 - 1` the first pass of the
loop skips the id 0 and its `commands++` wraps around to `-2^63`, so the loop ends after
one message: the list of transaction ids is `[1]`, not `2^63 - 1` entries long. -/
theorem buildStresstest_count_overflow :
    buildStresstestTids 0 0 9223372036854775807 = some [1] ∧
    ¬ ∃ tids, buildStresstestTids 0 0 9223372036854775807 = some tids ∧
        (tids.length : Int) = 9223372036854775807 := by
  have h : buildStresstestTids 0 0 9223372036854775807 = some [1] := by decide
  refine ⟨h, ?_⟩
  rintro ⟨tids, h1, h2⟩
  rw [h] at h1
  cases h1
  simp at h2

/-- C1, amended.  For every starting tid and every `commands` with
`0 < commands < 2^62`, the transaction ids of the PDUs pre-built by `buildStresstest` are
exactly `commands` in number and are the first `commands` terms of the sequence
`tid, tid+1, tid+2, …` (modulo `2^16`) with the terms equal to 0 removed: they are the
first `commands` entries of every stretch `nonzeroTids tid 0 m` of that sequence that is
long enough, and the stretch of `2 * commands` raw terms is long enough. -/
theorem buildStresstest_tids_sequence (mask tid : Nat) (commands : Int) (h0 : 0 < commands)
    (hb : commands < 4611686018427387904) :
    ∃ tids, buildStresstestTids mask tid commands = some tids ∧
      (tids.length : Int) = commands ∧
      (∀ m, commands.toNat ≤ (nonzeroTids tid 0 m).length →
        tids = (nonzeroTids tid 0 m).take commands.toNat) ∧
      commands.toNat ≤ (nonzeroTids tid 0 (2 * commands.toNat)).length := by
  have hlen := nonzeroTids_length_ge tid commands.toNat 0
  refine ⟨_, buildStresstestTids_eq mask tid commands h0 hb _ hlen, ?_, ?_, hlen⟩
  · rw [List.length_take, Nat.min_eq_left hlen]; omega
  · intro m hm
    have := buildStresstestTids_eq mask tid commands h0 hb m hm
    rw [buildStresstestTids_eq mask tid commands h0 hb _ hlen] at this
    exact Option.some.inj this

/-- C1, witness: `tid = 0xFFFB`, `commands = 10` gives the ids
FFFB, FFFC, FFFD, FFFE, FFFF, 0001, 0002, 0003, 0004, 0005. -/
theorem buildStresstest_tids_sequence_witness :
    (0 : Int) < 10 ∧ (10 : Int) < 4611686018427387904 ∧
    buildStresstestTids 0 65531 10
      = some [65531, 65532, 65533, 65534, 65535, 1, 2, 3, 4, 5] := by
  obtain ⟨tids, h1, _, h3, _⟩ := buildStresstest_tids_sequence 0 65531 10 (by decide) (by decide)
  refine ⟨by decide, by decide, ?_⟩
  rw [h1, h3 11 (by decide)]
  decide

/-- C2.  For every starting tid and every `commands > 0`, no PDU pre-built by
`buildStresstest` carries the transaction id 0 (also when the counters of the loop wrap
around). -/
theorem buildStresstest_no_zero_tid (mask tid : Nat) (commands : Int) (h0 : 0 < commands) :
    ∃ ms, buildStresstestMessages mask tid commands = some ms ∧
      ∀ p ∈ ms, p.TransactionID ≠ 0 := by
  unfold buildStresstestMessages
  rw [if_neg (by omega)]
  exact ⟨_, rfl, stressLoop_nonzero mask tid _ 0 commands [] (by simp)⟩

/-- C2, witness: `tid = 0`, `commands = 3`. -/
theorem buildStresstest_no_zero_tid_witness : (0 : Int) < 3 ∧ ∃ ms, buildStresstestMessages 0 0 3 = some ms ∧
      ∀ p ∈ ms, p.TransactionID ≠ 0 :=
  ⟨by decide, buildStresstest_no_zero_tid 0 0 3 (by decide)⟩

theorem buildStresstestTids_not_nodup (mask tid : Nat) (commands : Int) (h0 : 65536 ≤ commands)
    (hb : commands < 4611686018427387904) :
    ∃ tids, buildStresstestTids mask tid commands = some tids ∧ ¬ tids.Nodup := by
  have hlen := nonzeroTids_length_ge tid commands.toNat 0
  refine ⟨_, buildStresstestTids_eq mask tid commands (by omega) hb _ hlen, ?_⟩
  intro hnd
  have := nodup_length_le_of_tid_range _ hnd (fun t ht => by
    obtain ⟨h1, k, _, _, rfl⟩ := mem_nonzeroTids (List.mem_of_mem_take ht)
    exact ⟨h1, Nat.mod_lt _ (by decide)⟩)
  rw [List.length_take, Nat.min_eq_left hlen] at this
  omega

/-- C3, counterexample.  With `tid = 1` and 65536 commands the transaction ids are not
pairwise distinct: there are only 65535 non-zero 16-bit values. -/
theorem buildStresstest_tids_repeat : ∃ tids, buildStresstestTids 0 1 65536 = some tids ∧ ¬ tids.Nodup :=
  buildStresstestTids_not_nodup 0 1 65536 (by decide) (by decide)

/-- C3, amended.  For every starting tid and every command count `N` with
`0 < N ≤ 65535`, the `N` PDUs pre-built by one stress client carry pairwise distinct
transaction ids. -/
theorem buildStresstest_tids_distinct (mask tid : Nat) (commands : Int) (h0 : 0 < commands) (hb : commands ≤ 65535) :
    ∃ tids, buildStresstestTids mask tid commands = some tids ∧
      (tids.length : Int) = commands ∧ tids.Nodup := by
  have hlen : commands.toNat ≤ (nonzeroTids tid 0 (commands.toNat + 1)).length := by
    have := nonzeroTids_length_window tid (commands.toNat + 1) 0 (by omega)
    omega
  refine ⟨_, buildStresstestTids_eq mask tid commands h0 (by omega) _ hlen, ?_, ?_⟩
  · rw [List.length_take, Nat.min_eq_left hlen]; omega
  · exact (nonzeroTids_nodup tid 0 _ (by omega)).sublist (List.take_sublist _ _)

/-- C3, witness: `tid = 7` and the largest count, 65535. -/
theorem buildStresstest_tids_distinct_witness : (0 : Int) < 65535 ∧ (65535 : Int) ≤ 65535 ∧
    ∃ tids, buildStresstestTids 0 7 65535 = some tids ∧
      (tids.length : Int) = 65535 ∧ tids.Nodup :=
  ⟨by decide, by decide, buildStresstest_tids_distinct 0 7 65535 (by decide) (by decide)⟩

/-- C4.  For every process count `M` with `1 ≤ M ≤ 65000`, every base tid and every
`k < M`, `buildStresstestMulti` starts `M` clients and hands client `k` the starting tid
`(tid + k * ⌊65000 / M⌋) mod 2^16`; the 16-bit product `k * ⌊65000 / M⌋` does not
overflow, it is below 65000, and `⌊65000 / M⌋ ≥ 1`. -/
theorem buildStresstestMulti_start_tid (tid M k : Nat) (h1 : 1 ≤ M) (h2 : M ≤ 65000) (hk : k < M) :
    ∃ starts, buildStresstestMultiStarts tid (M : Int) = some starts ∧ starts.length = M ∧
      starts[k]? = some ((tid + k * (65000 / M)) % 65536) ∧
      mulU16 k (65000 / M) = k * (65000 / M) ∧ k * (65000 / M) < 65000 ∧ 1 ≤ 65000 / M := by
  have hI : M * (65000 / M) ≤ 65000 := Nat.mul_div_le 65000 M
  have hpos : 1 ≤ 65000 / M := (Nat.one_le_div_iff (by omega)).2 h2
  have hk2 : k * (65000 / M) < M * (65000 / M) := Nat.mul_lt_mul_of_pos_right hk (by omega)
  refine ⟨_, buildStresstestMultiStarts_eq tid M h1 h2, by simp, ?_, ?_, by omega, hpos⟩
  · simp [List.getElem?_range hk, hk]
  · unfold mulU16; omega

/-- C4, witness: `M = 3`, `tid = 65000`, `k = 2`. -/
theorem buildStresstestMulti_start_tid_witness : 1 ≤ 3 ∧ 3 ≤ 65000 ∧ 2 < 3 ∧
    ∃ starts, buildStresstestMultiStarts 65000 (3 : Nat) = some starts ∧ starts.length = 3 ∧
      starts[2]? = some ((65000 + 2 * (65000 / 3)) % 65536) ∧
      mulU16 2 (65000 / 3) = 2 * (65000 / 3) ∧ 2 * (65000 / 3) < 65000 ∧ 1 ≤ 65000 / 3 :=
  ⟨by decide, by decide, by decide, buildStresstestMulti_start_tid 65000 3 2 (by decide) (by decide) (by decide)⟩

/-- C5, counterexample.  With `M = 32500` clients (an interval of 2), `tid = 65535`
and `commands = 2 = ⌊65000 / M⌋`, client 0 skips the id 0 and sends the ids 65535 and 1,
and client 1 sends the ids 1 and 2: the id 1 is used by both. -/
theorem buildStresstestMulti_overlap :
    (2 : Int) ≤ 65000 / 32500 ∧
    buildStresstestMultiClientTids 0 65535 2 32500 0 = some [65535, 1] ∧
    buildStresstestMultiClientTids 0 65535 2 32500 1 = some [1, 2] ∧
    ¬ ∀ ts ts0, buildStresstestMultiClientTids 0 65535 2 32500 0 = some ts →
        buildStresstestMultiClientTids 0 65535 2 32500 1 = some ts0 → ∀ t ∈ ts, t ∉ ts0 := by
  have h0 : buildStresstestMultiClientTids 0 65535 2 32500 0 = some [65535, 1] := by
    rw [show (32500 : Int) = ((32500 : Nat) : Int) from rfl,
      buildStresstestMultiClientTids_eq 0 65535 32500 0 2 (by decide) (by decide) (by decide)]
    decide
  have h1 : buildStresstestMultiClientTids 0 65535 2 32500 1 = some [1, 2] := by
    rw [show (32500 : Int) = ((32500 : Nat) : Int) from rfl,
      buildStresstestMultiClientTids_eq 0 65535 32500 1 2 (by decide) (by decide) (by decide)]
    decide
  refine ⟨by decide, h0, h1, ?_⟩
  intro h
  exact h _ _ h0 h1 1 (by decide) (by decide)

theorem stress_client_tids_mem (mask s : Nat) (commands : Int) (m : Nat) (h0 : 0 < commands)
    (hb : commands < 4611686018427387904)
    (hm : commands.toNat ≤ (nonzeroTids s 0 m).length) :
    ∃ ts, buildStresstestTids mask s commands = some ts ∧
      ∀ t ∈ ts, ∃ j, j < m ∧ t = (s + j) % 65536 := by
  refine ⟨_, buildStresstestTids_eq mask s commands h0 hb m hm, ?_⟩
  intro t ht
  obtain ⟨_, k, _, hk, rfl⟩ := mem_nonzeroTids (List.mem_of_mem_take ht)
  exact ⟨k, by omega, rfl⟩

/-- C5, amended.  For every `M` in `[1, 65000]`, every base tid, every command count
with `0 < commands ≤ ⌊65000 / M⌋` and all clients `k < k' < M`, the transaction ids of
client `k` and those of client `k'` are disjoint, provided that
`commands < ⌊65000 / M⌋` or that client `k` does not skip the id 0 (none of the
`commands` ids from its starting tid on is 0). -/
theorem buildStresstestMulti_disjoint (mask tid M commands k k' : Nat) (h1 : 1 ≤ M) (h2 : M ≤ 65000)
    (hc0 : 0 < commands) (hc : commands ≤ 65000 / M) (hk : k < k') (hk' : k' < M)
    (hskip : commands < 65000 / M ∨
      ∀ j, j < commands → (tid + k * (65000 / M) + j) % 65536 ≠ 0) :
    ∃ ts ts', buildStresstestMultiClientTids mask tid (commands : Int) (M : Int) k = some ts ∧
      buildStresstestMultiClientTids mask tid (commands : Int) (M : Int) k' = some ts' ∧
      ∀ t ∈ ts, t ∉ ts' := by
  have hI : M * (65000 / M) ≤ 65000 := Nat.mul_div_le 65000 M
  have hI2 : 65000 / M ≤ 65000 := Nat.div_le_self _ _
  have hkk : (k + 1) * (65000 / M) ≤ k' * (65000 / M) := Nat.mul_le_mul_right _ (by omega)
  have hkM : (k' + 1) * (65000 / M) ≤ M * (65000 / M) := Nat.mul_le_mul_right _ (by omega)
  rw [Nat.add_mul, Nat.one_mul] at hkk hkM
  rw [buildStresstestMultiClientTids_eq mask tid M k commands h1 h2 (by omega),
    buildStresstestMultiClientTids_eq mask tid M k' commands h1 h2 hk']
  generalize k * (65000 / M) = a at *
  generalize k' * (65000 / M) = b at *
  generalize 65000 / M = I at *
  have hto : (commands : Int).toNat = commands := by simp
  -- the later client: at most one id beyond its `commands` raw terms
  obtain ⟨ts', hts', hmem'⟩ := stress_client_tids_mem mask ((tid + b) % 65536) commands
    (commands + 1) (by omega) (by omega) (by
      have := nonzeroTids_length_window ((tid + b) % 65536) (commands + 1) 0 (by omega)
      rw [hto]; omega)
  -- the earlier client: its ids stay strictly inside its interval
  have hmemk : ∃ ts, buildStresstestTids mask ((tid + a) % 65536) commands = some ts ∧
      ∀ t ∈ ts, ∃ j, j < I ∧ t = ((tid + a) % 65536 + j) % 65536 := by
    rcases hskip with hlt | hno
    · obtain ⟨ts, hts, hmem⟩ := stress_client_tids_mem mask ((tid + a) % 65536) commands
        (commands + 1) (by omega) (by omega) (by
          have := nonzeroTids_length_window ((tid + a) % 65536) (commands + 1) 0 (by omega)
          rw [hto]; omega)
      exact ⟨ts, hts, fun t ht => by
        obtain ⟨j, hj, rfl⟩ := hmem t ht
        exact ⟨j, by omega, rfl⟩⟩
    · obtain ⟨ts, hts, hmem⟩ := stress_client_tids_mem mask ((tid + a) % 65536) commands
        commands (by omega) (by omega) (by
          rw [nonzeroTids_eq_raw _ _ _ (fun j _ hj => by
            have := hno j (by omega)
            omega), rawTids_length, hto])
      exact ⟨ts, hts, fun t ht => by
        obtain ⟨j, hj, rfl⟩ := hmem t ht
        exact ⟨j, by omega, rfl⟩⟩
  obtain ⟨ts, hts, hmem⟩ := hmemk
  refine ⟨ts, ts', hts, hts', ?_⟩
  intro t ht ht'
  obtain ⟨j, hj, rfl⟩ := hmem t ht
  obtain ⟨j', hj', e⟩ := hmem' _ ht'
  omega

/-- C5, witness: two clients, `tid = 7`, and the full interval of 32500 commands, which
client 0 runs through without meeting the id 0. -/
theorem buildStresstestMulti_disjoint_witness : 1 ≤ 2 ∧ 2 ≤ 65000 ∧ 0 < 32500 ∧ 32500 ≤ 65000 / 2 ∧ 0 < 1 ∧ 1 < 2 ∧
    (32500 < 65000 / 2 ∨ ∀ j, j < 32500 → (7 + 0 * (65000 / 2) + j) % 65536 ≠ 0) ∧
    ∃ ts ts', buildStresstestMultiClientTids 0 7 ((32500 : Nat) : Int) ((2 : Nat) : Int) 0 = some ts ∧
      buildStresstestMultiClientTids 0 7 ((32500 : Nat) : Int) ((2 : Nat) : Int) 1 = some ts' ∧
      ∀ t ∈ ts, t ∉ ts' :=
  have h : ∀ j, j < 32500 → (7 + 0 * (65000 / 2) + j) % 65536 ≠ 0 := by
    intro j hj; omega
  ⟨by decide, by decide, by decide, by decide, by decide, by decide, Or.inr h,
    buildStresstestMulti_disjoint 0 7 2 32500 0 1 (by decide) (by decide) (by decide) (by decide) (by decide)
      (by decide) (Or.inr h)⟩

theorem slice_from (s : GoString) (a : Nat) (h : a ≤ s.length) :
    slice s (a : Int) (s.length : Int) = some (s.drop a) := by
  unfold slice
  rw [if_pos ⟨by omega, by omega, le_refl _⟩]
  simp

theorem stringsIndex_none (substr : GoString) : ∀ (s : GoString), stringsIndex substr s = none →
    ∀ k, ¬ substr <+: s.drop k := by
  intro s
  induction s with
  | nil =>
    intro h k
    unfold stringsIndex at h
    split at h
    · cases h
    · rename_i hp
      simpa using hp
  | cons c t ih =>
    intro h k
    unfold stringsIndex at h
    split at h
    · cases h
    · rename_i hp
      cases k with
      | zero => simpa using hp
      | succ k =>
        rw [List.drop_succ_cons]
        apply ih
        simpa using h

theorem stringsIndex_some (substr : GoString) : ∀ (s : GoString) (c : Nat),
    stringsIndex substr s = some c →
    substr <+: s.drop c ∧ c ≤ s.length ∧ ∀ k, k < c → ¬ substr <+: s.drop k := by
  intro s
  induction s with
  | nil =>
    intro c h
    unfold stringsIndex at h
    split at h
    · rename_i hp
      cases h
      exact ⟨by simpa using hp, by simp, by intro k hk; omega⟩
    · cases h
  | cons a t ih =>
    intro c h
    unfold stringsIndex at h
    split at h
    · rename_i hp
      cases h
      exact ⟨by simpa using hp, by simp, by intro k hk; omega⟩
    · rename_i hp
      rw [Option.map_eq_some'] at h
      obtain ⟨c', hc', rfl⟩ := h
      obtain ⟨h1, h2, h3⟩ := ih c' hc'
      refine ⟨by simpa using h1, by simp; omega, ?_⟩
      intro k hk
      cases k with
      | zero => simpa using hp
      | succ k => rw [List.drop_succ_cons]; exact h3 k (by omega)

theorem markerAt_iff (s : GoString) (i : Nat) : markerAt s i = true ↔ marker <+: s.drop i := by
  unfold markerAt
  rw [beq_iff_eq, List.prefix_iff_eq_take]
  constructor
  · intro h; rw [show marker.length = 8 from rfl]; exact h.symm
  · intro h; rw [show marker.length = 8 from rfl] at h; exact h.symm

theorem markerAt_lt_length (s : GoString) (i : Nat) (h : markerAt s i = true) :
    i + 8 ≤ s.length := by
  rw [markerAt_iff] at h
  have := h.length_le
  rw [List.length_drop, show marker.length = 8 from rfl] at this
  omega

theorem findLoop_eq (s : GoString) : ∀ (fuel start : Nat) (acc : List Nat),
    start ≤ s.length → s.length + 1 ≤ fuel + start →
    findLoop s fuel start acc
      = some (acc ++ (List.range' start (s.length + 1 - start)).filter (markerAt s)) := by
  intro fuel
  induction fuel with
  | zero => intro start acc h1 h2; omega
  | succ fuel ih =>
    intro start acc h1 h2
    unfold findLoop
    rw [slice_from s start h1]
    simp only
    cases hidx : stringsIndex marker (s.drop start) with
    | none =>
      have hno := stringsIndex_none marker _ hidx
      have : (List.range' start (s.length + 1 - start)).filter (markerAt s) = [] := by
        rw [List.filter_eq_nil_iff]
        intro i hi
        rw [List.mem_range'_1] at hi
        rw [markerAt_iff]
        have := hno (i - start)
        rw [List.drop_drop] at this
        rwa [show start + (i - start) = i by omega] at this
      simp [this]
    | some cur =>
      obtain ⟨hm, hle, hfirst⟩ := stringsIndex_some marker _ _ hidx
      rw [List.drop_drop] at hm
      have hmat : markerAt s (start + cur) = true := (markerAt_iff _ _).2 hm
      have hlen := markerAt_lt_length s _ hmat
      simp only
      rw [ih (start + (cur + 1)) _ (by omega) (by omega)]
      have hr : List.range' start (s.length + 1 - start)
          = List.range' start cur ++ (start + cur) ::
              List.range' (start + (cur + 1)) (s.length + 1 - (start + (cur + 1))) := by
        have hsplit : s.length + 1 - start
            = ((s.length + 1 - (start + (cur + 1))) + 1) + cur := by omega
        rw [hsplit, ← List.range'_append_1 start cur, List.range'_succ, Nat.add_assoc]
      have hnil : (List.range' start cur).filter (markerAt s) = [] := by
        rw [List.filter_eq_nil_iff]
        intro i hi
        rw [List.mem_range'_1] at hi
        rw [markerAt_iff]
        have := hfirst (i - start) (by omega)
        rw [List.drop_drop] at this
        rwa [show start + (i - start) = i by omega] at this
      rw [hr, List.filter_append, hnil, List.filter_cons, if_pos hmat]
      simp [Nat.add_comm cur start]

theorem findOMCIMessageIndices_eq (s : GoString) :
    findOMCIMessageIndices s = some ((List.range (s.length + 1)).filter (markerAt s)) := by
  unfold findOMCIMessageIndices
  rw [findLoop_eq s _ 0 [] (by omega) (by omega), List.range_eq_range']
  simp

theorem slice_nat (s : GoString) (x y : Int) (a b : Nat) (hx : x = a) (hy : y = b)
    (hab : a ≤ b) (hb : b ≤ s.length) : slice s x y = some (window s a b) := by
  subst hx hy
  unfold slice window
  rw [if_pos ⟨by omega, by omega, by omega⟩]
  simp

theorem byteAt_nat (s : GoString) (x : Int) (a : Nat) (hx : x = a) : byteAt s x = s[a]? := by
  subst hx
  unfold byteAt
  rw [if_pos (by omega)]
  simp

/-- What one pass of the text-view loop does to the scan state. -/
theorem textViewLoop_spec {σ μ : Type} (decode : σ → GoString → Option μ × σ) (s : GoString) :
    ∀ (idxs : List Nat) (st : ScanState σ μ), (∀ i ∈ idxs, markerAt s i = true) →
    ∃ st' recs, textViewLoop decode s idxs st = some st' ∧
      st'.handed = st.handed ++ textCandidates s idxs ∧
      st'.messagesList = st.messagesList ++ recs ∧
      ∀ r ∈ recs, ∃ idx b1 b2, idx ∈ idxs ∧ 91 ≤ idx ∧ s[idx - 91]? = some b1 ∧
        s[idx - 86]? = some b2 ∧ r.InterfaceId = cutPrefix (hexEncodeToString [b1]) [48] ∧
        r.OnuId = cutPrefix (hexEncodeToString [b2]) [48] := by
  intro idxs
  induction idxs with
  | nil => intro st _; exact ⟨st, [], rfl, by simp [textCandidates], by simp, by simp⟩
  | cons idx rest ih =>
    intro st hm
    have hrest : ∀ i ∈ rest, markerAt s i = true := fun i hi => hm i (List.mem_cons_of_mem _ hi)
    have hlen := markerAt_lt_length s idx (hm idx (List.mem_cons_self _ _))
    unfold textViewLoop
    by_cases h91 : 91 ≤ (idx : Int)
    · have h91' : 91 ≤ idx := by omega
      rw [if_pos h91, slice_nat s _ _ (idx - 80) (idx + 8) (by omega) (by omega) (by omega)
        (by omega)]
      simp only
      by_cases hasc : isASCII (window s (idx - 80) (idx + 8)) = true
      · rw [if_pos hasc]
        have hcand : textCandidates s (idx :: rest)
            = window s (idx - 80) (idx + 8) :: textCandidates s rest := by
          simp [textCandidates, h91', hasc]
        rcases hdec : decode st.decoder (window s (idx - 80) (idx + 8)) with ⟨_ | message, d⟩
        · simp only
          obtain ⟨st', recs, h1, h2, h3, h4⟩ := ih
            { decoder := d, messagesList := st.messagesList,
              handed := st.handed ++ [window s (idx - 80) (idx + 8)] } hrest
          refine ⟨st', recs, h1, by rw [h2, hcand]; simp, h3, ?_⟩
          intro r hr
          obtain ⟨i, b1, b2, hi, rest'⟩ := h4 r hr
          exact ⟨i, b1, b2, List.mem_cons_of_mem _ hi, rest'⟩
        · simp only
          rw [byteAt_nat s _ (idx - 91) (by omega), byteAt_nat s _ (idx - 86) (by omega)]
          have hb1 : idx - 91 < s.length := by omega
          have hb2 : idx - 86 < s.length := by omega
          rw [List.getElem?_eq_getElem hb1, List.getElem?_eq_getElem hb2]
          simp only
          obtain ⟨st', recs, h1, h2, h3, h4⟩ := ih
            { decoder := d,
              messagesList := st.messagesList ++
                [{ message := message,
                   InterfaceId := cutPrefix (hexEncodeToString [s[idx - 91]]) [48],
                   OnuId := cutPrefix (hexEncodeToString [s[idx - 86]]) [48] }],
              handed := st.handed ++ [window s (idx - 80) (idx + 8)] } hrest
          refine ⟨st', (StampedMessage.mk message
                   (cutPrefix (hexEncodeToString [s[idx - 91]]) [48])
                   (cutPrefix (hexEncodeToString [s[idx - 86]]) [48])) :: recs,
            h1, by rw [h2, hcand]; simp, by rw [h3]; simp, ?_⟩
          intro r hr
          rcases List.mem_cons.1 hr with rfl | hr
          · exact ⟨idx, s[idx - 91], s[idx - 86], List.mem_cons_self _ _, h91',
              List.getElem?_eq_getElem hb1, List.getElem?_eq_getElem hb2, rfl, rfl⟩
          · obtain ⟨i, b1, b2, hi, rest'⟩ := h4 r hr
            exact ⟨i, b1, b2, List.mem_cons_of_mem _ hi, rest'⟩
      · rw [if_neg hasc]
        have hcand : textCandidates s (idx :: rest) = textCandidates s rest := by
          simp [textCandidates, h91', hasc]
        obtain ⟨st', recs, h1, h2, h3, h4⟩ := ih st hrest
        refine ⟨st', recs, h1, by rw [h2, hcand], h3, ?_⟩
        intro r hr
        obtain ⟨i, b1, b2, hi, rest'⟩ := h4 r hr
        exact ⟨i, b1, b2, List.mem_cons_of_mem _ hi, rest'⟩
    · rw [if_neg h91]
      have h91' : ¬ 91 ≤ idx := by omega
      have hcand : textCandidates s (idx :: rest) = textCandidates s rest := by
        simp [textCandidates, h91']
      obtain ⟨st', recs, h1, h2, h3, h4⟩ := ih st hrest
      refine ⟨st', recs, h1, by rw [h2, hcand], h3, ?_⟩
      intro r hr
      obtain ⟨i, b1, b2, hi, rest'⟩ := h4 r hr
      exact ⟨i, b1, b2, List.mem_cons_of_mem _ hi, rest'⟩

/-- What one pass of the hex-view loop does to the scan state. -/
theorem hexViewLoop_spec {σ μ : Type} (decode : σ → GoString → Option μ × σ) (h : GoString) :
    ∀ (idxs : List Nat) (st : ScanState σ μ), (∀ i ∈ idxs, markerAt h i = true) →
    ∃ st' recs, hexViewLoop decode h idxs st = some st' ∧
      st'.handed = st.handed ++ hexCandidates h idxs ∧
      st'.messagesList = st.messagesList ++ recs ∧
      ∀ r ∈ recs, ∃ idx, idx ∈ idxs ∧ 102 ≤ idx ∧
        r.InterfaceId = cutPrefix (window h (idx - 102) (idx - 100)) [48] ∧
        r.OnuId = cutPrefix (window h (idx - 92) (idx - 90)) [48] := by
  intro idxs
  induction idxs with
  | nil => intro st _; exact ⟨st, [], rfl, by simp [hexCandidates], by simp, by simp⟩
  | cons idx rest ih =>
    intro st hm
    have hrest : ∀ i ∈ rest, markerAt h i = true := fun i hi => hm i (List.mem_cons_of_mem _ hi)
    have hlen := markerAt_lt_length h idx (hm idx (List.mem_cons_self _ _))
    unfold hexViewLoop
    by_cases h102 : 102 ≤ (idx : Int)
    · have h102' : 102 ≤ idx := by omega
      rw [if_pos h102]
      have hsl : (if (idx : Int) + 16 ≤ (h.length : Int)
             then slice h ((idx : Int) - 80) ((idx : Int) + 16)
             else slice h ((idx : Int) - 80) ((idx : Int) + 8))
          = some (if idx + 16 ≤ h.length then window h (idx - 80) (idx + 16)
                else window h (idx - 80) (idx + 8)) := by
        by_cases h16 : idx + 16 ≤ h.length
        · rw [if_pos (by omega), if_pos h16]
          exact slice_nat h _ _ _ _ (by omega) (by omega) (by omega) (by omega)
        · rw [if_neg (by omega), if_neg h16]
          exact slice_nat h _ _ _ _ (by omega) (by omega) (by omega) (by omega)
      rw [hsl]
      simp only
      generalize hw : (if idx + 16 ≤ h.length then window h (idx - 80) (idx + 16)
                else window h (idx - 80) (idx + 8)) = w
      by_cases hasc : isASCII w = true
      · rw [if_pos hasc]
        have hcand : hexCandidates h (idx :: rest) = w :: hexCandidates h rest := by
          simp [hexCandidates, h102', hw, hasc]
        rcases hdec : decode st.decoder w with ⟨_ | message, d⟩
        · simp only
          obtain ⟨st', recs, h1, h2, h3, h4⟩ := ih
            { decoder := d, messagesList := st.messagesList, handed := st.handed ++ [w] } hrest
          refine ⟨st', recs, h1, by rw [h2, hcand]; simp, h3, ?_⟩
          intro r hr
          obtain ⟨i, hi, rest'⟩ := h4 r hr
          exact ⟨i, List.mem_cons_of_mem _ hi, rest'⟩
        · simp only
          rw [slice_nat h _ _ (idx - 102) (idx - 100) (by omega) (by omega) (by omega) (by omega),
            slice_nat h _ _ (idx - 92) (idx - 90) (by omega) (by omega) (by omega) (by omega)]
          simp only
          obtain ⟨st', recs, h1, h2, h3, h4⟩ := ih
            { decoder := d,
              messagesList := st.messagesList ++
                [{ message := message,
                   InterfaceId := cutPrefix (window h (idx - 102) (idx - 100)) [48],
                   OnuId := cutPrefix (window h (idx - 92) (idx - 90)) [48] }],
              handed := st.handed ++ [w] } hrest
          refine ⟨st', (StampedMessage.mk message
                   (cutPrefix (window h (idx - 102) (idx - 100)) [48])
                   (cutPrefix (window h (idx - 92) (idx - 90)) [48])) :: recs,
            h1, by rw [h2, hcand]; simp, by rw [h3]; simp, ?_⟩
          intro r hr
          rcases List.mem_cons.1 hr with rfl | hr
          · exact ⟨idx, List.mem_cons_self _ _, h102', rfl, rfl⟩
          · obtain ⟨i, hi, rest'⟩ := h4 r hr
            exact ⟨i, List.mem_cons_of_mem _ hi, rest'⟩
      · rw [if_neg hasc]
        have hcand : hexCandidates h (idx :: rest) = hexCandidates h rest := by
          simp [hexCandidates, h102', hw, hasc]
        obtain ⟨st', recs, h1, h2, h3, h4⟩ := ih st hrest
        refine ⟨st', recs, h1, by rw [h2, hcand], h3, ?_⟩
        intro r hr
        obtain ⟨i, hi, rest'⟩ := h4 r hr
        exact ⟨i, List.mem_cons_of_mem _ hi, rest'⟩
    · rw [if_neg h102]
      have h102' : ¬ 102 ≤ idx := by omega
      have hcand : hexCandidates h (idx :: rest) = hexCandidates h rest := by
        simp [hexCandidates, h102']
      obtain ⟨st', recs, h1, h2, h3, h4⟩ := ih st hrest
      refine ⟨st', recs, h1, by rw [h2, hcand], h3, ?_⟩
      intro r hr
      obtain ⟨i, hi, rest'⟩ := h4 r hr
      exact ⟨i, List.mem_cons_of_mem _ hi, rest'⟩

theorem hexDigit_ascii (n : Nat) : (hexDigit n).val < 128 := by
  unfold hexDigit hextable
  rcases Nat.lt_or_ge n 16 with h | h
  · interval_cases n <;> decide
  · rw [List.getD_eq_default _ _ (by simpa using h)]; decide

theorem hexEncodeToString_ascii : ∀ (p : GoString), ∀ b ∈ hexEncodeToString p, b.val < 128 := by
  intro p
  induction p with
  | nil => intro b hb; simp [hexEncodeToString] at hb
  | cons v rest ih =>
    intro b hb
    simp only [hexEncodeToString, List.mem_cons] at hb
    rcases hb with rfl | rfl | hb
    · exact hexDigit_ascii _
    · exact hexDigit_ascii _
    · exact ih b hb

theorem hexEncodeToString_length : ∀ (p : GoString), (hexEncodeToString p).length = 2 * p.length := by
  intro p
  induction p with
  | nil => rfl
  | cons v rest ih => simp only [hexEncodeToString, List.length_cons, ih]; omega

theorem mem_window {s : GoString} {a b : Nat} {x : Byte} (h : x ∈ window s a b) : x ∈ s :=
  List.mem_of_mem_take (List.mem_of_mem_drop h)

theorem window_hex_ascii (p : GoString) (a b : Nat) :
    isASCII (window (hexEncodeToString p) a b) = true := by
  unfold isASCII
  rw [List.all_eq_true]
  intro x hx
  simpa using hexEncodeToString_ascii p x (mem_window hx)

theorem window_length (s : GoString) (a b : Nat) (hb : b ≤ s.length) :
    (window s a b).length = b - a := by
  unfold window
  rw [List.length_drop, List.length_take, Nat.min_eq_left hb]

theorem window_eq_take_drop (s : GoString) (a b : Nat) :
    window s a b = (s.drop a).take (b - a) := by
  unfold window
  rw [List.drop_take]

theorem hexCandidates_hex (p : GoString) (idxs : List Nat) :
    hexCandidates (hexEncodeToString p) idxs
      = (idxs.filter (fun idx => decide (102 ≤ idx))).map
          (fun idx => if idx + 16 ≤ (hexEncodeToString p).length
            then window (hexEncodeToString p) (idx - 80) (idx + 16)
            else window (hexEncodeToString p) (idx - 80) (idx + 8)) := by
  unfold hexCandidates
  rw [List.filter_eq_self]
  intro c hc
  rw [List.mem_map] at hc
  obtain ⟨idx, _, rfl⟩ := hc
  split <;> exact window_hex_ascii _ _ _

theorem markerAt_eq (s : GoString) (i : Nat) :
    markerAt s i = true ↔ (s.drop i).take 8 = marker := by
  unfold markerAt; exact beq_iff_eq

theorem findOMCIMessageIndices_mem (s : GoString) (l : List Nat)
    (h : findOMCIMessageIndices s = some l) (i : Nat) : i ∈ l ↔ markerAt s i = true := by
  rw [findOMCIMessageIndices_eq] at h
  cases h
  rw [List.mem_filter, List.mem_range]
  constructor
  · exact fun h => h.2
  · intro h
    have := markerAt_lt_length s i h
    exact ⟨by omega, h⟩

/-- C6.  For every string `s`, `findOMCIMessageIndices(s)` returns a list that holds
exactly the offsets `i` at which the 8 characters of `s` starting at `i` are `"00000028"`,
in strictly increasing order and so each once; and the loop terminates: every fuel of at
least `len(s) + 1` passes gives that same list. -/
theorem findOMCIMessageIndices_spec (s : GoString) :
    ∃ omciIndex, findOMCIMessageIndices s = some omciIndex ∧
      (∀ i, i ∈ omciIndex ↔ (s.drop i).take 8 = marker) ∧
      omciIndex.Pairwise (fun a b => a < b) ∧ omciIndex.Nodup ∧
      ∀ fuel, s.length + 1 ≤ fuel → findLoop s fuel 0 [] = some omciIndex := by
  have hs : ((List.range (s.length + 1)).filter (markerAt s)).Pairwise (fun a b => a < b) :=
    List.Pairwise.filter _ (List.pairwise_lt_range _)
  refine ⟨_, findOMCIMessageIndices_eq s, ?_, hs, ?_, ?_⟩
  · intro i
    rw [findOMCIMessageIndices_mem s _ (findOMCIMessageIndices_eq s), markerAt_eq]
  · exact (List.nodup_range _).filter _
  · intro fuel hf
    rw [findLoop_eq s fuel 0 [] (by omega) (by omega), List.range_eq_range']
    simp

theorem textView_spec {σ μ : Type} (decode : σ → GoString → Option μ × σ) (payload : GoString)
    (st : ScanState σ μ) :
    ∃ omciIndex st' recs, findOMCIMessageIndices payload = some omciIndex ∧
      textView decode payload st = some st' ∧
      st'.handed = st.handed ++ textCandidates payload omciIndex ∧
      st'.messagesList = st.messagesList ++ recs ∧
      ∀ r ∈ recs, ∃ idx b1 b2, idx ∈ omciIndex ∧ 91 ≤ idx ∧ payload[idx - 91]? = some b1 ∧
        payload[idx - 86]? = some b2 ∧ r.InterfaceId = cutPrefix (hexEncodeToString [b1]) [48] ∧
        r.OnuId = cutPrefix (hexEncodeToString [b2]) [48] := by
  obtain ⟨st', recs, h1, h2, h3, h4⟩ := textViewLoop_spec decode payload
    ((List.range (payload.length + 1)).filter (markerAt payload)) st
    (fun i hi => (List.mem_filter.1 hi).2)
  refine ⟨_, st', recs, findOMCIMessageIndices_eq payload, ?_, h2, h3, h4⟩
  unfold textView
  rw [findOMCIMessageIndices_eq]
  exact h1

theorem hexView_spec {σ μ : Type} (decode : σ → GoString → Option μ × σ) (payload : GoString)
    (st : ScanState σ μ) :
    ∃ omciIndex st' recs, findOMCIMessageIndices (hexEncodeToString payload) = some omciIndex ∧
      hexView decode payload st = some st' ∧
      st'.handed = st.handed ++ hexCandidates (hexEncodeToString payload) omciIndex ∧
      st'.messagesList = st.messagesList ++ recs ∧
      ∀ r ∈ recs, ∃ idx, idx ∈ omciIndex ∧ 102 ≤ idx ∧
        r.InterfaceId = cutPrefix (window (hexEncodeToString payload) (idx - 102) (idx - 100)) [48] ∧
        r.OnuId = cutPrefix (window (hexEncodeToString payload) (idx - 92) (idx - 90)) [48] := by
  obtain ⟨st', recs, h1, h2, h3, h4⟩ := hexViewLoop_spec decode (hexEncodeToString payload)
    ((List.range ((hexEncodeToString payload).length + 1)).filter
      (markerAt (hexEncodeToString payload))) st
    (fun i hi => (List.mem_filter.1 hi).2)
  refine ⟨_, st', recs, findOMCIMessageIndices_eq _, ?_, h2, h3, h4⟩
  unfold hexView
  rw [findOMCIMessageIndices_eq]
  exact h1

theorem window_drop_marker (s : GoString) (idx e : Nat) (h80 : 80 ≤ idx) (he : idx + 8 ≤ e)
    (hm : markerAt s idx = true) : ((window s (idx - 80) e).drop 80).take 8 = marker := by
  rw [markerAt_eq] at hm
  rw [window_eq_take_drop, List.drop_take, List.drop_drop, List.take_take,
    show idx - 80 + 80 = idx by omega, Nat.min_eq_left (by omega)]
  exact hm

/-- C7.  For every TCP payload of at least 60 bytes (and every decoder),
`processPacket` runs the text view and then the hex view, and the strings handed to the
decoder in the text view are exactly the windows `payload[idx-80 : idx+8]`, in order, of
the marker offsets `idx ≥ 91` whose window is ASCII.  Each is 88 characters long and ends
with `"00000028"`; and an ASCII string `c` of 88 characters ending in `"00000028"` that
the payload contains at a byte offset `p ≥ 11` is among them. -/
theorem processPacket_text_candidates {σ μ : Type} (decode : σ → GoString → Option μ × σ) (payload : GoString) (d : σ)
    (h60 : 60 ≤ payload.length) :
    ∃ omciIndex st1, findOMCIMessageIndices payload = some omciIndex ∧
      textView decode payload { decoder := d, messagesList := [], handed := [] } = some st1 ∧
      processPacket decode payload d = hexView decode payload st1 ∧
      st1.handed = ((omciIndex.filter (fun idx => decide (91 ≤ idx))).map
          (fun idx => window payload (idx - 80) (idx + 8))).filter isASCII ∧
      (∀ c ∈ st1.handed, c.length = 88 ∧ c.drop 80 = marker) ∧
      ∀ (p : Nat) (c : GoString), 11 ≤ p → c.length = 88 → isASCII c = true →
        c.drop 80 = marker → (payload.drop p).take 88 = c → c ∈ st1.handed := by
  obtain ⟨omciIndex, st1, recs, h1, h2, h3, _, _⟩ := textView_spec decode payload
    ({ decoder := d, messagesList := [], handed := [] } : ScanState σ μ)
  have hmem := findOMCIMessageIndices_mem payload omciIndex h1
  simp only [List.nil_append] at h3
  refine ⟨omciIndex, st1, h1, h2, ?_, h3, ?_, ?_⟩
  · unfold processPacket
    rw [if_pos h60, h2]; rfl
  · intro c hc
    rw [h3] at hc
    unfold textCandidates at hc
    rw [List.mem_filter, List.mem_map] at hc
    obtain ⟨⟨idx, hidx, rfl⟩, _⟩ := hc
    rw [List.mem_filter] at hidx
    have h91 : 91 ≤ idx := by simpa using hidx.2
    have hm := (hmem idx).1 hidx.1
    have hl := markerAt_lt_length payload idx hm
    have hlen : (window payload (idx - 80) (idx + 8)).length = 88 := by
      rw [window_length _ _ _ hl]; omega
    refine ⟨hlen, ?_⟩
    have := window_drop_marker payload idx (idx + 8) (by omega) (le_refl _) hm
    rwa [List.take_of_length_le (by rw [List.length_drop, hlen])] at this
  · intro p c hp hlen hasc hmk hc
    rw [h3]
    unfold textCandidates
    rw [List.mem_filter, List.mem_map]
    refine ⟨⟨p + 80, ?_, ?_⟩, hasc⟩
    · rw [List.mem_filter, hmem, markerAt_eq]
      refine ⟨?_, by simpa using hp⟩
      rw [← hmk, ← hc, List.drop_take, List.drop_drop]
    · rw [window_eq_take_drop, ← hc, show p + 80 - 80 = p by omega,
        show p + 80 + 8 - p = 88 by omega]

/-- C7, witness: a payload of 99 bytes with one candidate, at offset 11. -/
theorem processPacket_text_candidates_witness :
    60 ≤ textExamplePayload.length ∧
    ∃ omciIndex st1,
      findOMCIMessageIndices textExamplePayload
        = some omciIndex ∧
      textView (fun (u : Unit) (c : GoString) => (some c, u))
        textExamplePayload
        { decoder := (), messagesList := [], handed := [] } = some st1 ∧
      processPacket (fun (u : Unit) (c : GoString) => (some c, u))
        textExamplePayload ()
        = hexView (fun (u : Unit) (c : GoString) => (some c, u))
            textExamplePayload st1 ∧
      st1.handed = ((omciIndex.filter (fun idx => decide (91 ≤ idx))).map
          (fun idx => window textExamplePayload
            (idx - 80) (idx + 8))).filter isASCII ∧
      (∀ c ∈ st1.handed, c.length = 88 ∧ c.drop 80 = marker) ∧
      ∀ (p : Nat) (c : GoString), 11 ≤ p → c.length = 88 → isASCII c = true →
        c.drop 80 = marker →
        (textExamplePayload.drop p).take 88 = c →
        c ∈ st1.handed :=
  ⟨by decide, processPacket_text_candidates _ _ () (by decide)⟩

set_option maxRecDepth 100000 in
theorem cutPrefix_hex_shortest : ∀ b : Byte, cutPrefix (hexEncodeToString [b]) [48] = shortestHex b.val := by
  decide

theorem hexEncodeToString_drop_even : ∀ (k : Nat) (p : GoString),
    (hexEncodeToString p).drop (2 * k) = hexEncodeToString (p.drop k) := by
  intro k
  induction k with
  | zero => intro p; rfl
  | succ k ih =>
    intro p
    cases p with
    | nil => simp [hexEncodeToString]
    | cons v rest =>
      rw [show 2 * (k + 1) = 2 * k + 1 + 1 by ring]
      simp only [hexEncodeToString, List.drop_succ_cons]
      exact ih rest

/-- Two consecutive characters of a hex encoding are the two-digit hex of a byte value:
of a byte of the source at an even offset, of the low nibble of one byte and the high
nibble of the next at an odd offset. -/
theorem hex_pair (p : GoString) (i : Nat) (hi : i + 2 ≤ (hexEncodeToString p).length) :
    ∃ v : Byte, window (hexEncodeToString p) i (i + 2) = hexEncodeToString [v] ∧
      (i % 2 = 0 → p[i / 2]? = some v) ∧
      (i % 2 = 1 → ∃ u w : Byte, p[i / 2]? = some u ∧ p[i / 2 + 1]? = some w ∧
        v.val = (u.val % 16) * 16 + w.val / 16) := by
  rw [hexEncodeToString_length] at hi
  rw [window_eq_take_drop, show i + 2 - i = 2 by omega]
  rcases Nat.mod_two_eq_zero_or_one i with he | ho
  · have hk : i / 2 < p.length := by omega
    have hi2 : i = 2 * (i / 2) := by omega
    refine ⟨p[i / 2], ?_, fun _ => List.getElem?_eq_getElem hk, fun h => by omega⟩
    conv_lhs => rw [hi2]
    rw [hexEncodeToString_drop_even, List.drop_eq_getElem_cons hk]
    simp [hexEncodeToString]
  · have hk : i / 2 < p.length := by omega
    have hk1 : i / 2 + 1 < p.length := by omega
    have hi2 : i = 2 * (i / 2) + 1 := by omega
    have hlt : (p[i / 2].val % 16) * 16 + p[i / 2 + 1].val / 16 < 256 := by omega
    refine ⟨⟨_, hlt⟩, ?_, fun h => by omega,
      fun _ => ⟨p[i / 2], p[i / 2 + 1], List.getElem?_eq_getElem hk,
        List.getElem?_eq_getElem hk1, rfl⟩⟩
    conv_lhs => rw [hi2]
    rw [← List.drop_drop, hexEncodeToString_drop_even, List.drop_eq_getElem_cons hk,
      List.drop_eq_getElem_cons hk1]
    simp only [hexEncodeToString, List.drop_succ_cons, List.drop_zero, List.take_succ_cons,
      List.take_zero]
    congr 2
    all_goals first | omega | (congr 1; omega)

set_option maxRecDepth 1000000 in
/-- C9, counterexample.  In the 60-byte `misalignedPayload` the marker is at the odd
offset 103 of the hex encoding.  `processPacket` returns one record, for `exampleFrame`,
and stamps it with the interface id `"12"` and the ONU id `"34"`, which are the hex of
no byte of the payload: each id straddles two bytes. -/
theorem processPacket_hex_ids_misaligned :
    60 ≤ misalignedPayload.length ∧
    (processPacket acceptAll misalignedPayload ()).map
        (fun st => st.messagesList.map (fun r => (r.message, r.InterfaceId, r.OnuId)))
      = some [(exampleFrame, [49, 50], [51, 52])] ∧
    (∀ b ∈ misalignedPayload, cutPrefix (hexEncodeToString [b]) [48] ≠ [49, 50]) ∧
    (∀ b ∈ misalignedPayload, cutPrefix (hexEncodeToString [b]) [48] ≠ [51, 52]) := by
  decide

/-- C10.  For every attribute-definition map, `parseAttributes` applied to the empty
string returns the error `"attribute list is empty"` and no map. -/
theorem parseAttributes_empty (definitions : AttributeDefinitionMap) :
    parseAttributes [] definitions = (none, some ParseError.emptyAttributeList) := rfl

theorem parseLoop_total (definitions : AttributeDefinitionMap) : ∀ (pieces : List (List Char))
    (m : AttributeValueMap),
    (∃ m1, parseLoop definitions pieces m = (some m1, none)) ∨
    (∃ e, parseLoop definitions pieces m = (none, some e)) := by
  intro pieces
  induction pieces with
  | nil => intro m; exact Or.inl ⟨m, rfl⟩
  | cons piece rest ih =>
    intro m
    unfold parseLoop
    split
    · split
      · exact Or.inr ⟨_, rfl⟩
      · split
        · exact ih _
        · split
          · split
            · exact Or.inr ⟨_, rfl⟩
            · exact ih _
          · exact ih _
    · exact ih _

theorem digitsValue_eq : ∀ (s : List Char) (acc : Nat),
    digitsValue s acc =
      if s.all (fun c => decide ('0' ≤ c ∧ c ≤ '9')) = true
      then some (s.foldl (fun a c => a * 10 + (c.toNat - '0'.toNat)) acc) else none := by
  intro s
  induction s with
  | nil => intro acc; rfl
  | cons c rest ih =>
    intro acc
    unfold digitsValue
    by_cases hc : '0' ≤ c ∧ c ≤ '9'
    · rw [if_pos hc, ih]
      simp [hc]
    · rw [if_neg hc]
      simp [hc]

theorem Atoi_sign_cases (s : List Char) :
    (∃ r, s = '+' :: r ∧ Atoi s = atoiDigits false r ∧ isDecimalInteger s = isDigits r ∧
      decimalValue s = (digitsNat r : Int)) ∨
    (∃ r, s = '-' :: r ∧ Atoi s = atoiDigits true r ∧ isDecimalInteger s = isDigits r ∧
      decimalValue s = -(digitsNat r : Int)) ∨
    (Atoi s = atoiDigits false s ∧ isDecimalInteger s = isDigits s ∧
      decimalValue s = (digitsNat s : Int)) := by
  unfold Atoi isDecimalInteger decimalValue
  split
  · exact Or.inl ⟨_, rfl, rfl, rfl, rfl⟩
  · exact Or.inr (Or.inl ⟨_, rfl, rfl, rfl, rfl⟩)
  · exact Or.inr (Or.inr ⟨rfl, rfl, rfl⟩)

theorem atoiDigits_isDigits (neg : Bool) (body : List Char) (k : Int)
    (h : atoiDigits neg body = some k) : isDigits body = true := by
  unfold atoiDigits at h
  unfold isDigits
  by_cases hb : body = []
  · rw [if_pos hb] at h; cases h
  · rw [if_neg hb, digitsValue_eq] at h
    by_cases hall : body.all (fun c => decide ('0' ≤ c ∧ c ≤ '9')) = true
    · rw [hall]
      cases body with
      | nil => exact absurd rfl hb
      | cons c r => rfl
    · rw [if_neg hall] at h; cases h

theorem atoiDigits_of_isDigits (neg : Bool) (body : List Char) (h : isDigits body = true)
    (hlo : -9223372036854775808 ≤ (if neg then -(digitsNat body : Int) else (digitsNat body : Int)))
    (hhi : (if neg then -(digitsNat body : Int) else (digitsNat body : Int)) ≤ 9223372036854775807) :
    atoiDigits neg body = some (if neg then -(digitsNat body : Int) else (digitsNat body : Int)) := by
  unfold isDigits at h
  rw [Bool.and_eq_true] at h
  have hb : body ≠ [] := by
    intro hb; rw [hb] at h; exact absurd h.1 (by decide)
  unfold atoiDigits
  rw [if_neg hb, digitsValue_eq, if_pos h.2]
  show (if _ then some _ else none) = _
  unfold digitsNat at hlo hhi ⊢
  rw [if_pos ⟨hlo, hhi⟩]

theorem Atoi_isDecimalInteger (s : List Char) (k : Int) (h : Atoi s = some k) :
    isDecimalInteger s = true := by
  rcases Atoi_sign_cases s with ⟨r, _, h1, h2, _⟩ | ⟨r, _, h1, h2, _⟩ | ⟨h1, h2, _⟩
  · rw [h2]; rw [h1] at h; exact atoiDigits_isDigits _ _ _ h
  · rw [h2]; rw [h1] at h; exact atoiDigits_isDigits _ _ _ h
  · rw [h2]; rw [h1] at h; exact atoiDigits_isDigits _ _ _ h

theorem Atoi_of_decimalInteger (s : List Char) (h : isDecimalInteger s = true)
    (hlo : -9223372036854775808 ≤ decimalValue s) (hhi : decimalValue s ≤ 9223372036854775807) :
    Atoi s = some (decimalValue s) := by
  rcases Atoi_sign_cases s with ⟨r, _, h1, h2, h3⟩ | ⟨r, _, h1, h2, h3⟩ | ⟨h1, h2, h3⟩
  · rw [h1, h3]; rw [h2] at h; rw [h3] at hlo hhi
    exact atoiDigits_of_isDigits false r h hlo hhi
  · rw [h1, h3]; rw [h2] at h; rw [h3] at hlo hhi
    exact atoiDigits_of_isDigits true r h hlo hhi
  · rw [h1, h3]; rw [h2] at h; rw [h3] at hlo hhi
    exact atoiDigits_of_isDigits false s h hlo hhi

theorem stringsSplit_ne_nil (sep : Char) : ∀ (s : List Char), stringsSplit sep s ≠ [] := by
  intro s
  induction s with
  | nil => simp [stringsSplit]
  | cons c rest ih =>
    unfold stringsSplit
    split
    · simp
    · split <;> simp

theorem stringsSplit_cons_of_ne (sep c : Char) (rest : List Char) (h : c ≠ sep) :
    ∃ p ps, stringsSplit sep rest = p :: ps ∧ stringsSplit sep (c :: rest) = (c :: p) :: ps := by
  cases hr : stringsSplit sep rest with
  | nil => exact absurd hr (stringsSplit_ne_nil sep rest)
  | cons p ps =>
    refine ⟨p, ps, rfl, ?_⟩
    rw [stringsSplit, if_neg h, hr]

theorem stringsSplit_append (sep : Char) : ∀ (p t : List Char), sep ∉ p →
    stringsSplit sep (p ++ sep :: t) = p :: stringsSplit sep t := by
  intro p
  induction p with
  | nil => intro t _; simp [stringsSplit]
  | cons c rest ih =>
    intro t h
    have hc : c ≠ sep := fun e => h (by simp [e])
    have hrest : sep ∉ rest := fun e => h (List.mem_cons_of_mem _ e)
    obtain ⟨q, qs, h1, h2⟩ := stringsSplit_cons_of_ne sep c (rest ++ sep :: t) hc
    rw [List.cons_append, h2]
    rw [ih t hrest] at h1
    cases h1
    rfl

theorem stringsSplit_of_not_mem (sep : Char) : ∀ (s : List Char), sep ∉ s →
    stringsSplit sep s = [s] := by
  intro s
  induction s with
  | nil => intro _; rfl
  | cons c rest ih =>
    intro h
    have hc : c ≠ sep := fun e => h (by simp [e])
    have hrest : sep ∉ rest := fun e => h (List.mem_cons_of_mem _ e)
    obtain ⟨q, qs, h1, h2⟩ := stringsSplit_cons_of_ne sep c rest hc
    rw [h2]
    rw [ih hrest] at h1
    cases h1
    rfl

theorem stringsSplit_head (sep : Char) : ∀ (s : List Char),
    ∃ r, stringsSplit sep s = s.takeWhile (fun c => c ≠ sep) :: r := by
  intro s
  induction s with
  | nil => exact ⟨[], rfl⟩
  | cons c rest ih =>
    by_cases hc : c = sep
    · refine ⟨stringsSplit sep rest, ?_⟩
      rw [stringsSplit, if_pos hc]
      simp [hc]
    · obtain ⟨q, qs, h1, h2⟩ := stringsSplit_cons_of_ne sep c rest hc
      obtain ⟨r, hr⟩ := ih
      rw [hr] at h1
      cases h1
      refine ⟨qs, ?_⟩
      rw [h2]
      simp [hc]

theorem mem_of_mem_stringsSplit (sep : Char) : ∀ (s piece : List Char),
    piece ∈ stringsSplit sep s → ∀ c ∈ piece, c ∈ s ∧ c ≠ sep := by
  intro s
  induction s with
  | nil =>
    intro piece hp c hc
    simp [stringsSplit] at hp
    subst hp
    simp at hc
  | cons a rest ih =>
    intro piece hp c hc
    by_cases ha : a = sep
    · rw [stringsSplit, if_pos ha] at hp
      rcases List.mem_cons.1 hp with rfl | hp
      · simp at hc
      · have := ih piece hp c hc
        exact ⟨List.mem_cons_of_mem _ this.1, this.2⟩
    · obtain ⟨q, qs, h1, h2⟩ := stringsSplit_cons_of_ne sep a rest ha
      rw [h2] at hp
      rcases List.mem_cons.1 hp with rfl | hp
      · rcases List.mem_cons.1 hc with rfl | hc
        · exact ⟨List.mem_cons_self _ _, ha⟩
        · have := ih q (by rw [h1]; exact List.mem_cons_self _ _) c hc
          exact ⟨List.mem_cons_of_mem _ this.1, this.2⟩
      · have := ih piece (by rw [h1]; exact List.mem_cons_of_mem _ hp) c hc
        exact ⟨List.mem_cons_of_mem _ this.1, this.2⟩

theorem stringsSplit_joinEntries : ∀ (ps : List (List Char)), ps ≠ [] →
    (∀ p ∈ ps, ',' ∉ p) → stringsSplit ',' (joinEntries ps) = ps := by
  intro ps
  induction ps with
  | nil => intro h; exact absurd rfl h
  | cons p rest ih =>
    intro _ hall
    cases rest with
    | nil =>
      rw [joinEntries]
      exact stringsSplit_of_not_mem _ _ (hall p (List.mem_cons_self _ _))
    | cons q rest =>
      rw [joinEntries, stringsSplit_append _ _ _ (hall p (List.mem_cons_self _ _)),
        ih (by simp) (fun x hx => hall x (List.mem_cons_of_mem _ hx))]

theorem mem_joinEntries : ∀ (ps : List (List Char)) (c : Char), c ∈ joinEntries ps →
    c = ',' ∨ ∃ p ∈ ps, c ∈ p := by
  intro ps
  induction ps with
  | nil => intro c hc; simp [joinEntries] at hc
  | cons p rest ih =>
    intro c hc
    cases rest with
    | nil =>
      rw [joinEntries] at hc
      exact Or.inr ⟨p, List.mem_cons_self _ _, hc⟩
    | cons q rest =>
      rw [joinEntries, List.mem_append, List.mem_cons] at hc
      rcases hc with hc | hc | hc
      · exact Or.inr ⟨p, List.mem_cons_self _ _, hc⟩
      · exact Or.inl hc
      · rcases ih c hc with h | ⟨x, hx, hcx⟩
        · exact Or.inl h
        · exact Or.inr ⟨x, List.mem_cons_of_mem _ hx, hcx⟩

theorem mapSet_of_not_mem : ∀ (m : AttributeValueMap) (key : List Char) (v : AttributeValue),
    key ∉ m.map (fun kv => kv.1) → mapSet m key v = m ++ [(key, v)] := by
  intro m
  induction m with
  | nil => intro key v _; rfl
  | cons kv rest ih =>
    intro key v h
    obtain ⟨k, w⟩ := kv
    have hk : k ≠ key := fun e => h (List.mem_map.2 ⟨(k, w), List.mem_cons_self _ _, e⟩)
    have hr : key ∉ rest.map (fun kv => kv.1) := fun e => by
      obtain ⟨x, hx, hxe⟩ := List.mem_map.1 e
      exact h (List.mem_map.2 ⟨x, List.mem_cons_of_mem _ hx, hxe⟩)
    rw [mapSet, if_neg hk, ih key v hr]
    rfl

/-- One pass of the loop of `parseAttributes` over an entry `name=tail`. -/
theorem parseLoop_entry (definitions : AttributeDefinitionMap) (name tail : List Char)
    (rest : List (List Char)) (m : AttributeValueMap) (hn : '=' ∉ name) :
    parseLoop definitions ((name ++ '=' :: tail) :: rest) m =
      match definitions.getByName name with
      | none => (none, some (ParseError.attributeNotFound name))
      | some definition =>
        if definition.AttributeType = AttributeType.String then
          parseLoop definitions rest (mapSet m name (AttributeValue.str (valueField tail)))
        else if isIntegerTyped definition.AttributeType = true then
          match Atoi (valueField tail) with
          | none => (none, some (ParseError.atoiError (valueField tail)))
          | some n => parseLoop definitions rest (mapSet m name (AttributeValue.int n))
        else parseLoop definitions rest m := by
  obtain ⟨r, hr⟩ := stringsSplit_head '=' tail
  have hs : stringsSplit '=' (name ++ '=' :: tail) = name :: valueField tail :: r := by
    rw [stringsSplit_append _ _ _ hn, hr]; rfl
  rw [parseLoop, hs]
  simp only
  generalize definitions.getByName name = g
  cases g with
  | none => rfl
  | some definition =>
    simp only
    by_cases hS : definition.AttributeType = AttributeType.String
    · rw [if_pos hS, if_pos hS]
    · rw [if_neg hS, if_neg hS]
      refine if_congr ?_ rfl rfl
      simp only [isIntegerTyped, decide_eq_true_eq]
      exact ⟨fun h => ⟨hS, h⟩, fun h => h.2⟩

/-- An entry without `=` is skipped. -/
theorem parseLoop_skip (definitions : AttributeDefinitionMap) (piece : List Char)
    (rest : List (List Char)) (m : AttributeValueMap) (hp : '=' ∉ piece) :
    parseLoop definitions (piece :: rest) m = parseLoop definitions rest m := by
  rw [parseLoop, stringsSplit_of_not_mem _ _ hp]

theorem exists_piece_of_mem (sep : Char) : ∀ (s : List Char) (c : Char), c ∈ s → c ≠ sep →
    ∃ piece ∈ stringsSplit sep s, c ∈ piece := by
  intro s
  induction s with
  | nil => intro c hc; simp at hc
  | cons a rest ih =>
    intro c hc hne
    by_cases ha : a = sep
    · rw [stringsSplit, if_pos ha]
      rcases List.mem_cons.1 hc with rfl | hc
      · exact absurd ha hne
      · obtain ⟨piece, hp, hcp⟩ := ih c hc hne
        exact ⟨piece, List.mem_cons_of_mem _ hp, hcp⟩
    · obtain ⟨q, qs, h1, h2⟩ := stringsSplit_cons_of_ne sep a rest ha
      rw [h2]
      rcases List.mem_cons.1 hc with rfl | hc
      · exact ⟨c :: q, List.mem_cons_self _ _, List.mem_cons_self _ _⟩
      · obtain ⟨piece, hp, hcp⟩ := ih c hc hne
        rw [h1] at hp
        rcases List.mem_cons.1 hp with rfl | hp
        · exact ⟨a :: piece, List.mem_cons_self _ _, List.mem_cons_of_mem _ hcp⟩
        · exact ⟨piece, List.mem_cons_of_mem _ hp, hcp⟩

theorem parseLoop_cons_cases (definitions : AttributeDefinitionMap) (piece : List Char)
    (rest : List (List Char)) (m : AttributeValueMap) :
    (∃ e, parseLoop definitions (piece :: rest) m = (none, some e)) ∨
    (∃ m1, parseLoop definitions (piece :: rest) m = parseLoop definitions rest m1) := by
  rw [parseLoop]
  split
  · split
    · exact Or.inl ⟨_, rfl⟩
    · split
      · exact Or.inr ⟨_, rfl⟩
      · split
        · split
          · exact Or.inl ⟨_, rfl⟩
          · exact Or.inr ⟨_, rfl⟩
        · exact Or.inr ⟨_, rfl⟩
  · exact Or.inr ⟨_, rfl⟩

/-- A failing entry makes the loop of `parseAttributes` return an error and no map,
wherever it stands. -/
theorem parseLoop_error (definitions : AttributeDefinitionMap) (name tail : List Char)
    (hn : '=' ∉ name)
    (hbad : definitions.getByName name = none ∨
      ∃ d, definitions.getByName name = some d ∧ isIntegerTyped d.AttributeType = true ∧
        Atoi (valueField tail) = none) :
    ∀ (pieces : List (List Char)) (m : AttributeValueMap), name ++ '=' :: tail ∈ pieces →
    ∃ e, parseLoop definitions pieces m = (none, some e) := by
  intro pieces
  induction pieces with
  | nil => intro m h; simp at h
  | cons piece rest ih =>
    intro m h
    rcases parseLoop_cons_cases definitions piece rest m with he | ⟨m1, hm1⟩
    · exact he
    · rcases List.mem_cons.1 h with hp | hp
      · subst hp
        rw [parseLoop_entry definitions name tail rest m hn]
        rcases hbad with hnone | ⟨d, hd, hint, hatoi⟩
        · rw [hnone]; exact ⟨_, rfl⟩
        · rw [hd]
          have hS : d.AttributeType ≠ AttributeType.String := by
            simp only [isIntegerTyped, decide_eq_true_eq] at hint
            exact hint.1
          simp only
          rw [if_neg hS, if_pos hint, hatoi]
          exact ⟨_, rfl⟩
      · rw [hm1]; exact ih m1 hp

theorem parseLoop_all_skip (definitions : AttributeDefinitionMap) :
    ∀ (pieces : List (List Char)) (m : AttributeValueMap), (∀ p ∈ pieces, '=' ∉ p) →
    parseLoop definitions pieces m = (some m, none) := by
  intro pieces
  induction pieces with
  | nil => intro m _; rfl
  | cons piece rest ih =>
    intro m h
    rw [parseLoop_skip definitions piece rest m (h piece (List.mem_cons_self _ _))]
    exact ih m (fun p hp => h p (List.mem_cons_of_mem _ hp))

theorem storedEntry_key (definitions : AttributeDefinitionMap) (e : List Char × List Char)
    (kv : List Char × AttributeValue) (h : storedEntry definitions e = some kv) : kv.1 = e.1 := by
  unfold storedEntry at h
  split at h
  · cases h
  · split at h
    · cases h; rfl
    · split at h
      · rw [Option.map_eq_some'] at h
        obtain ⟨k, _, rfl⟩ := h
        rfl
      · cases h

theorem filterMap_storedEntry_keys (definitions : AttributeDefinitionMap)
    (es : List (List Char × List Char)) (key : List Char)
    (h : key ∈ (es.filterMap (storedEntry definitions)).map (fun kv => kv.1)) :
    key ∈ es.map (fun e => e.1) := by
  rw [List.mem_map] at h
  obtain ⟨kv, hkv, rfl⟩ := h
  rw [List.mem_filterMap] at hkv
  obtain ⟨e, he, hs⟩ := hkv
  rw [storedEntry_key definitions e kv hs]
  exact List.mem_map.2 ⟨e, he, rfl⟩

/-- The loop of `parseAttributes` over well-formed entries with distinct names: each
entry adds what `storedEntry` says, in order. -/
theorem parseLoop_entries (definitions : AttributeDefinitionMap) :
    ∀ (es : List (List Char × List Char)) (m : AttributeValueMap),
    (∀ e ∈ es, '=' ∉ e.1 ∧ ∃ d, definitions.getByName e.1 = some d ∧
      (isIntegerTyped d.AttributeType = true → ∃ k, Atoi (valueField e.2) = some k)) →
    (es.map (fun e => e.1)).Nodup → (∀ e ∈ es, e.1 ∉ m.map (fun kv => kv.1)) →
    parseLoop definitions (es.map entryText) m
      = (some (m ++ es.filterMap (storedEntry definitions)), none) := by
  intro es
  induction es with
  | nil => intro m _ _ _; simp [parseLoop]
  | cons e rest ih =>
    intro m hwf hnd hm
    obtain ⟨n, t⟩ := e
    obtain ⟨hn, d, hd, hint⟩ := hwf (n, t) (List.mem_cons_self _ _)
    have hwf1 : ∀ e ∈ rest, '=' ∉ e.1 ∧ ∃ d, definitions.getByName e.1 = some d ∧
        (isIntegerTyped d.AttributeType = true → ∃ k, Atoi (valueField e.2) = some k) :=
      fun e he => hwf e (List.mem_cons_of_mem _ he)
    rw [List.map_cons, List.nodup_cons] at hnd
    have hnm : n ∉ m.map (fun kv => kv.1) := hm (n, t) (List.mem_cons_self _ _)
    have hm1 : ∀ (v : AttributeValue), ∀ e ∈ rest, e.1 ∉ (m ++ [(n, v)]).map (fun kv => kv.1) := by
      intro v e he hmem
      rw [List.map_append, List.mem_append] at hmem
      rcases hmem with hmem | hmem
      · exact hm e (List.mem_cons_of_mem _ he) hmem
      · simp only [List.map_cons, List.map_nil, List.mem_singleton] at hmem
        exact hnd.1 (List.mem_map.2 ⟨e, he, hmem⟩)
    rw [List.map_cons]
    show parseLoop definitions ((n ++ '=' :: t) :: _) m = _
    rw [parseLoop_entry definitions n t _ m hn, hd]
    simp only
    rw [List.filterMap_cons]
    by_cases hS : d.AttributeType = AttributeType.String
    · have hst : storedEntry definitions (n, t) = some (n, AttributeValue.str (valueField t)) := by
        simp only [storedEntry, hd, if_pos hS]
      rw [if_pos hS, mapSet_of_not_mem m n _ hnm, ih _ hwf1 hnd.2 (hm1 _), hst]
      simp
    · rw [if_neg hS]
      by_cases hI : isIntegerTyped d.AttributeType = true
      · obtain ⟨k, hk⟩ := hint hI
        have hst : storedEntry definitions (n, t) = some (n, AttributeValue.int k) := by
          simp only [storedEntry, hd, if_neg hS, if_pos hI, hk, Option.map_some']
        rw [if_pos hI, hk]
        simp only
        rw [mapSet_of_not_mem m n _ hnm, ih _ hwf1 hnd.2 (hm1 _), hst]
        simp
      · have hst : storedEntry definitions (n, t) = none := by
          simp only [storedEntry, hd, if_neg hS, if_neg hI]
        rw [if_neg hI, ih m hwf1 hnd.2 (fun e he => hm e (List.mem_cons_of_mem _ he)), hst]

theorem joinEntries_ne_nil (p : List Char) (rest : List (List Char)) (hp : p ≠ []) :
    joinEntries (p :: rest) ≠ [] := by
  cases rest with
  | nil => simpa [joinEntries] using hp
  | cons q r => simp [joinEntries, hp]

/-- The function `parseAttributes` on a text made of well-formed entries with distinct
names. -/
theorem parseAttributes_entries (definitions : AttributeDefinitionMap)
    (es : List (List Char × List Char)) (hne : es ≠ [])
    (hnd : (es.map (fun e => e.1)).Nodup)
    (hwf : ∀ e ∈ es, (∀ c ∈ e.1, c ≠ ' ' ∧ c ≠ ',' ∧ c ≠ '=') ∧ (∀ c ∈ e.2, c ≠ ' ' ∧ c ≠ ',') ∧
      ∃ d, definitions.getByName e.1 = some d ∧
        (isIntegerTyped d.AttributeType = true → ∃ k, Atoi (valueField e.2) = some k)) :
    parseAttributes (joinEntries (es.map entryText)) definitions
      = (some (es.filterMap (storedEntry definitions)), none) := by
  have hpiece : ∀ p ∈ es.map entryText, ∀ c ∈ p, c ≠ ' ' ∧ c ≠ ',' := by
    intro p hp c hc
    rw [List.mem_map] at hp
    obtain ⟨e, he, rfl⟩ := hp
    obtain ⟨h1, h2, _⟩ := hwf e he
    simp only [entryText, List.mem_append, List.mem_cons] at hc
    rcases hc with hc | rfl | hc
    · exact ⟨(h1 c hc).1, (h1 c hc).2.1⟩
    · exact ⟨by decide, by decide⟩
    · exact h2 c hc
  have hfilter : (joinEntries (es.map entryText)).filter (fun c => c ≠ ' ')
      = joinEntries (es.map entryText) := by
    rw [List.filter_eq_self]
    intro c hc
    rcases mem_joinEntries _ c hc with rfl | ⟨p, hp, hcp⟩
    · decide
    · simpa using (hpiece p hp c hcp).1
  have hsplit : stringsSplit ',' (joinEntries (es.map entryText)) = es.map entryText :=
    stringsSplit_joinEntries _ (by simpa using hne)
      (fun p hp hmem => (hpiece p hp ',' hmem).2 rfl)
  have hnonempty : joinEntries (es.map entryText) ≠ [] := by
    cases es with
    | nil => exact absurd rfl hne
    | cons e rest =>
      rw [List.map_cons]
      exact joinEntries_ne_nil _ _ (by simp [entryText])
  unfold parseAttributes
  rw [if_neg hnonempty, hfilter, hsplit,
    parseLoop_entries definitions es [] (fun e he => ⟨fun hmem => ((hwf e he).1 '=' hmem).2.2 rfl,
      (hwf e he).2.2⟩) hnd (fun e _ => by simp)]
  simp

theorem mapGet_cons (kv : List Char × AttributeValue) (rest : AttributeValueMap) (key : List Char) :
    mapGet (kv :: rest) key = if kv.1 = key then some kv.2 else mapGet rest key := by
  unfold mapGet
  rw [List.find?_cons]
  by_cases h : kv.1 = key
  · simp [h]
  · simp [h]

theorem mapGet_none_of_not_mem : ∀ (m : AttributeValueMap) (key : List Char),
    key ∉ m.map (fun kv => kv.1) → mapGet m key = none := by
  intro m
  induction m with
  | nil => intro key _; rfl
  | cons kv rest ih =>
    intro key h
    rw [mapGet_cons, if_neg (fun e => h (List.mem_map.2 ⟨kv, List.mem_cons_self _ _, e⟩))]
    exact ih key (fun e => by
      obtain ⟨x, hx, hxe⟩ := List.mem_map.1 e
      exact h (List.mem_map.2 ⟨x, List.mem_cons_of_mem _ hx, hxe⟩))

theorem mapGet_filterMap_storedEntry (definitions : AttributeDefinitionMap) :
    ∀ (es : List (List Char × List Char)), (es.map (fun e => e.1)).Nodup → ∀ e ∈ es,
    mapGet (es.filterMap (storedEntry definitions)) e.1
      = (storedEntry definitions e).map (fun kv => kv.2) := by
  intro es
  induction es with
  | nil => intro _ e he; simp at he
  | cons e0 rest ih =>
    intro hnd e he
    rw [List.map_cons, List.nodup_cons] at hnd
    rw [List.filterMap_cons]
    rcases List.mem_cons.1 he with rfl | he
    · cases hs : storedEntry definitions e with
      | none =>
        simp only [Option.map_none']
        exact mapGet_none_of_not_mem _ _ (fun h => hnd.1 (filterMap_storedEntry_keys _ _ _ h))
      | some kv =>
        simp only [Option.map_some']
        rw [mapGet_cons, if_pos (storedEntry_key definitions e kv hs)]
    · have hne : e0.1 ≠ e.1 := fun h => hnd.1 (List.mem_map.2 ⟨e, he, h.symm⟩)
      cases hs : storedEntry definitions e0 with
      | none => exact ih hnd.2 e he
      | some kv =>
        simp only
        rw [mapGet_cons, if_neg (by rw [storedEntry_key definitions e0 kv hs]; exact hne)]
        exact ih hnd.2 e he

theorem valueField_of_not_mem (tail : List Char) (h : '=' ∉ tail) : valueField tail = tail := by
  unfold valueField
  rw [List.takeWhile_eq_self_iff]
  intro c hc
  simpa using fun e : c = '=' => h (e ▸ hc)

theorem valueField_append (pre post : List Char) (h : '=' ∉ pre) :
    valueField (pre ++ '=' :: post) = pre := by
  unfold valueField
  induction pre with
  | nil => simp
  | cons c rest ih =>
    have hc : c ≠ '=' := fun e => h (by simp [e])
    rw [List.cons_append, List.takeWhile_cons]
    simp only [hc, ne_eq, not_false_eq_true, decide_True, if_true, List.cons.injEq, true_and]
    exact ih (fun e => h (List.mem_cons_of_mem _ e))

/-- C11, counterexample.  The entry `AllocId=1=2` gives the integer-typed attribute
`AllocId` the value `1=2`, which is not a decimal integer; `parseAttributes` reads only
the field `1`, and returns the map `{AllocId: 1}` and no error. -/
theorem parseAttributes_accepts_value_with_equals :
    parseAttributes "AllocId=1=2".toList exampleDefinitions
      = (some [("AllocId".toList, AttributeValue.int 1)], none) ∧
    (∃ d, exampleDefinitions.getByName "AllocId".toList = some d ∧
      isIntegerTyped d.AttributeType = true) ∧
    isDecimalInteger "1=2".toList = false := by
  refine ⟨by decide, ⟨_, rfl, by decide⟩, by decide⟩

/-- C11, amended.  If some comma-separated entry `name=tail` of the space-free text names
an attribute that is absent from `attr_defs`, or belongs to an attribute whose type is
none of String, BitField, Octets, Table while its value field (the part of `tail` in front
of a further `=`, if any) is not a decimal integer, then `parseAttributes` returns an error
and no map, whatever the other entries are. -/
theorem parseAttributes_error_no_map (definitions : AttributeDefinitionMap) (text name tail : List Char)
    (hp : name ++ '=' :: tail ∈ stringsSplit ',' (text.filter (fun c => c ≠ ' ')))
    (hn : '=' ∉ name)
    (hbad : definitions.getByName name = none ∨
      ∃ d, definitions.getByName name = some d ∧ isIntegerTyped d.AttributeType = true ∧
        isDecimalInteger (valueField tail) = false) :
    ∃ e, parseAttributes text definitions = (none, some e) := by
  unfold parseAttributes
  by_cases ht : text = []
  · rw [if_pos ht]; exact ⟨_, rfl⟩
  · rw [if_neg ht]
    refine parseLoop_error definitions name tail hn ?_ _ [] hp
    rcases hbad with h | ⟨d, hd, hint, hdec⟩
    · exact Or.inl h
    · refine Or.inr ⟨d, hd, hint, ?_⟩
      cases hA : Atoi (valueField tail) with
      | none => rfl
      | some k => rw [Atoi_isDecimalInteger _ k hA] at hdec; cases hdec

/-- C11, witness: the entry `AllocId=4x` between two valid entries. -/
theorem parseAttributes_error_no_map_witness :
    "AllocId".toList ++ '=' :: "4x".toList ∈
      stringsSplit ',' ("Name=a, AllocId=4x, Name=b".toList.filter (fun c => c ≠ ' ')) ∧
    '=' ∉ "AllocId".toList ∧
    (exampleDefinitions.getByName "AllocId".toList = none ∨
      ∃ d, exampleDefinitions.getByName "AllocId".toList = some d ∧
        isIntegerTyped d.AttributeType = true ∧
        isDecimalInteger (valueField "4x".toList) = false) ∧
    ∃ e, parseAttributes "Name=a, AllocId=4x, Name=b".toList exampleDefinitions = (none, some e) :=
  have h1 : "AllocId".toList ++ '=' :: "4x".toList ∈
      stringsSplit ',' ("Name=a, AllocId=4x, Name=b".toList.filter (fun c => c ≠ ' ')) := by
    decide
  have h2 : '=' ∉ "AllocId".toList := by decide
  have h3 : exampleDefinitions.getByName "AllocId".toList = none ∨
      ∃ d, exampleDefinitions.getByName "AllocId".toList = some d ∧
        isIntegerTyped d.AttributeType = true ∧
        isDecimalInteger (valueField "4x".toList) = false :=
    Or.inr ⟨_, rfl, by decide, by decide⟩
  ⟨h1, h2, h3, parseAttributes_error_no_map exampleDefinitions _ _ _ h1 h2 h3⟩

/-- C12, counterexample.  `9223372036854775808` is a decimal integer, but
`strconv.Atoi` rejects it as out of the range of `int`: the text
`AllocId=9223372036854775808` gives an error and no map. -/
theorem parseAttributes_integer_out_of_range :
    isDecimalInteger "9223372036854775808".toList = true ∧
    (∃ d, exampleDefinitions.getByName "AllocId".toList = some d ∧
      isIntegerTyped d.AttributeType = true) ∧
    parseAttributes (joinEntries [entryText ("AllocId".toList, "9223372036854775808".toList)])
        exampleDefinitions
      = (none, some (ParseError.atoiError "9223372036854775808".toList)) := by
  refine ⟨by decide, ⟨_, rfl, by decide⟩, by decide⟩

/-- C12, amended.  For a schema whose attribute names contain no space, `,` or `=`, and
every text made of one or more entries `name=value` with pairwise distinct names that are
all in `attr_defs`, whose values contain no space, `,` or `=` and are decimal integers in
the range of `int` wherever the attribute is integer-typed, `parseAttributes` succeeds
with no error and returns a map whose keys are exactly the names whose type is not
BitField, Octets or Table; each String-typed name maps to its value text unchanged and
every integer-typed name maps to the integer its value denotes. -/
theorem parseAttributes_entries_ok (definitions : AttributeDefinitionMap) (es : List (List Char × List Char))
    (hne : es ≠ []) (hnd : (es.map (fun e => e.1)).Nodup)
    (hschema : ∀ n d, definitions.getByName n = some d → ∀ c ∈ n, c ≠ ' ' ∧ c ≠ ',' ∧ c ≠ '=')
    (hwf : ∀ e ∈ es, (∀ c ∈ e.2, c ≠ ' ' ∧ c ≠ ',' ∧ c ≠ '=') ∧
      ∃ d, definitions.getByName e.1 = some d ∧
        (isIntegerTyped d.AttributeType = true → isDecimalInteger e.2 = true ∧
          -9223372036854775808 ≤ decimalValue e.2 ∧ decimalValue e.2 ≤ 9223372036854775807)) :
    ∃ m, parseAttributes (joinEntries (es.map entryText)) definitions = (some m, none) ∧
      (∀ key, key ∈ m.map (fun kv => kv.1) ↔
        key ∈ es.map (fun e => e.1) ∧ ∃ d, definitions.getByName key = some d ∧
          d.AttributeType ≠ AttributeType.BitField ∧ d.AttributeType ≠ AttributeType.Octets ∧
          d.AttributeType ≠ AttributeType.Table) ∧
      ∀ e ∈ es, ∀ d, definitions.getByName e.1 = some d →
        (d.AttributeType = AttributeType.String → mapGet m e.1 = some (AttributeValue.str e.2)) ∧
        (isIntegerTyped d.AttributeType = true →
          mapGet m e.1 = some (AttributeValue.int (decimalValue e.2))) := by
  have hvf : ∀ e ∈ es, valueField e.2 = e.2 := fun e he =>
    valueField_of_not_mem _ (fun hmem => ((hwf e he).1 '=' hmem).2.2 rfl)
  have hatoi : ∀ e ∈ es, ∀ d, definitions.getByName e.1 = some d →
      isIntegerTyped d.AttributeType = true → Atoi (valueField e.2) = some (decimalValue e.2) := by
    intro e he d hd hI
    obtain ⟨_, d1, hd1, h⟩ := hwf e he
    rw [hd] at hd1
    cases hd1
    obtain ⟨h1, h2, h3⟩ := h hI
    rw [hvf e he]
    exact Atoi_of_decimalInteger _ h1 h2 h3
  have hstored : ∀ e ∈ es, ∀ d, definitions.getByName e.1 = some d →
      storedEntry definitions e =
        if d.AttributeType = AttributeType.String then some (e.1, AttributeValue.str e.2)
        else if isIntegerTyped d.AttributeType = true
          then some (e.1, AttributeValue.int (decimalValue e.2)) else none := by
    intro e he d hd
    unfold storedEntry
    rw [hd]
    simp only
    by_cases hS : d.AttributeType = AttributeType.String
    · rw [if_pos hS, if_pos hS, hvf e he]
    · rw [if_neg hS, if_neg hS]
      by_cases hI : isIntegerTyped d.AttributeType = true
      · rw [if_pos hI, if_pos hI, hatoi e he d hd hI]; rfl
      · rw [if_neg hI, if_neg hI]
  refine ⟨_, parseAttributes_entries definitions es hne hnd (fun e he => ?_), ?_, ?_⟩
  · obtain ⟨h2, d, hd, _⟩ := hwf e he
    exact ⟨hschema _ d hd, fun c hc => ⟨(h2 c hc).1, (h2 c hc).2.1⟩, d, hd,
      fun hI => ⟨_, hatoi e he d hd hI⟩⟩
  · intro key
    constructor
    · intro hk
      rw [List.mem_map] at hk
      obtain ⟨kv, hkv, rfl⟩ := hk
      rw [List.mem_filterMap] at hkv
      obtain ⟨e, he, hs⟩ := hkv
      obtain ⟨_, d, hd, _⟩ := hwf e he
      have hkey := storedEntry_key definitions e kv hs
      rw [hstored e he d hd] at hs
      refine ⟨by rw [hkey]; exact List.mem_map.2 ⟨e, he, rfl⟩, d, by rw [hkey]; exact hd, ?_⟩
      by_cases hS : d.AttributeType = AttributeType.String
      · rw [hS]; exact ⟨by decide, by decide, by decide⟩
      · rw [if_neg hS] at hs
        by_cases hI : isIntegerTyped d.AttributeType = true
        · simp only [isIntegerTyped, decide_eq_true_eq] at hI
          exact hI.2
        · rw [if_neg hI] at hs; cases hs
    · rintro ⟨hk, d, hd, hB, hO, hT⟩
      rw [List.mem_map] at hk
      obtain ⟨e, he, rfl⟩ := hk
      rw [List.mem_map]
      by_cases hS : d.AttributeType = AttributeType.String
      · refine ⟨(e.1, AttributeValue.str e.2), ?_, rfl⟩
        rw [List.mem_filterMap]
        exact ⟨e, he, by rw [hstored e he d hd, if_pos hS]⟩
      · have hI : isIntegerTyped d.AttributeType = true := by
          simp only [isIntegerTyped, decide_eq_true_eq]
          exact ⟨hS, hB, hO, hT⟩
        refine ⟨(e.1, AttributeValue.int (decimalValue e.2)), ?_, rfl⟩
        rw [List.mem_filterMap]
        exact ⟨e, he, by rw [hstored e he d hd, if_neg hS, if_pos hI]⟩
  · intro e he d hd
    rw [mapGet_filterMap_storedEntry definitions es hnd e he, hstored e he d hd]
    constructor
    · intro hS; rw [if_pos hS]; rfl
    · intro hI
      have hS : d.AttributeType ≠ AttributeType.String := by
        simp only [isIntegerTyped, decide_eq_true_eq] at hI
        exact hI.1
      rw [if_neg hS, if_pos hI]; rfl

theorem exampleDefinitions_names (n : List Char) (d : AttributeDefinition)
    (h : exampleDefinitions.getByName n = some d) : ∀ c ∈ n, c ≠ ' ' ∧ c ≠ ',' ∧ c ≠ '=' := by
  unfold exampleDefinitions at h
  simp only at h
  split at h
  · rename_i e; rw [e]; decide
  · split at h
    · rename_i e; rw [e]; decide
    · split at h
      · rename_i e; rw [e]; decide
      · split at h
        · rename_i e; rw [e]; decide
        · cases h

/-- C12, witness: the text `AllocId=42,Name=abc,Bits=1`. -/
theorem parseAttributes_entries_ok_witness :
    [("AllocId".toList, "42".toList), ("Name".toList, "abc".toList), ("Bits".toList, "1".toList)]
      ≠ [] ∧
    ∃ m, parseAttributes (joinEntries
        ([("AllocId".toList, "42".toList), ("Name".toList, "abc".toList),
          ("Bits".toList, "1".toList)].map entryText)) exampleDefinitions = (some m, none) ∧
      (∀ key, key ∈ m.map (fun kv => kv.1) ↔
        key ∈ [("AllocId".toList, "42".toList), ("Name".toList, "abc".toList),
          ("Bits".toList, "1".toList)].map (fun e => e.1) ∧
        ∃ d, exampleDefinitions.getByName key = some d ∧
          d.AttributeType ≠ AttributeType.BitField ∧ d.AttributeType ≠ AttributeType.Octets ∧
          d.AttributeType ≠ AttributeType.Table) ∧
      ∀ e ∈ [("AllocId".toList, "42".toList), ("Name".toList, "abc".toList),
          ("Bits".toList, "1".toList)], ∀ d, exampleDefinitions.getByName e.1 = some d →
        (d.AttributeType = AttributeType.String → mapGet m e.1 = some (AttributeValue.str e.2)) ∧
        (isIntegerTyped d.AttributeType = true →
          mapGet m e.1 = some (AttributeValue.int (decimalValue e.2))) :=
  ⟨by decide, parseAttributes_entries_ok exampleDefinitions _ (by decide) (by decide) exampleDefinitions_names
    (by
      intro e he
      simp only [List.mem_cons, List.mem_singleton, List.not_mem_nil, or_false] at he
      rcases he with rfl | rfl | rfl
      · exact ⟨by decide, _, rfl, fun _ => by decide⟩
      · exact ⟨by decide, _, rfl, fun h => absurd h (by decide)⟩
      · exact ⟨by decide, _, rfl, fun h => absurd h (by decide)⟩)⟩

/-- C13, counterexample.  For the String-typed attribute `Name` and the entry
`Name=a=b`, the value stored under `Name` is `a`, not `a=b`. -/
theorem parseAttributes_splits_every_equals :
    (∃ d, exampleDefinitions.getByName "Name".toList = some d ∧
      d.AttributeType = AttributeType.String) ∧
    parseAttributes ("Name".toList ++ '=' :: "a=b".toList) exampleDefinitions
      = (some [("Name".toList, AttributeValue.str "a".toList)], none) ∧
    AttributeValue.str "a".toList ≠ AttributeValue.str "a=b".toList := by
  refine ⟨⟨_, rfl, rfl⟩, by decide, by decide⟩

/-- C13, amended.  `parseAttributes` splits each entry at every `=` and reads the first
two fields: in a text of well-formed entries with distinct names, for a String-typed
attribute `name` and an entry `name=v`, the value stored under `name` is the value field of
`v`, which is the whole of `v` when `v` contains no `=`, and the part of `v` in front of its
first `=` otherwise. -/
theorem parseAttributes_value_field (definitions : AttributeDefinitionMap) (es : List (List Char × List Char))
    (hnd : (es.map (fun e => e.1)).Nodup)
    (hwf : ∀ e ∈ es, (∀ c ∈ e.1, c ≠ ' ' ∧ c ≠ ',' ∧ c ≠ '=') ∧ (∀ c ∈ e.2, c ≠ ' ' ∧ c ≠ ',') ∧
      ∃ d, definitions.getByName e.1 = some d ∧
        (isIntegerTyped d.AttributeType = true → ∃ k, Atoi (valueField e.2) = some k))
    (name v : List Char) (d : AttributeDefinition) (hin : (name, v) ∈ es)
    (hd : definitions.getByName name = some d) (hS : d.AttributeType = AttributeType.String) :
    ∃ m, parseAttributes (joinEntries (es.map entryText)) definitions = (some m, none) ∧
      mapGet m name = some (AttributeValue.str (valueField v)) ∧
      ('=' ∉ v → valueField v = v) ∧
      ∀ pre post, v = pre ++ '=' :: post → '=' ∉ pre → valueField v = pre := by
  refine ⟨_, parseAttributes_entries definitions es (List.ne_nil_of_mem hin) hnd hwf, ?_,
    valueField_of_not_mem v, ?_⟩
  · rw [mapGet_filterMap_storedEntry definitions es hnd (name, v) hin]
    simp only [storedEntry, hd, if_pos hS, Option.map_some']
  · rintro pre post rfl hpre
    exact valueField_append pre post hpre

/-- C13, witness: the text `AllocId=42,Name=a=b=c`. -/
theorem parseAttributes_value_field_witness :
    ([("AllocId".toList, "42".toList), ("Name".toList, "a=b=c".toList)].map
      (fun e => e.1)).Nodup ∧
    ("Name".toList, "a=b=c".toList) ∈
      [("AllocId".toList, "42".toList), ("Name".toList, "a=b=c".toList)] ∧
    ∃ m, parseAttributes (joinEntries
        ([("AllocId".toList, "42".toList), ("Name".toList, "a=b=c".toList)].map entryText))
        exampleDefinitions = (some m, none) ∧
      mapGet m "Name".toList = some (AttributeValue.str (valueField "a=b=c".toList)) ∧
      ('=' ∉ "a=b=c".toList → valueField "a=b=c".toList = "a=b=c".toList) ∧
      ∀ pre post, "a=b=c".toList = pre ++ '=' :: post → '=' ∉ pre →
        valueField "a=b=c".toList = pre :=
  ⟨by decide, by decide,
    parseAttributes_value_field exampleDefinitions _ (by decide)
      (by
        intro e he
        simp only [List.mem_cons, List.mem_singleton, List.not_mem_nil, or_false] at he
        rcases he with rfl | rfl
        · exact ⟨by decide, by decide, _, rfl, fun _ => ⟨42, by decide⟩⟩
        · exact ⟨by decide, by decide, _, rfl, fun h => absurd h (by decide)⟩)
      "Name".toList "a=b=c".toList _ (by decide) rfl rfl⟩

/-- C14.  Spaces never change the parse: for every text `t` whose space-free form is
non-empty and every `attr_defs`, `parseAttributes(t, attr_defs)` gives the same map and the
same error as on the space-free form. -/
theorem parseAttributes_spaces (definitions : AttributeDefinitionMap) (t : List Char)
    (h : t.filter (fun c => c ≠ ' ') ≠ []) :
    parseAttributes t definitions = parseAttributes (t.filter (fun c => c ≠ ' ')) definitions := by
  have ht : t ≠ [] := by
    intro e; rw [e] at h; exact h rfl
  unfold parseAttributes
  rw [if_neg ht, if_neg h, List.filter_filter]
  simp

/-- C14, witness: `" AllocId = 42 , FixedBitRate=0 "` parses exactly like
`"AllocId=42,FixedBitRate=0"`, to `{AllocId: 42, FixedBitRate: 0}`. -/
theorem parseAttributes_spaces_witness :
    " AllocId = 42 , FixedBitRate=0 ".toList.filter (fun c => c ≠ ' ') ≠ [] ∧
    " AllocId = 42 , FixedBitRate=0 ".toList.filter (fun c => c ≠ ' ')
      = "AllocId=42,FixedBitRate=0".toList ∧
    parseAttributes "AllocId=42,FixedBitRate=0".toList exampleDefinitions
      = (some [("AllocId".toList, AttributeValue.int 42),
          ("FixedBitRate".toList, AttributeValue.int 0)], none) ∧
    parseAttributes " AllocId = 42 , FixedBitRate=0 ".toList exampleDefinitions
      = parseAttributes (" AllocId = 42 , FixedBitRate=0 ".toList.filter (fun c => c ≠ ' '))
          exampleDefinitions :=
  ⟨by decide, by decide, by decide, parseAttributes_spaces exampleDefinitions _ (by decide)⟩

/-- C15.  For every non-empty text none of whose comma-separated entries contains `=`,
and every `attr_defs`, `parseAttributes` returns an empty map and no error. -/
theorem parseAttributes_no_equals (definitions : AttributeDefinitionMap) (t : List Char) (hne : t ≠ [])
    (h : ∀ piece ∈ stringsSplit ',' t, '=' ∉ piece) :
    parseAttributes t definitions = (some [], none) := by
  have ht : '=' ∉ t := by
    intro hmem
    obtain ⟨piece, hp, hc⟩ := exists_piece_of_mem ',' t '=' hmem (by decide)
    exact h piece hp hc
  unfold parseAttributes
  rw [if_neg hne]
  apply parseLoop_all_skip
  intro p hp hmem
  have := (mem_of_mem_stringsSplit ',' _ p hp '=' hmem).1
  exact ht (List.mem_of_mem_filter this)

/-- C15, witness: the text `" ,AllocId, ,"`. -/
theorem parseAttributes_no_equals_witness :
    " ,AllocId, ,".toList ≠ [] ∧
    (∀ piece ∈ stringsSplit ',' " ,AllocId, ,".toList, '=' ∉ piece) ∧
    parseAttributes " ,AllocId, ,".toList exampleDefinitions = (some [], none) :=
  ⟨by decide, by decide, parseAttributes_no_equals exampleDefinitions _ (by decide) (by decide)⟩

theorem mem_keys_mapSet : ∀ (m : AttributeValueMap) (key : List Char) (v : AttributeValue)
    (k : List Char), k ∈ (mapSet m key v).map (fun kv => kv.1) →
    k ∈ m.map (fun kv => kv.1) ∨ k = key := by
  intro m
  induction m with
  | nil =>
    intro key v k h
    simp only [mapSet, List.map_cons, List.map_nil, List.mem_singleton] at h
    exact Or.inr h
  | cons kv rest ih =>
    intro key v k h
    obtain ⟨a, w⟩ := kv
    rw [mapSet] at h
    split at h
    · rename_i e
      simp only [List.map_cons, List.mem_cons] at h ⊢
      rcases h with h | h
      · exact Or.inl (Or.inl h)
      · exact Or.inl (Or.inr h)
    · simp only [List.map_cons, List.mem_cons] at h ⊢
      rcases h with h | h
      · exact Or.inl (Or.inl h)
      · rcases ih key v k h with h | h
        · exact Or.inl (Or.inr h)
        · exact Or.inr h

/-- Every name the loop of `parseAttributes` stores has a definition in the schema. -/
theorem parseLoop_keys_defined (definitions : AttributeDefinitionMap) :
    ∀ (pieces : List (List Char)) (m0 m : AttributeValueMap),
    (∀ k ∈ m0.map (fun kv => kv.1), ∃ d, definitions.getByName k = some d) →
    parseLoop definitions pieces m0 = (some m, none) →
    ∀ k ∈ m.map (fun kv => kv.1), ∃ d, definitions.getByName k = some d := by
  intro pieces
  induction pieces with
  | nil =>
    intro m0 m h0 h
    simp only [parseLoop, Prod.mk.injEq, Option.some.injEq, and_true] at h
    subst h
    exact h0
  | cons piece rest ih =>
    intro m0 m h0 h
    rw [parseLoop] at h
    split at h
    · rename_i name value tl _
      split at h
      · cases h
      · rename_i definition hd
        have hset : ∀ v, ∀ k ∈ (mapSet m0 name v).map (fun kv => kv.1),
            ∃ d, definitions.getByName k = some d := by
          intro v k hk
          rcases mem_keys_mapSet m0 name v k hk with hk | rfl
          · exact h0 k hk
          · exact ⟨definition, hd⟩
        split at h
        · exact ih _ m (hset _) h
        · split at h
          · split at h
            · cases h
            · exact ih _ m (hset _) h
          · exact ih _ m h0 h
    · exact ih _ m h0 h

theorem parseAttributes_keys_defined (definitions : AttributeDefinitionMap)
    (attributes : List Char) (m : AttributeValueMap)
    (h : parseAttributes attributes definitions = (some m, none)) :
    ∀ k ∈ m.map (fun kv => kv.1), ∃ d, definitions.getByName k = some d := by
  unfold parseAttributes at h
  split at h
  · cases h
  · exact parseLoop_keys_defined definitions _ [] m (by simp) h

theorem attributeMaskLoop_eq (definitions : AttributeDefinitionMap) :
    ∀ (keys : List (List Char)) (mask : Nat),
    (∀ k ∈ keys, ∃ d, definitions.getByName k = some d) →
    attributeMaskLoop definitions keys mask
      = some (keys.foldl (fun mask key => mask ||| schemaMask definitions key) mask) := by
  intro keys
  induction keys with
  | nil => intro mask _; rfl
  | cons key rest ih =>
    intro mask h
    obtain ⟨d, hd⟩ := h key (List.mem_cons_self _ _)
    rw [attributeMaskLoop, hd]
    simp only [List.foldl_cons, schemaMask, hd]
    exact ih _ (fun k hk => h k (List.mem_cons_of_mem _ hk))

theorem foldl_or_testBit (definitions : AttributeDefinitionMap) :
    ∀ (keys : List (List Char)) (mask i : Nat),
    (keys.foldl (fun mask key => mask ||| schemaMask definitions key) mask).testBit i = true ↔
      mask.testBit i = true ∨ ∃ key ∈ keys, (schemaMask definitions key).testBit i = true := by
  intro keys
  induction keys with
  | nil => intro mask i; simp
  | cons key rest ih =>
    intro mask i
    rw [List.foldl_cons, ih, Nat.testBit_lor, Bool.or_eq_true]
    constructor
    · rintro ((h | h) | ⟨k, hk, h⟩)
      · exact Or.inl h
      · exact Or.inr ⟨key, List.mem_cons_self _ _, h⟩
      · exact Or.inr ⟨k, List.mem_cons_of_mem _ hk, h⟩
    · rintro (h | ⟨k, hk, h⟩)
      · exact Or.inl (Or.inl h)
      · rcases List.mem_cons.1 hk with rfl | hk
        · exact Or.inl (Or.inr h)
        · exact Or.inr ⟨k, hk, h⟩

/-- C16.  For every class id in the ME registry and every attribute text that
`parseAttributes` accepts, `buildSetRequest` builds a SetRequest whose `AttributeMask` is
the bitwise OR of the schema masks of exactly the names in the parsed attribute map (a bit
is set if and only if it is set in the mask of one of these names; the mask is 0 for an
empty map), in whatever order the `range` over the map yields its keys. -/
theorem buildSetRequest_attribute_mask (lib : Libraries) (tid instanceId classId : Nat) (attributes : List Char)
    (meDef : ManagedEntityDefinition) (m : AttributeValueMap)
    (hclass : lib.LoadManagedEntityDefinition classId = Except.ok meDef)
    (hparse : parseAttributes attributes meDef.AttributeDefinitions = (some m, none))
    (hrange : (lib.mapRange m).Perm (m.map (fun kv => kv.1))) :
    ∃ attributeMask,
      setRequestLayers lib tid instanceId classId attributes
        = Except.ok (some ({ TransactionID := tid, MessageType := MessageType.SetRequest },
            MessageLayer.SetRequest classId instanceId attributeMask m)) ∧
      buildSetRequest lib tid instanceId classId attributes
        = some (buildMessage lib { TransactionID := tid, MessageType := MessageType.SetRequest }
            (MessageLayer.SetRequest classId instanceId attributeMask m)) ∧
      attributeMask = orMasks meDef.AttributeDefinitions (m.map (fun kv => kv.1)) ∧
      (∀ i, attributeMask.testBit i = true ↔
        ∃ key ∈ m.map (fun kv => kv.1), ∃ d, meDef.AttributeDefinitions.getByName key = some d ∧
          d.Mask.testBit i = true) ∧
      (m = [] → attributeMask = 0) := by
  have hdef := parseAttributes_keys_defined meDef.AttributeDefinitions attributes m hparse
  have hdef2 : ∀ k ∈ lib.mapRange m, ∃ d, meDef.AttributeDefinitions.getByName k = some d :=
    fun k hk => hdef k (hrange.mem_iff.1 hk)
  have hloop := attributeMaskLoop_eq meDef.AttributeDefinitions (lib.mapRange m) 0 hdef2
  have hperm : (lib.mapRange m).foldl
        (fun mask key => mask ||| schemaMask meDef.AttributeDefinitions key) 0
      = orMasks meDef.AttributeDefinitions (m.map (fun kv => kv.1)) :=
    hrange.foldl_eq' (fun x _ y _ z => by
      simp only [Nat.or_assoc, Nat.or_comm (schemaMask _ x)]) 0
  rw [hperm] at hloop
  have hlayers : setRequestLayers lib tid instanceId classId attributes
      = Except.ok (some ({ TransactionID := tid, MessageType := MessageType.SetRequest },
          MessageLayer.SetRequest classId instanceId
            (orMasks meDef.AttributeDefinitions (m.map (fun kv => kv.1))) m)) := by
    simp only [setRequestLayers, hclass, hparse, hloop]
  refine ⟨_, hlayers, ?_, rfl, ?_, ?_⟩
  · simp only [buildSetRequest, hlayers]
  · intro i
    unfold orMasks
    rw [foldl_or_testBit]
    constructor
    · rintro (h | ⟨key, hk, h⟩)
      · simp at h
      · obtain ⟨d, hd⟩ := hdef key hk
        exact ⟨key, hk, d, hd, by simpa [schemaMask, hd] using h⟩
    · rintro ⟨key, hk, d, hd, h⟩
      exact Or.inr ⟨key, hk, by simpa [schemaMask, hd] using h⟩
  · rintro rfl
    rfl

/-- C16, witness: the text `AllocId=42,FixedBitRate=0` for the class 262, with a `range`
that yields the keys in reverse order. -/
theorem buildSetRequest_attribute_mask_witness :
    exampleLibraries.LoadManagedEntityDefinition 262
      = Except.ok { AttributeDefinitions := exampleDefinitions, AllowedAttributeMask := 0xF000 } ∧
    parseAttributes "AllocId=42,FixedBitRate=0".toList exampleDefinitions
      = (some [("AllocId".toList, AttributeValue.int 42),
          ("FixedBitRate".toList, AttributeValue.int 0)], none) ∧
    ∃ attributeMask,
      setRequestLayers exampleLibraries 1 0 262 "AllocId=42,FixedBitRate=0".toList
        = Except.ok (some ({ TransactionID := 1, MessageType := MessageType.SetRequest },
            MessageLayer.SetRequest 262 0 attributeMask
              [("AllocId".toList, AttributeValue.int 42),
                ("FixedBitRate".toList, AttributeValue.int 0)])) ∧
      buildSetRequest exampleLibraries 1 0 262 "AllocId=42,FixedBitRate=0".toList
        = some (buildMessage exampleLibraries
            { TransactionID := 1, MessageType := MessageType.SetRequest }
            (MessageLayer.SetRequest 262 0 attributeMask
              [("AllocId".toList, AttributeValue.int 42),
                ("FixedBitRate".toList, AttributeValue.int 0)])) ∧
      attributeMask = orMasks exampleDefinitions
        ([("AllocId".toList, AttributeValue.int 42),
          ("FixedBitRate".toList, AttributeValue.int 0)].map (fun kv => kv.1)) ∧
      (∀ i, attributeMask.testBit i = true ↔
        ∃ key ∈ [("AllocId".toList, AttributeValue.int 42),
            ("FixedBitRate".toList, AttributeValue.int 0)].map (fun kv => kv.1),
          ∃ d, exampleDefinitions.getByName key = some d ∧ d.Mask.testBit i = true) ∧
      (([("AllocId".toList, AttributeValue.int 42),
          ("FixedBitRate".toList, AttributeValue.int 0)] : AttributeValueMap) = [] →
        attributeMask = 0) :=
  ⟨rfl, by decide,
    buildSetRequest_attribute_mask exampleLibraries 1 0 262 "AllocId=42,FixedBitRate=0".toList
      { AttributeDefinitions := exampleDefinitions, AllowedAttributeMask := 0xF000 }
      [("AllocId".toList, AttributeValue.int 42), ("FixedBitRate".toList, AttributeValue.int 0)]
      rfl (by decide) (List.reverse_perm _)⟩

theorem injectOmciMessage_of_error {ρ : Type} (client : OltClient ρ) (w : World ρ)
    (intfId onuId : Nat) (omciMessage : GoString) (h : errorTag <+: omciMessage) :
    injectOmciMessage client w intfId onuId omciMessage = (omciMessage, w) := by
  have hp : errorTag.isPrefixOf omciMessage = true := by rwa [List.isPrefixOf_iff_prefix]
  unfold injectOmciMessage
  rw [if_pos hp]

theorem injectOmciMessage_of_message {ρ : Type} (client : OltClient ρ) (w : World ρ)
    (intfId onuId : Nat) (omciMessage : GoString) (h : ¬ errorTag <+: omciMessage) :
    injectOmciMessage client w intfId onuId omciMessage =
      ((match (client.OmciMsgOut w.olt
            { IntfId := intfId, OnuId := onuId, Pkt := omciMessage }).1 with
        | none => injectedText
        | some text => text),
       { olt := (client.OmciMsgOut w.olt
            { IntfId := intfId, OnuId := onuId, Pkt := omciMessage }).2,
         sent := w.sent ++ [{ IntfId := intfId, OnuId := onuId, Pkt := omciMessage }],
         built := w.built }) := by
  have hp : ¬ errorTag.isPrefixOf omciMessage = true := by rwa [List.isPrefixOf_iff_prefix]
  unfold injectOmciMessage
  rw [if_neg hp]
  simp only
  generalize client.OmciMsgOut w.olt { IntfId := intfId, OnuId := onuId, Pkt := omciMessage } = r
  rcases r with ⟨_ | text, olt⟩ <;> rfl

/-- C17.  `injectOmciMessage` returns its message argument unchanged and issues no RPC
when the argument starts with `"ERROR:"`; for every other argument it issues one
`OmciMsgOut` call carrying the given `intf_id`, `onu_id` and the bytes of the message, and
returns `"OMCI message injected!"` if the call succeeds and the text of the call's error
if it fails.  So no RPC is issued exactly when the argument starts with `"ERROR:"`. -/
theorem injectOmciMessage_spec {ρ : Type} (client : OltClient ρ) (w : World ρ) (intfId onuId : Nat)
    (omciMessage : GoString) :
    (errorTag <+: omciMessage →
      injectOmciMessage client w intfId onuId omciMessage = (omciMessage, w)) ∧
    (¬ errorTag <+: omciMessage →
      (injectOmciMessage client w intfId onuId omciMessage).2.sent
        = w.sent ++ [{ IntfId := intfId, OnuId := onuId, Pkt := omciMessage }] ∧
      (injectOmciMessage client w intfId onuId omciMessage).2.olt
        = (client.OmciMsgOut w.olt { IntfId := intfId, OnuId := onuId, Pkt := omciMessage }).2 ∧
      (injectOmciMessage client w intfId onuId omciMessage).1
        = match (client.OmciMsgOut w.olt
            { IntfId := intfId, OnuId := onuId, Pkt := omciMessage }).1 with
          | none => injectedText
          | some text => text) ∧
    ((injectOmciMessage client w intfId onuId omciMessage).2.sent = w.sent ↔
      errorTag <+: omciMessage) := by
  refine ⟨injectOmciMessage_of_error client w intfId onuId omciMessage, fun h => ?_, ?_⟩
  · rw [injectOmciMessage_of_message client w intfId onuId omciMessage h]
    exact ⟨rfl, rfl, rfl⟩
  · constructor
    · intro h
      by_contra hn
      rw [injectOmciMessage_of_message client w intfId onuId omciMessage hn] at h
      have := congrArg List.length h
      simp at this
    · intro h
      rw [injectOmciMessage_of_error client w intfId onuId omciMessage h]

/-- On an error of the registry lookup `buildGetRequest` returns the text of the error as
it is. -/
theorem buildGetRequest_of_registry_error (lib : Libraries) (tid instanceId classId : Nat)
    (text : GoString) (h : lib.LoadManagedEntityDefinition classId = Except.error text) :
    buildGetRequest lib tid instanceId classId = text := by
  simp only [buildGetRequest, h]

theorem errorTag_prefix_errorLead (text : GoString) : errorTag <+: errorLead ++ text :=
  ⟨32 :: text, by simp [errorLead]⟩

/-- On an error of the registry lookup `buildSetRequest` returns `"ERROR: "` and the text of
the error. -/
theorem buildSetRequest_of_registry_error (lib : Libraries) (tid instanceId classId : Nat)
    (attributes : List Char) (text : GoString)
    (h : lib.LoadManagedEntityDefinition classId = Except.error text) :
    buildSetRequest lib tid instanceId classId attributes = some (errorLead ++ text) := by
  simp only [buildSetRequest, setRequestLayers, h]

/-- On an error of the registry lookup `buildCreateRequest` returns `"ERROR: "` and the
text of the error. -/
theorem buildCreateRequest_of_registry_error (lib : Libraries) (tid instanceId classId : Nat)
    (attributes : List Char) (text : GoString)
    (h : lib.LoadManagedEntityDefinition classId = Except.error text) :
    buildCreateRequest lib tid instanceId classId attributes = some (errorLead ++ text) := by
  simp only [buildCreateRequest, h]

theorem injectOmciMessage_built {ρ : Type} (client : OltClient ρ) (w : World ρ)
    (intfId onuId : Nat) (omciMessage : GoString) :
    (injectOmciMessage client w intfId onuId omciMessage).2.built = w.built := by
  by_cases h : errorTag <+: omciMessage
  · rw [injectOmciMessage_of_error client w intfId onuId omciMessage h]
  · rw [injectOmciMessage_of_message client w intfId onuId omciMessage h]

/-- C20.  For every buffer content `b`, every new entry `p` and every `bufferSize`
`n ≥ 1`, `bufferOMCIPacket` leaves the ring buffer equal to the last
`min(len(b) + 1, n)` elements of `b` followed by `p`: `p` is its last element, it is a
suffix of `b` followed by `p` (the surviving entries keep their order and only the oldest
are dropped), and its length is `min(len(b) + 1, n)`, at most `n`. -/
theorem bufferOMCIPacket_fifo {α : Type} (b : List α) (p : α) (n : Nat) (hn : 1 ≤ n) :
    ∃ r, bufferOMCIPacket b (n : Int) p = some r ∧
      r = (b ++ [p]).drop ((b ++ [p]).length - min (b.length + 1) n) ∧
      r.getLast? = some p ∧
      r <:+ b ++ [p] ∧
      r.length = min (b.length + 1) n ∧
      r.length ≤ n := by
  have hr : bufferOMCIPacket b (n : Int) p
      = some ((b ++ [p]).drop ((b ++ [p]).length - min (b.length + 1) n)) := by
    unfold bufferOMCIPacket
    by_cases h : (b.length : Int) ≥ (n : Int)
    · have h1 : n ≤ b.length := by omega
      rw [if_pos h]
      simp only
      rw [if_pos ⟨by omega, by omega⟩]
      have e1 : (((b.length : Int) - (n : Int)) + 1).toNat = b.length - n + 1 := by omega
      have e2 : (b ++ [p]).length - min (b.length + 1) n = b.length - n + 1 := by
        rw [List.length_append, List.length_singleton, Nat.min_eq_right (by omega)]
        omega
      rw [e1, e2, List.drop_append_of_le_length (by omega)]
    · have h1 : b.length < n := by omega
      rw [if_neg h]
      have e2 : (b ++ [p]).length - min (b.length + 1) n = 0 := by
        rw [List.length_append, List.length_singleton, Nat.min_eq_left (by omega)]
        omega
      rw [e2, List.drop_zero]
  have hlen : ((b ++ [p]).drop ((b ++ [p]).length - min (b.length + 1) n)).length
      = min (b.length + 1) n := by
    rw [List.length_drop, List.length_append, List.length_singleton]
    omega
  refine ⟨_, hr, rfl, ?_, List.drop_suffix _ _, hlen, by rw [hlen]; omega⟩
  rw [List.getLast?_drop, if_neg (by
    rw [List.length_append, List.length_singleton]; omega)]
  simp

/-- C20, witness: a buffer of five entries, longer than the bound 3. -/
theorem bufferOMCIPacket_fifo_witness : 1 ≤ 3 ∧
    ∃ r, bufferOMCIPacket [10, 20, 30, 40, 50] ((3 : Nat) : Int) 60 = some r ∧
      r = ([10, 20, 30, 40, 50] ++ [60]).drop
        (([10, 20, 30, 40, 50] ++ [60]).length - min ([10, 20, 30, 40, 50].length + 1) 3) ∧
      r.getLast? = some 60 ∧
      r <:+ [10, 20, 30, 40, 50] ++ [60] ∧
      r.length = min ([10, 20, 30, 40, 50].length + 1) 3 ∧
      r.length ≤ 3 :=
  ⟨by decide, bufferOMCIPacket_fifo [10, 20, 30, 40, 50] 60 3 (by decide)⟩

/-- The loop of `buildMIBUploadProcess` stops by its own condition: any fuel of at least
`commands - i` gives the same result. -/
theorem mibUploadLoop_fuel_stable {ρ : Type} (lib : Libraries) (client : OltClient ρ)
    (intfId onuId tid : Nat) (commands : Int) (hc : commands ≤ 9223372036854775807) :
    ∀ (f1 f2 : Nat) (i : Int) (result : GoString) (w : World ρ),
    (commands - i).toNat ≤ f1 → (commands - i).toNat ≤ f2 →
    mibUploadLoop lib client intfId onuId tid commands f1 i result w
      = mibUploadLoop lib client intfId onuId tid commands f2 i result w := by
  intro f1
  induction f1 with
  | zero =>
    intro f2 i result w h1 _
    have hic : ¬ i < commands := by omega
    cases f2 with
    | zero => rfl
    | succ f2 => rw [mibUploadLoop, mibUploadLoop, if_neg hic]
  | succ f1 ih =>
    intro f2 i result w h1 h2
    cases f2 with
    | zero =>
      have hic : ¬ i < commands := by omega
      rw [mibUploadLoop, mibUploadLoop, if_neg hic]
    | succ f2 =>
      rw [mibUploadLoop, mibUploadLoop]
      by_cases hic : i < commands
      · rw [if_pos hic, if_pos hic]
        apply ih <;> (unfold wrapInt; omega)
      · rw [if_neg hic, if_neg hic]

theorem mibUploadLoop_fuel_enough {ρ : Type} (lib : Libraries) (client : OltClient ρ)
    (w : World ρ) (intfId onuId tid fuel : Nat) (commands : Int)
    (hc : commands ≤ 9223372036854775807) (hf : commands.toNat ≤ fuel) :
    mibUploadLoop lib client intfId onuId tid commands fuel 0 noCommandsText w
      = buildMIBUploadProcess lib client w intfId onuId tid commands := by
  unfold buildMIBUploadProcess
  exact mibUploadLoop_fuel_stable lib client intfId onuId tid commands hc _ _ 0 _ w
    (by simpa using hf) (by simp)

/-- C27.  No slice or index expression of the extractor goes out of range, for every
payload and every decoder: `processPacket` returns a state (it never panics); for every
offset `idx` that `findOMCIMessageIndices` reports in the text view and that passes the
guard `idx >= 91`, the slice `[idx-80, idx+8)` and the indices `idx-91` and `idx-86` are in
range; for every offset it reports in the hex view and that passes the guard `idx >= 102`,
the window `[idx-80, idx+16)` (taken when `idx+16` is at most the length), the window
`[idx-80, idx+8)` and the slices `[idx-102, idx-100)` and `[idx-92, idx-90)` are in range;
and the scan of `findOMCIMessageIndices` returns a list from every start offset that is at
most the length, given fuel for the rest of the string. -/
theorem extractor_slices_in_range {σ μ : Type} (decode : σ → GoString → Option μ × σ) (payload : GoString)
    (d : σ) :
    (∃ st, processPacket decode payload d = some st) ∧
    (∃ omciIndex, findOMCIMessageIndices payload = some omciIndex ∧
      ∀ idx ∈ omciIndex, 91 ≤ idx →
        slice payload ((idx : Int) - 80) ((idx : Int) + 8)
          = some (window payload (idx - 80) (idx + 8)) ∧
        (∃ b, byteAt payload ((idx : Int) - 91) = some b) ∧
        (∃ b, byteAt payload ((idx : Int) - 86) = some b)) ∧
    (∃ omciIndex, findOMCIMessageIndices (hexEncodeToString payload) = some omciIndex ∧
      ∀ idx ∈ omciIndex, 102 ≤ idx →
        (idx + 16 ≤ (hexEncodeToString payload).length →
          slice (hexEncodeToString payload) ((idx : Int) - 80) ((idx : Int) + 16)
            = some (window (hexEncodeToString payload) (idx - 80) (idx + 16))) ∧
        slice (hexEncodeToString payload) ((idx : Int) - 80) ((idx : Int) + 8)
          = some (window (hexEncodeToString payload) (idx - 80) (idx + 8)) ∧
        slice (hexEncodeToString payload) ((idx : Int) - 102) ((idx : Int) - 100)
          = some (window (hexEncodeToString payload) (idx - 102) (idx - 100)) ∧
        slice (hexEncodeToString payload) ((idx : Int) - 92) ((idx : Int) - 90)
          = some (window (hexEncodeToString payload) (idx - 92) (idx - 90))) ∧
    (∀ (s : GoString) (fuel start : Nat) (omciIndex : List Nat), start ≤ s.length →
      s.length + 1 ≤ fuel + start → ∃ l, findLoop s fuel start omciIndex = some l) := by
  refine ⟨?_, ?_, ?_, ?_⟩
  · unfold processPacket
    split
    · obtain ⟨_, st1, _, _, h2, _⟩ := textView_spec decode payload
        ({ decoder := d, messagesList := [], handed := [] } : ScanState σ μ)
      obtain ⟨_, st2, _, _, g2, _⟩ := hexView_spec decode payload st1
      exact ⟨st2, by rw [h2]; exact g2⟩
    · exact ⟨_, rfl⟩
  · refine ⟨_, findOMCIMessageIndices_eq payload, ?_⟩
    intro idx hidx h91
    have hm := (findOMCIMessageIndices_mem payload _ (findOMCIMessageIndices_eq payload) idx).1 hidx
    have hl := markerAt_lt_length payload idx hm
    refine ⟨slice_nat payload _ _ _ _ (by omega) (by omega) (by omega) (by omega), ?_, ?_⟩
    · rw [byteAt_nat payload _ (idx - 91) (by omega)]
      exact ⟨_, List.getElem?_eq_getElem (by omega)⟩
    · rw [byteAt_nat payload _ (idx - 86) (by omega)]
      exact ⟨_, List.getElem?_eq_getElem (by omega)⟩
  · refine ⟨_, findOMCIMessageIndices_eq _, ?_⟩
    intro idx hidx h102
    have hm := (findOMCIMessageIndices_mem _ _ (findOMCIMessageIndices_eq _) idx).1 hidx
    have hl := markerAt_lt_length _ idx hm
    exact ⟨fun h16 => slice_nat _ _ _ _ _ (by omega) (by omega) (by omega) (by omega),
      slice_nat _ _ _ _ _ (by omega) (by omega) (by omega) (by omega),
      slice_nat _ _ _ _ _ (by omega) (by omega) (by omega) (by omega),
      slice_nat _ _ _ _ _ (by omega) (by omega) (by omega) (by omega)⟩
  · intro s fuel start omciIndex h1 h2
    exact ⟨_, findLoop_eq s fuel start omciIndex h1 h2⟩

theorem hexEncodeToString_take_even : ∀ (k : Nat) (p : GoString),
    (hexEncodeToString p).take (2 * k) = hexEncodeToString (p.take k) := by
  intro k
  induction k with
  | zero => intro p; rfl
  | succ k ih =>
    intro p
    cases p with
    | nil => simp [hexEncodeToString]
    | cons v rest =>
      rw [show 2 * (k + 1) = 2 * k + 1 + 1 by ring]
      simp only [hexEncodeToString, List.take_succ_cons]
      rw [ih rest]

/-- A window of the hex view between even offsets is the hex encoding of the window of
the payload between the halved offsets. -/
theorem window_hex_even (p : GoString) (a b : Nat) :
    window (hexEncodeToString p) (2 * a) (2 * b) = hexEncodeToString (window p a b) := by
  unfold window
  rw [hexEncodeToString_take_even, hexEncodeToString_drop_even]

theorem fromHexChar_hexDigit : ∀ n : Fin 16, fromHexChar (hexDigit n.val) = some n.val := by
  decide

set_option maxRecDepth 100000 in
theorem byte_of_nibbles : ∀ v : Byte, (Fin.ofNat (v.val / 16 * 16 + v.val % 16) : Byte) = v := by
  decide

/-- Decoding the hex encoding of a string of bytes gives the bytes back. -/
theorem hexDecodeString_hexEncodeToString : ∀ (p : GoString),
    hexDecodeString (hexEncodeToString p) = some p := by
  intro p
  induction p with
  | nil => rfl
  | cons v rest ih =>
    rw [hexEncodeToString, hexDecodeString, ih,
      fromHexChar_hexDigit ⟨v.val / 16, by omega⟩, fromHexChar_hexDigit ⟨v.val % 16, by omega⟩]
    simp only
    rw [byte_of_nibbles]

set_option maxRecDepth 1000000 in
/-- C28, counterexample.  In the hex view of `misalignedPayload` (60 bytes) the marker
is found at the odd offset 103, which passes the guard `idx >= 102`, and the candidate
`exampleFrame` cut at it is handed to the decoder: a hex-view candidate whose offset is
not even, so that it starts in the middle of a payload byte. -/
theorem processPacket_hex_candidate_unaligned :
    60 ≤ misalignedPayload.length ∧
    findOMCIMessageIndices (hexEncodeToString misalignedPayload) = some [103] ∧
    102 ≤ 103 ∧ 103 % 2 = 1 ∧
    (hexView acceptAll misalignedPayload { decoder := (), messagesList := [], handed := [] }).map
      (fun st => st.handed) = some [exampleFrame] := by
  decide

/-- C28, amended.  For every hex-view offset `idx >= 102` that is even, the candidate
is byte-aligned: with `a = (idx-80)/2`, the 96-character window is the hex encoding of the
48 payload bytes `[a, a+48)` and the 88-character window that of the 44 payload bytes
`[a, a+44)`, `hex.DecodeString` gives these bytes back, and the two digit pairs the ids
are read from are the hex encodings of the payload bytes at `a-11` and `a-6`. -/
theorem processPacket_hex_candidate_aligned (payload : GoString) (omciIndex : List Nat) (idx : Nat)
    (hfind : findOMCIMessageIndices (hexEncodeToString payload) = some omciIndex)
    (hidx : idx ∈ omciIndex) (h102 : 102 ≤ idx) (heven : idx % 2 = 0) :
    (idx + 16 ≤ (hexEncodeToString payload).length →
      window (hexEncodeToString payload) (idx - 80) (idx + 16)
        = hexEncodeToString (window payload ((idx - 80) / 2) ((idx - 80) / 2 + 48)) ∧
      hexDecodeString (window (hexEncodeToString payload) (idx - 80) (idx + 16))
        = some (window payload ((idx - 80) / 2) ((idx - 80) / 2 + 48)) ∧
      (window payload ((idx - 80) / 2) ((idx - 80) / 2 + 48)).length = 48) ∧
    (¬ idx + 16 ≤ (hexEncodeToString payload).length →
      window (hexEncodeToString payload) (idx - 80) (idx + 8)
        = hexEncodeToString (window payload ((idx - 80) / 2) ((idx - 80) / 2 + 44)) ∧
      hexDecodeString (window (hexEncodeToString payload) (idx - 80) (idx + 8))
        = some (window payload ((idx - 80) / 2) ((idx - 80) / 2 + 44)) ∧
      (window payload ((idx - 80) / 2) ((idx - 80) / 2 + 44)).length = 44) ∧
    (∃ b1 b2, payload[(idx - 80) / 2 - 11]? = some b1 ∧ payload[(idx - 80) / 2 - 6]? = some b2 ∧
      window (hexEncodeToString payload) (idx - 102) (idx - 100) = hexEncodeToString [b1] ∧
      window (hexEncodeToString payload) (idx - 92) (idx - 90) = hexEncodeToString [b2]) := by
  have hm := (findOMCIMessageIndices_mem _ omciIndex hfind idx).1 hidx
  have hl := markerAt_lt_length _ idx hm
  have hlen := hexEncodeToString_length payload
  refine ⟨fun h16 => ?_, fun h16 => ?_, ?_⟩
  · have e : window (hexEncodeToString payload) (idx - 80) (idx + 16)
        = hexEncodeToString (window payload ((idx - 80) / 2) ((idx - 80) / 2 + 48)) := by
      rw [← window_hex_even]
      congr 1 <;> omega
    refine ⟨e, by rw [e, hexDecodeString_hexEncodeToString], ?_⟩
    rw [window_length _ _ _ (by omega)]; omega
  · have e : window (hexEncodeToString payload) (idx - 80) (idx + 8)
        = hexEncodeToString (window payload ((idx - 80) / 2) ((idx - 80) / 2 + 44)) := by
      rw [← window_hex_even]
      congr 1 <;> omega
    refine ⟨e, by rw [e, hexDecodeString_hexEncodeToString], ?_⟩
    rw [window_length _ _ _ (by omega)]; omega
  · obtain ⟨v1, p1, q1, _⟩ := hex_pair payload (idx - 102) (by omega)
    obtain ⟨v2, p2, q2, _⟩ := hex_pair payload (idx - 92) (by omega)
    rw [show idx - 102 + 2 = idx - 100 by omega] at p1
    rw [show idx - 92 + 2 = idx - 90 by omega] at p2
    refine ⟨v1, v2, ?_, ?_, p1, p2⟩
    · rw [show (idx - 80) / 2 - 11 = (idx - 102) / 2 by omega]; exact q1 (by omega)
    · rw [show (idx - 80) / 2 - 6 = (idx - 92) / 2 by omega]; exact q2 (by omega)

set_option maxRecDepth 1000000 in
/-- C28, witness: `alignedPayload`, whose marker is found at the even offset 104. -/
theorem processPacket_hex_candidate_aligned_witness :
    findOMCIMessageIndices (hexEncodeToString alignedPayload) = some [104] ∧
    104 ∈ [104] ∧ 102 ≤ 104 ∧ 104 % 2 = 0 ∧
    ((104 + 16 ≤ (hexEncodeToString alignedPayload).length →
      window (hexEncodeToString alignedPayload) (104 - 80) (104 + 16)
        = hexEncodeToString (window alignedPayload ((104 - 80) / 2) ((104 - 80) / 2 + 48)) ∧
      hexDecodeString (window (hexEncodeToString alignedPayload) (104 - 80) (104 + 16))
        = some (window alignedPayload ((104 - 80) / 2) ((104 - 80) / 2 + 48)) ∧
      (window alignedPayload ((104 - 80) / 2) ((104 - 80) / 2 + 48)).length = 48) ∧
    (¬ 104 + 16 ≤ (hexEncodeToString alignedPayload).length →
      window (hexEncodeToString alignedPayload) (104 - 80) (104 + 8)
        = hexEncodeToString (window alignedPayload ((104 - 80) / 2) ((104 - 80) / 2 + 44)) ∧
      hexDecodeString (window (hexEncodeToString alignedPayload) (104 - 80) (104 + 8))
        = some (window alignedPayload ((104 - 80) / 2) ((104 - 80) / 2 + 44)) ∧
      (window alignedPayload ((104 - 80) / 2) ((104 - 80) / 2 + 44)).length = 44) ∧
    (∃ b1 b2, alignedPayload[(104 - 80) / 2 - 11]? = some b1 ∧
      alignedPayload[(104 - 80) / 2 - 6]? = some b2 ∧
      window (hexEncodeToString alignedPayload) (104 - 102) (104 - 100) = hexEncodeToString [b1] ∧
      window (hexEncodeToString alignedPayload) (104 - 92) (104 - 90) = hexEncodeToString [b2])) :=
  ⟨by decide, by decide, by decide, by decide,
    processPacket_hex_candidate_aligned alignedPayload [104] 104 (by decide) (by decide) (by decide) (by decide)⟩

theorem bufferOMCIPacket_bounded {α : Type} (b : List α) (n : Int) (p : α) (hn : 1 ≤ n) :
    ∃ r, bufferOMCIPacket b n p = some r ∧ (r.length : Int) ≤ n := by
  unfold bufferOMCIPacket
  by_cases h : (b.length : Int) ≥ n
  · rw [if_pos h]
    simp only
    rw [if_pos ⟨by omega, by omega⟩]
    refine ⟨_, rfl, ?_⟩
    rw [List.length_append, List.length_singleton, List.length_drop]
    omega
  · rw [if_neg h]
    refine ⟨_, rfl, ?_⟩
    rw [List.length_append, List.length_singleton]
    push_cast
    omega

theorem rereadBufferSize_ge (configBuffer : List Char) : 2 ≤ rereadBufferSize configBuffer := by
  unfold rereadBufferSize
  cases Atoi configBuffer with
  | none => simp
  | some n =>
    simp only
    split
    · decide
    · omega

theorem bufferStep_ok {α : Type} (s : BufferState α) (a : BufferAction α)
    (hs : 2 ≤ s.bufferSize) :
    ∃ s1, bufferStep s a = some s1 ∧ 2 ≤ s1.bufferSize ∧
      (endsWithPushOrClear [a] = true →
        (s1.omciPacketsBuffer.length : Int) ≤ s1.bufferSize) := by
  cases a with
  | push p =>
    obtain ⟨r, hr, hlen⟩ := bufferOMCIPacket_bounded s.omciPacketsBuffer s.bufferSize p (by omega)
    refine ⟨{ omciPacketsBuffer := r, bufferSize := s.bufferSize }, ?_, hs, fun _ => hlen⟩
    simp only [bufferStep, hr, Option.map_some']
  | reread c =>
    refine ⟨_, rfl, rereadBufferSize_ge c, ?_⟩
    intro h
    simp [endsWithPushOrClear] at h
  | clear =>
    refine ⟨_, rfl, hs, fun _ => ?_⟩
    simp only [List.length_nil]
    push_cast
    omega

theorem endsWithPushOrClear_cons {α : Type} (a b : BufferAction α) (rest : List (BufferAction α)) :
    endsWithPushOrClear (a :: b :: rest) = endsWithPushOrClear (b :: rest) := by
  unfold endsWithPushOrClear
  rw [List.getLast?_cons_cons]

/-- A run from a state with `bufferSize >= 2` never panics and keeps `bufferSize >= 2`;
after a last step that is a push or a clearing the buffer is within the bound. -/
theorem bufferRun_ok {α : Type} : ∀ (actions : List (BufferAction α)) (s : BufferState α),
    2 ≤ s.bufferSize →
    ∃ s1, bufferRun s actions = some s1 ∧ 2 ≤ s1.bufferSize ∧ (actions = [] → s1 = s) ∧
      (endsWithPushOrClear actions = true →
        (s1.omciPacketsBuffer.length : Int) ≤ s1.bufferSize) := by
  intro actions
  induction actions with
  | nil =>
    intro s hs
    refine ⟨s, rfl, hs, fun _ => rfl, ?_⟩
    intro h
    simp [endsWithPushOrClear] at h
  | cons a rest ih =>
    intro s hs
    obtain ⟨s1, h1, hs1, hb1⟩ := bufferStep_ok s a hs
    obtain ⟨s2, h2, hs2, he2, hb2⟩ := ih s1 hs1
    refine ⟨s2, ?_, hs2, fun h => (by cases h), ?_⟩
    · rw [bufferRun, h1]
      exact h2
    · intro he
      cases rest with
      | nil =>
        rw [he2 rfl]
        exact hb1 he
      | cons b rest2 =>
        rw [endsWithPushOrClear_cons] at he
        exact hb2 he

/-- C21, counterexample.  Three packets are buffered under the initial bound 10000 and
`bufferSize` is then re-read from the configuration text `2`: the state reached holds
three packets under the bound 2. -/
theorem bufferRun_reread_exceeds :
    bufferRun (initialBuffer Nat)
        [BufferAction.push 1, BufferAction.push 2, BufferAction.push 3,
          BufferAction.reread ['2']]
      = some { omciPacketsBuffer := [1, 2, 3], bufferSize := 2 } ∧
    ¬ ((([1, 2, 3] : List Nat).length : Int) ≤ 2) := by
  decide

/-- C21, amended.  From the empty buffer and the bound 10000, every sequence of pushes,
re-reads of `bufferSize` and clearings runs without a panic and reaches a state with
`bufferSize >= 2`; the buffer holds at most `bufferSize` packets in the initial state and
in every state reached by a push or a clearing; and in every reachable state the next push
succeeds and leaves at most `bufferSize` packets. -/
theorem bufferRun_bound {α : Type} (actions : List (BufferAction α)) :
    ∃ s, bufferRun (initialBuffer α) actions = some s ∧ 2 ≤ s.bufferSize ∧
      (actions = [] ∨ endsWithPushOrClear actions = true →
        (s.omciPacketsBuffer.length : Int) ≤ s.bufferSize) ∧
      (∀ p : α, ∃ s1, bufferStep s (BufferAction.push p) = some s1 ∧
        s1.bufferSize = s.bufferSize ∧
        (s1.omciPacketsBuffer.length : Int) ≤ s1.bufferSize) := by
  obtain ⟨s, h1, hs, he, hb⟩ := bufferRun_ok actions (initialBuffer α) (by show (2 : Int) ≤ 10000; decide)
  refine ⟨s, h1, hs, ?_, ?_⟩
  · rintro (h | h)
    · rw [he h]
      show ((0 : Nat) : Int) ≤ 10000
      decide
    · exact hb h
  · intro p
    obtain ⟨r, hr, hlen⟩ := bufferOMCIPacket_bounded s.omciPacketsBuffer s.bufferSize p (by omega)
    refine ⟨{ omciPacketsBuffer := r, bufferSize := s.bufferSize }, ?_, rfl, hlen⟩
    simp only [bufferStep, hr, Option.map_some']

theorem hexDigit_ne_E : ∀ n : Fin 16, hexDigit n.val ≠ 69 := by decide

/-- A hex encoding does not start with `"ERROR:"`. -/
theorem hexEncodeToString_not_error (m : GoString) : ¬ errorTag <+: hexEncodeToString m := by
  intro h
  cases m with
  | nil =>
    have := List.prefix_nil.1 h
    cases this
  | cons v rest =>
    rw [hexEncodeToString] at h
    obtain ⟨t, ht⟩ := h
    have h1 : (69 : Byte) = hexDigit (v.val / 16) := by
      have := congrArg List.head? ht
      simpa [errorTag] using this
    exact hexDigit_ne_E ⟨v.val / 16, by omega⟩ h1.symm

/-- The counter of the send loop: it grows by at least one on a non-empty list, by at
most the number of messages, no clock test before the last one succeeded, and the last
one succeeded if messages are left. -/
theorem sendLoop_counter {ρ : Type} (client : OltClient ρ) (intfId onuId : Nat)
    (exceeded : Nat → Bool) : ∀ (messages : List GoString) (counter : Nat) (w : World ρ),
    (messages = [] → (sendLoop client intfId onuId exceeded messages counter w).1 = counter) ∧
    (messages ≠ [] →
      counter < (sendLoop client intfId onuId exceeded messages counter w).1 ∧
      (sendLoop client intfId onuId exceeded messages counter w).1 ≤ counter + messages.length ∧
      (∀ j, counter < j → j < (sendLoop client intfId onuId exceeded messages counter w).1 →
        exceeded j = false) ∧
      ((sendLoop client intfId onuId exceeded messages counter w).1 < counter + messages.length →
        exceeded (sendLoop client intfId onuId exceeded messages counter w).1 = true)) := by
  intro messages
  induction messages with
  | nil => intro counter w; exact ⟨fun _ => rfl, fun h => absurd rfl h⟩
  | cons message rest ih =>
    intro counter w
    refine ⟨fun h => (by cases h), fun _ => ?_⟩
    rw [sendLoop]
    by_cases hx : exceeded (counter + 1) = true
    · rw [if_pos hx]
      simp only [List.length_cons]
      exact ⟨by omega, by omega, fun j h1 h2 => by omega, fun _ => hx⟩
    · rw [if_neg hx]
      have hx2 : exceeded (counter + 1) = false := by simpa using hx
      obtain ⟨ih1, ih2⟩ := ih (counter + 1) (injectOmciMessage client w intfId onuId message).2
      cases rest with
      | nil =>
        rw [sendLoop]
        simp only [List.length_cons, List.length_nil]
        refine ⟨by omega, by omega, fun j h1 h2 => by omega, fun h => by omega⟩
      | cons m2 rest2 =>
        obtain ⟨a, b, c, d⟩ := ih2 (by simp)
        simp only [List.length_cons] at b d ⊢
        refine ⟨by omega, by omega, ?_, fun h => d (by omega)⟩
        intro j h1 h2
        by_cases hj : j = counter + 1
        · rw [hj]; exact hx2
        · exact c j (by omega) h2

/-- The counter of the send loop does not depend on the OLT. -/
theorem sendLoop_counter_eq {ρ1 ρ2 : Type} (client1 : OltClient ρ1) (client2 : OltClient ρ2)
    (intfId onuId : Nat) (exceeded : Nat → Bool) :
    ∀ (messages : List GoString) (counter : Nat) (w1 : World ρ1) (w2 : World ρ2),
    (sendLoop client1 intfId onuId exceeded messages counter w1).1
      = (sendLoop client2 intfId onuId exceeded messages counter w2).1 := by
  intro messages
  induction messages with
  | nil => intro counter w1 w2; rfl
  | cons message rest ih =>
    intro counter w1 w2
    rw [sendLoop, sendLoop]
    by_cases hx : exceeded (counter + 1) = true
    · rw [if_pos hx, if_pos hx]
    · rw [if_neg hx, if_neg hx]
      exact ih _ _ _

theorem sendLoop_firstExceeded {ρ : Type} (client : OltClient ρ) (intfId onuId : Nat)
    (exceeded : Nat → Bool) : ∀ (messages : List GoString) (counter : Nat) (w : World ρ),
    (sendLoop client intfId onuId exceeded messages counter w).1
      = match (List.range' (counter + 1) messages.length).find? exceeded with
        | some k => k
        | none => counter + messages.length := by
  intro messages
  induction messages with
  | nil => intro counter w; rfl
  | cons message rest ih =>
    intro counter w
    rw [sendLoop]
    simp only [List.length_cons, List.range'_succ, List.find?_cons]
    by_cases hx : exceeded (counter + 1) = true
    · rw [if_pos hx, hx]
    · rw [if_neg hx]
      have hx2 : exceeded (counter + 1) = false := by simpa using hx
      rw [hx2, ih]
      simp only
      rw [show counter + 1 + rest.length = counter + (rest.length + 1) by omega]

theorem sendLoop_sent {ρ : Type} (client : OltClient ρ) (intfId onuId : Nat)
    (exceeded : Nat → Bool) : ∀ (messages : List GoString) (counter : Nat) (w : World ρ),
    (∀ m ∈ messages, ¬ errorTag <+: m) →
    (sendLoop client intfId onuId exceeded messages counter w).2.sent.length + counter
      = w.sent.length + (sendLoop client intfId onuId exceeded messages counter w).1 := by
  intro messages
  induction messages with
  | nil => intro counter w _; rfl
  | cons message rest ih =>
    intro counter w h
    have hm := h message (List.mem_cons_self _ _)
    have e := injectOmciMessage_of_message client w intfId onuId message hm
    have hlen : (injectOmciMessage client w intfId onuId message).2.sent.length
        = w.sent.length + 1 := by
      rw [e]; simp
    rw [sendLoop]
    by_cases hx : exceeded (counter + 1) = true
    · rw [if_pos hx]
      show (injectOmciMessage client w intfId onuId message).2.sent.length + counter
        = w.sent.length + (counter + 1)
      omega
    · rw [if_neg hx]
      have := ih (counter + 1) (injectOmciMessage client w intfId onuId message).2
        (fun m hm2 => h m (List.mem_cons_of_mem _ hm2))
      omega

theorem pduMessage_not_error (lib : Libraries)
    (hser : ∀ o l, ∃ bytes, lib.SerializeLayers o l = Except.ok bytes) (m : GetRequestPDU) :
    ¬ errorTag <+: pduMessage lib m := by
  unfold pduMessage buildMessage
  obtain ⟨bytes, hb⟩ := hser { TransactionID := m.TransactionID, MessageType := MessageType.GetRequest }
    (MessageLayer.GetRequest m.EntityClass m.EntityInstance m.AttributeMask)
  rw [hb]
  exact hexEncodeToString_not_error bytes

theorem stressLoop_length (mask tid : Nat) (commands : Int) (h0 : 0 < commands)
    (hb : commands < 4611686018427387904) :
    (stressLoop mask tid commands.toNat 0 commands []).length = commands.toNat := by
  have hlen := nonzeroTids_length_ge tid commands.toNat 0
  have h := buildStresstestMessages_eq mask tid commands h0 hb _ hlen
  unfold buildStresstestMessages at h
  rw [if_neg (by omega)] at h
  rw [Option.some.inj h, List.length_map, List.length_take, Nat.min_eq_left hlen]

theorem buildStresstest_of_ok {ρ φ : Type} (lib : Libraries) (client : OltClient ρ)
    (clock : StressClock φ) (w : World ρ) (intfId onuId tid : Nat) (commands timeout : Int)
    (resultChannel : Option (List (resultStruct φ))) (meDef : ManagedEntityDefinition)
    (h0 : 0 < commands) (hreg : lib.LoadManagedEntityDefinition OnuDataClassID = Except.ok meDef) :
    buildStresstest lib client clock w intfId onuId tid commands timeout resultChannel
      = { result := clock.report (sendLoop client intfId onuId (clock.exceeded timeout)
            ((stressLoop meDef.AllowedAttributeMask tid commands.toNat 0 commands []).map
              (pduMessage lib)) 0 w).1,
          world := (sendLoop client intfId onuId (clock.exceeded timeout)
            ((stressLoop meDef.AllowedAttributeMask tid commands.toNat 0 commands []).map
              (pduMessage lib)) 0 w).2,
          resultChannel := resultChannel.map (fun results => results ++
            [{ count := ((sendLoop client intfId onuId (clock.exceeded timeout)
                ((stressLoop meDef.AllowedAttributeMask tid commands.toNat 0 commands []).map
                  (pduMessage lib)) 0 w).1 : Int),
               mps := clock.messagesPerSecond (sendLoop client intfId onuId (clock.exceeded timeout)
                ((stressLoop meDef.AllowedAttributeMask tid commands.toNat 0 commands []).map
                  (pduMessage lib)) 0 w).1 }]),
          counter := (sendLoop client intfId onuId (clock.exceeded timeout)
            ((stressLoop meDef.AllowedAttributeMask tid commands.toNat 0 commands []).map
              (pduMessage lib)) 0 w).1 } := by
  unfold buildStresstest
  rw [if_neg (by omega), hreg]

theorem buildStresstest_of_nonpositive {ρ φ : Type} (lib : Libraries) (client : OltClient ρ)
    (clock : StressClock φ) (w : World ρ) (intfId onuId tid : Nat) (commands timeout : Int)
    (resultChannel : Option (List (resultStruct φ))) (h0 : commands ≤ 0) :
    buildStresstest lib client clock w intfId onuId tid commands timeout resultChannel
      = { result := noCommandsText, world := w, resultChannel := resultChannel, counter := 0 } := by
  unfold buildStresstest
  rw [if_pos h0]

theorem stressLoop_length_ge (mask tid : Nat) : ∀ (fuel : Nat) (i c : Int)
    (acc : List GetRequestPDU), acc.length ≤ (stressLoop mask tid fuel i c acc).length := by
  intro fuel
  induction fuel with
  | zero => intro i c acc; exact Nat.le_refl _
  | succ fuel ih =>
    intro i c acc
    rw [stressLoop_succ]
    by_cases hic : i < c
    · rw [if_pos hic]
      refine Nat.le_trans ?_ (ih _ _ _)
      simp
    · rw [if_neg hic]

theorem stressLoop_ne_nil (mask tid : Nat) (commands : Int) (h0 : 0 < commands) :
    stressLoop mask tid commands.toNat 0 commands [] ≠ [] := by
  obtain ⟨n, hn⟩ : ∃ n, commands.toNat = n + 1 := ⟨commands.toNat - 1, by omega⟩
  rw [hn, stressLoop_succ, if_pos h0]
  intro h
  have h1 := congrArg List.length h
  have h2 := stressLoop_length_ge mask tid n
    (wrapInt ((if (addU16 tid (toUint16 0) == 0) = true then wrapInt (0 + 1) else 0) + 1))
    (if (addU16 tid (toUint16 0) == 0) = true then wrapInt (commands + 1) else commands)
    ([] ++ [stressPDU mask (addU16 tid (toUint16
      (if (addU16 tid (toUint16 0) == 0) = true then wrapInt (0 + 1) else 0)))])
  rw [h1] at h2
  simp at h2

theorem receiveLoop_nil {φ : Type} (n : Nat) (hn : 1 ≤ n) (totalCount : Int) :
    receiveLoop n ([] : List (resultStruct φ)) totalCount = none := by
  cases n with
  | zero => omega
  | succ n => rfl

theorem clientResults_of_nonpositive {ρ φ : Type} (lib : Libraries) (client : OltClient ρ)
    (clocks : Nat → StressClock φ) (w : World ρ) (intfId onuId : Nat) (commands timeout : Int)
    (starts : List Nat) (h0 : commands ≤ 0) :
    clientResults lib client clocks w intfId onuId commands timeout starts = [] := by
  unfold clientResults
  rw [List.flatten_eq_nil_iff]
  intro l hl
  rw [List.mem_map] at hl
  obtain ⟨ks, _, rfl⟩ := hl
  rw [buildStresstest_of_nonpositive _ _ _ _ _ _ _ _ _ _ h0]
  rfl

theorem buildStresstestMulti_of_nonpositive {ρ φ : Type} (lib : Libraries) (client : OltClient ρ)
    (clocks : Nat → StressClock φ) (w : World ρ) (intfId onuId tid : Nat)
    (commands timeout : Int) (M : Nat) (h1 : 1 ≤ M) (h2 : M ≤ 65000) (h0 : commands ≤ 0) :
    buildStresstestMulti lib client clocks w intfId onuId tid commands timeout (M : Int)
      = MultiOutcome.blocked := by
  unfold buildStresstestMulti
  rw [buildStresstestMultiStarts_eq tid M h1 h2]
  simp only
  rw [clientResults_of_nonpositive _ _ _ _ _ _ _ _ _ h0]
  have hT : toUint16 (M : Int) = M := by unfold toUint16; omega
  rw [hT, receiveLoop_nil M h1]

/-- C25, the code against the claim.  With a result channel supplied, a call of
`buildStresstest` with `commands <= 0` returns `"No. commands is 0!"` and leaves the
channel as it was: it writes no result.  A call with `commands > 0` (the schema library
knowing OnuData) writes exactly one result, whose count is the final `counter` and is at
least 1.  So a multi-client run of `M >= 1` clients with `commands <= 0` never ends: no
client writes a result and the first receive of the aggregator blocks.  Evaluated for
`commands = 0` with one client, and, for comparison, for `commands = 5` with two clients
on a clock that stops each after three sends (total 6). -/
theorem buildStresstest_result_sink :
    (∀ (ρ φ : Type) (lib : Libraries) (client : OltClient ρ) (clock : StressClock φ)
        (w : World ρ) (intfId onuId tid : Nat) (commands timeout : Int)
        (results : List (resultStruct φ)), commands ≤ 0 →
      buildStresstest lib client clock w intfId onuId tid commands timeout (some results)
        = { result := noCommandsText, world := w, resultChannel := some results,
            counter := 0 }) ∧
    (∀ (ρ φ : Type) (lib : Libraries) (client : OltClient ρ) (clock : StressClock φ)
        (w : World ρ) (intfId onuId tid : Nat) (commands timeout : Int)
        (results : List (resultStruct φ)) (meDef : ManagedEntityDefinition), 0 < commands →
      lib.LoadManagedEntityDefinition OnuDataClassID = Except.ok meDef →
      ∃ r : resultStruct φ,
        (buildStresstest lib client clock w intfId onuId tid commands timeout
          (some results)).resultChannel = some (results ++ [r]) ∧
        r.count = ((buildStresstest lib client clock w intfId onuId tid commands timeout
          (some results)).counter : Int) ∧
        1 ≤ r.count) ∧
    (∀ (ρ φ : Type) (lib : Libraries) (client : OltClient ρ) (clocks : Nat → StressClock φ)
        (w : World ρ) (intfId onuId tid : Nat) (commands timeout : Int) (M : Nat),
      1 ≤ M → M ≤ 65000 → commands ≤ 0 →
      buildStresstestMulti lib client clocks w intfId onuId tid commands timeout (M : Int)
        = MultiOutcome.blocked) ∧
    (buildStresstest onuDataLibraries acceptingOlt (steadyClock 4) emptyWorld 0 0 1 0 10
        (some [])).resultChannel = some [] ∧
    buildStresstestMulti onuDataLibraries acceptingOlt (fun _ => steadyClock 4) emptyWorld 0 0 1
        0 10 1 = MultiOutcome.blocked ∧
    buildStresstestMulti onuDataLibraries acceptingOlt (fun _ => steadyClock 4) emptyWorld 0 0 1
        5 10 2 = MultiOutcome.total 6 := by
  refine ⟨?_, ?_, ?_, by decide, by decide, by decide⟩
  · intro ρ φ lib client clock w intfId onuId tid commands timeout results h0
    exact buildStresstest_of_nonpositive _ _ _ _ _ _ _ _ _ _ h0
  · intro ρ φ lib client clock w intfId onuId tid commands timeout results meDef h0 hreg
    rw [buildStresstest_of_ok lib client clock w intfId onuId tid commands timeout _ meDef h0 hreg]
    refine ⟨_, rfl, rfl, ?_⟩
    have hne : (stressLoop meDef.AllowedAttributeMask tid commands.toNat 0 commands []).map
        (pduMessage lib) ≠ [] := by
      intro h
      exact stressLoop_ne_nil _ tid commands h0 (List.map_eq_nil_iff.1 h)
    have := ((sendLoop_counter client intfId onuId (clock.exceeded timeout) _ 0 w).2 hne).1
    simp only
    omega
  · intro ρ φ lib client clocks w intfId onuId tid commands timeout M h1 h2 h0
    exact buildStresstestMulti_of_nonpositive _ _ _ _ _ _ _ _ _ M h1 h2 h0

/-- C26, counterexample.  With `tid = 0`, `commands = 2^63 - 1` and a clock on which the
timeout never elapses, one PDU is sent, not `commands`: the skip of id 0 wraps `commands`
around and a single message is pre-built. -/
theorem buildStresstest_sent_count_wrap :
    (∀ k, (steadyClock 0).exceeded 10 k = false) ∧
    (buildStresstest onuDataLibraries acceptingOlt (steadyClock 0) emptyWorld 0 0 0
        9223372036854775807 10 none).counter = 1 ∧
    (buildStresstest onuDataLibraries acceptingOlt (steadyClock 0) emptyWorld 0 0 0
        9223372036854775807 10 none).world.sent.length = 1 := by
  refine ⟨?_, by decide, by decide⟩
  intro k
  simp [steadyClock]

/-- C26, amended.  For `0 < commands < 2^62` (the schema library knowing OnuData), the
final `counter` of a stress run is the same for any two OLTs, whatever their `OmciMsgOut`
calls return and from whatever state; it is the position of the first send after which
the clock test `elapsed > timeout` succeeds, or `commands` when it succeeds after none of
the `commands` sends; it lies between 1 and `commands`; and when serialisation succeeds it
is the number of `OmciMsgOut` calls the run issues. -/
theorem buildStresstest_sent_count {ρ1 ρ2 φ : Type} (lib : Libraries) (client1 : OltClient ρ1)
    (client2 : OltClient ρ2) (clock : StressClock φ) (w1 : World ρ1) (w2 : World ρ2)
    (intfId onuId tid : Nat) (commands timeout : Int)
    (sink1 sink2 : Option (List (resultStruct φ))) (meDef : ManagedEntityDefinition)
    (h0 : 0 < commands) (hb : commands < 4611686018427387904)
    (hreg : lib.LoadManagedEntityDefinition OnuDataClassID = Except.ok meDef) :
    (buildStresstest lib client1 clock w1 intfId onuId tid commands timeout sink1).counter
      = (buildStresstest lib client2 clock w2 intfId onuId tid commands timeout sink2).counter ∧
    (buildStresstest lib client1 clock w1 intfId onuId tid commands timeout sink1).counter
      = firstExceeded (clock.exceeded timeout) commands.toNat ∧
    (∀ k : Nat, 1 ≤ k → (k : Int) ≤ commands → clock.exceeded timeout k = true →
      (∀ j, 1 ≤ j → j < k → clock.exceeded timeout j = false) →
      (buildStresstest lib client1 clock w1 intfId onuId tid commands timeout sink1).counter
        = k) ∧
    ((∀ j : Nat, 1 ≤ j → (j : Int) ≤ commands → clock.exceeded timeout j = false) →
      ((buildStresstest lib client1 clock w1 intfId onuId tid commands timeout sink1).counter
        : Int) = commands) ∧
    1 ≤ (buildStresstest lib client1 clock w1 intfId onuId tid commands timeout sink1).counter ∧
    ((buildStresstest lib client1 clock w1 intfId onuId tid commands timeout sink1).counter
      : Int) ≤ commands ∧
    ((∀ o l, ∃ bytes, lib.SerializeLayers o l = Except.ok bytes) →
      (buildStresstest lib client1 clock w1 intfId onuId tid commands timeout
          sink1).world.sent.length
        = w1.sent.length
          + (buildStresstest lib client1 clock w1 intfId onuId tid commands timeout
              sink1).counter) := by
  rw [buildStresstest_of_ok lib client1 clock w1 intfId onuId tid commands timeout _ meDef h0 hreg,
    buildStresstest_of_ok lib client2 clock w2 intfId onuId tid commands timeout _ meDef h0 hreg]
  simp only
  have hlen : ((stressLoop meDef.AllowedAttributeMask tid commands.toNat 0 commands []).map
      (pduMessage lib)).length = commands.toNat := by
    rw [List.length_map, stressLoop_length _ tid commands h0 hb]
  have hne : (stressLoop meDef.AllowedAttributeMask tid commands.toNat 0 commands []).map
      (pduMessage lib) ≠ [] := by
    intro h
    rw [h] at hlen
    simp at hlen
    omega
  obtain ⟨c1, c2, c3, c4⟩ :=
    (sendLoop_counter client1 intfId onuId (clock.exceeded timeout) _ 0 w1).2 hne
  rw [hlen] at c2 c4
  refine ⟨sendLoop_counter_eq client1 client2 intfId onuId _ _ 0 w1 w2, ?_, ?_, ?_, by omega,
    by omega, ?_⟩
  · rw [sendLoop_firstExceeded, hlen]
    unfold firstExceeded
    simp
  · intro k hk1 hk2 hx hbefore
    by_contra hne2
    rcases Nat.lt_or_gt_of_ne hne2 with hlt | hgt
    · have := c4 (by omega)
      rw [hbefore _ (by omega) hlt] at this
      cases this
    · rw [c3 k (by omega) hgt] at hx
      cases hx
  · intro hnone
    by_contra hne2
    have := c4 (by omega)
    rw [hnone _ (by omega) (by omega)] at this
    cases this
  · intro hser
    have := sendLoop_sent client1 intfId onuId (clock.exceeded timeout)
      ((stressLoop meDef.AllowedAttributeMask tid commands.toNat 0 commands []).map
        (pduMessage lib)) 0 w1
      (fun m hm => by
        obtain ⟨p, _, rfl⟩ := List.mem_map.1 hm
        exact pduMessage_not_error lib hser p)
    omega

/-- C26, witness: `tid = 0xFFFE`, five commands, timeout 10 on a clock with 4 seconds a
send: three PDUs (ids FFFE, FFFF, 0001) are sent, to an OLT that accepts every message
and to one that rejects every message alike. -/
theorem buildStresstest_sent_count_witness :
    (0 : Int) < 5 ∧ (5 : Int) < 4611686018427387904 ∧
    onuDataLibraries.LoadManagedEntityDefinition OnuDataClassID
      = Except.ok { AttributeDefinitions := exampleDefinitions, AllowedAttributeMask := 0x8000 } ∧
    (buildStresstest onuDataLibraries acceptingOlt (steadyClock 4) emptyWorld 0 0 65534 5 10
        none).counter = 3 ∧
    (buildStresstest onuDataLibraries rejectingOlt (steadyClock 4) emptyWorld 0 0 65534 5 10
        none).counter = 3 ∧
    ((buildStresstest onuDataLibraries acceptingOlt (steadyClock 4) emptyWorld 0 0 65534 5 10
        none).world.sent.map (fun m => m.Pkt))
      = [asciiBytes "fffe".toList, asciiBytes "ffff".toList, asciiBytes "0001".toList] ∧
    ((buildStresstest onuDataLibraries acceptingOlt (steadyClock 4) emptyWorld 0 0 65534 5 10 none).counter
      = (buildStresstest onuDataLibraries rejectingOlt (steadyClock 4) emptyWorld 0 0 65534 5 10 none).counter ∧
    (buildStresstest onuDataLibraries acceptingOlt (steadyClock 4) emptyWorld 0 0 65534 5 10 none).counter
      = firstExceeded ((steadyClock 4).exceeded 10) (5 : Int).toNat ∧
    (∀ k : Nat, 1 ≤ k → (k : Int) ≤ (5 : Int) → (steadyClock 4).exceeded 10 k = true →
      (∀ j, 1 ≤ j → j < k → (steadyClock 4).exceeded 10 j = false) →
      (buildStresstest onuDataLibraries acceptingOlt (steadyClock 4) emptyWorld 0 0 65534 5 10 none).counter
        = k) ∧
    ((∀ j : Nat, 1 ≤ j → (j : Int) ≤ (5 : Int) → (steadyClock 4).exceeded 10 j = false) →
      ((buildStresstest onuDataLibraries acceptingOlt (steadyClock 4) emptyWorld 0 0 65534 5 10 none).counter
        : Int) = (5 : Int)) ∧
    1 ≤ (buildStresstest onuDataLibraries acceptingOlt (steadyClock 4) emptyWorld 0 0 65534 5 10 none).counter ∧
    ((buildStresstest onuDataLibraries acceptingOlt (steadyClock 4) emptyWorld 0 0 65534 5 10 none).counter
      : Int) ≤ (5 : Int) ∧
    ((∀ o l, ∃ bytes, onuDataLibraries.SerializeLayers o l = Except.ok bytes) →
      (buildStresstest onuDataLibraries acceptingOlt (steadyClock 4) emptyWorld 0 0 65534 5 10
          none).world.sent.length
        = emptyWorld.sent.length
          + (buildStresstest onuDataLibraries acceptingOlt (steadyClock 4) emptyWorld 0 0 65534 5 10
              none).counter)) :=
  ⟨by decide, by decide, rfl, by decide, by decide, by decide,
    buildStresstest_sent_count onuDataLibraries acceptingOlt rejectingOlt (steadyClock 4) emptyWorld emptyWorld
      0 0 65534 5 10 none none
      { AttributeDefinitions := exampleDefinitions, AllowedAttributeMask := 0x8000 }
      (by decide) (by decide) rfl⟩

theorem itoaDigits_append : ∀ (fuel n : Nat) (acc : GoString),
    itoaDigits fuel n acc = itoaDigits fuel n [] ++ acc := by
  intro fuel
  induction fuel with
  | zero => intro n acc; rfl
  | succ fuel ih =>
    intro n acc
    rw [itoaDigits, itoaDigits]
    by_cases h : n < 10
    · rw [if_pos h, if_pos h]; rfl
    · rw [if_neg h, if_neg h, ih (n / 10) (_ :: acc), ih (n / 10) [_]]
      simp

/-- The digits `itoaDigits` writes denote the number they were written for. -/
theorem itoaDigits_value : ∀ (fuel n : Nat), n < fuel →
    (itoaDigits fuel n []).foldl (fun a (b : Byte) => a * 10 + (b.val - 48)) 0 = n := by
  intro fuel
  induction fuel with
  | zero => intro n h; omega
  | succ fuel ih =>
    intro n h
    rw [itoaDigits]
    by_cases h10 : n < 10
    · rw [if_pos h10]
      simp only [List.foldl_cons, List.foldl_nil, Fin.ofNat, Nat.zero_mul, Nat.zero_add]
      omega
    · rw [if_neg h10, itoaDigits_append, List.foldl_append, ih (n / 10) (by omega)]
      simp only [List.foldl_cons, List.foldl_nil, Fin.ofNat]
      omega

theorem Itoa_injective (a b : Nat) (h : Itoa (a : Int) = Itoa (b : Int)) : a = b := by
  unfold Itoa at h
  rw [if_neg (by omega), if_neg (by omega)] at h
  simp only [Int.natAbs_ofNat] at h
  have ha := itoaDigits_value (a + 1) a (by omega)
  have hb := itoaDigits_value (b + 1) b (by omega)
  rw [h] at ha
  omega

/-- Different counts give different keys `"Alarm k"`. -/
theorem alarmKey_injective (a b : Nat) (h : alarmKey a = alarmKey b) : a = b := by
  unfold alarmKey at h
  exact Itoa_injective a b (List.append_cancel_left h)

theorem alarmKey_lead (k : Nat) : alarmLead <+: alarmKey k := ⟨_, rfl⟩

theorem dataGet_dataSet_self (m : MessageDataMap) (key : GoString) (v : DataValue) :
    dataGet (dataSet m key v) key = some v := by
  induction m with
  | nil => simp [dataSet, dataGet]
  | cons kv rest ih =>
    obtain ⟨k, w⟩ := kv
    unfold dataSet
    by_cases h : k = key
    · rw [if_pos h]
      simp [dataGet, h]
    · rw [if_neg h]
      unfold dataGet at ih ⊢
      rw [List.find?_cons_of_neg _ (by simpa using h)]
      exact ih

theorem dataGet_dataSet_ne (m : MessageDataMap) (key other : GoString) (v : DataValue)
    (hne : other ≠ key) : dataGet (dataSet m key v) other = dataGet m other := by
  induction m with
  | nil =>
    have : ¬ key = other := fun e => hne e.symm
    simp [dataSet, dataGet, this]
  | cons kv rest ih =>
    obtain ⟨k, w⟩ := kv
    unfold dataSet
    by_cases h : k = key
    · rw [if_pos h]
      have h2 : ¬ k = other := fun e => hne (by rw [← e, h])
      unfold dataGet
      rw [List.find?_cons_of_neg _ (by simpa using h2),
        List.find?_cons_of_neg _ (by simpa using h2)]
    · rw [if_neg h]
      unfold dataGet at ih ⊢
      by_cases h2 : k = other
      · rw [List.find?_cons_of_pos _ (by simpa using h2),
          List.find?_cons_of_pos _ (by simpa using h2)]
      · rw [List.find?_cons_of_neg _ (by simpa using h2),
          List.find?_cons_of_neg _ (by simpa using h2)]
        exact ih

theorem alarmBit_eq_alarmStep (lib : OmciLibrary) (alarmClass : Nat) (alarmBitmap : List Byte)
    (i : Nat) (b : Byte) (hb : alarmBitmap[i]? = some b) (st : Nat × MessageDataMap) (j : Nat)
    (hj : j < 8) :
    alarmBit lib alarmClass b i st j = alarmStep lib alarmClass alarmBitmap st (i * 8 + j) := by
  have hbit : alarmBitSet alarmBitmap (i * 8 + j) = b.val.testBit (7 - j) := by
    unfold alarmBitSet
    rw [show (i * 8 + j) / 8 = i by omega, hb, show (i * 8 + j) % 8 = j by omega]
  unfold alarmBit alarmStep
  rw [hbit, Nat.and_two_pow]
  cases htb : b.val.testBit (7 - j)
  · simp
  · have : (2 : Nat) ^ (7 - j) ≠ 0 := by positivity
    simp [this]

theorem alarmByte_eq (lib : OmciLibrary) (alarmClass : Nat) (alarmBitmap : List Byte)
    (st : Nat × MessageDataMap) (i : Nat) (hi : i < alarmBitmap.length) :
    alarmByte lib alarmClass alarmBitmap st i
      = some ((List.range' (i * 8) 8).foldl (alarmStep lib alarmClass alarmBitmap) st) := by
  unfold alarmByte
  rw [List.getElem?_eq_getElem hi]
  simp only
  rw [List.range'_eq_map_range, List.foldl_map]
  congr 1
  apply List.foldl_ext
  intro a j hj
  exact alarmBit_eq_alarmStep lib alarmClass alarmBitmap i _ (List.getElem?_eq_getElem hi) a j
    (List.mem_range.1 hj)

/-- The two nested loops over the first `n` bytes of a bitmap are the scan by position
over the first `8 * n` positions; they panic exactly when the bitmap has fewer than `n`
bytes. -/
theorem alarmBytes_eq (lib : OmciLibrary) (alarmClass : Nat) (alarmBitmap : List Byte) :
    ∀ (n : Nat) (st : Nat × MessageDataMap),
    (n ≤ alarmBitmap.length →
      (List.range n).foldlM (alarmByte lib alarmClass alarmBitmap) st
        = some ((List.range (n * 8)).foldl (alarmStep lib alarmClass alarmBitmap) st)) ∧
    (alarmBitmap.length < n →
      (List.range n).foldlM (alarmByte lib alarmClass alarmBitmap) st = none) := by
  intro n
  induction n with
  | zero =>
    intro st
    exact ⟨fun _ => rfl, fun h => by omega⟩
  | succ n ih =>
    intro st
    rw [List.range_succ, List.foldlM_append]
    constructor
    · intro hn
      rw [(ih st).1 (by omega)]
      simp only [Option.bind_eq_bind, Option.some_bind, List.foldlM_cons, List.foldlM_nil]
      rw [alarmByte_eq lib alarmClass alarmBitmap _ n (by omega)]
      simp only [Option.some_bind, pure]
      rw [show (n + 1) * 8 = n * 8 + 8 by ring, List.range_add, List.foldl_append,
        ← List.range'_eq_map_range]
    · intro hn
      by_cases hlen : n ≤ alarmBitmap.length
      · rw [(ih st).1 hlen]
        simp only [Option.bind_eq_bind, Option.some_bind, List.foldlM_cons, List.foldlM_nil]
        have : alarmBitmap[n]? = none := List.getElem?_eq_none (by omega)
        unfold alarmByte
        rw [this]
        rfl
      · rw [(ih st).2 (by omega)]
        rfl

theorem alarmLoop_eq (lib : OmciLibrary) (alarmClass : Nat) (alarmBitmap : List Byte)
    (data : MessageDataMap) (hlen : 28 ≤ alarmBitmap.length) :
    alarmLoop lib alarmClass alarmBitmap data
      = some ((List.range 224).foldl (alarmStep lib alarmClass alarmBitmap) (0, data)) :=
  (alarmBytes_eq lib alarmClass alarmBitmap 28 (0, data)).1 hlen

theorem alarmLoop_none (lib : OmciLibrary) (alarmClass : Nat) (alarmBitmap : List Byte)
    (data : MessageDataMap) (hlen : alarmBitmap.length < 28) :
    alarmLoop lib alarmClass alarmBitmap data = none :=
  (alarmBytes_eq lib alarmClass alarmBitmap 28 (0, data)).2 hlen

theorem setBitsBefore_succ (alarmBitmap : List Byte) (p : Nat) :
    setBitsBefore alarmBitmap (p + 1)
      = setBitsBefore alarmBitmap p + (if alarmBitSet alarmBitmap p then 1 else 0) := by
  unfold setBitsBefore
  rw [List.range_succ, List.filter_append, List.length_append]
  cases h : alarmBitSet alarmBitmap p <;> simp [List.filter, h]

theorem setBitsBefore_mono (alarmBitmap : List Byte) (p : Nat) :
    ∀ m, p ≤ m → setBitsBefore alarmBitmap p ≤ setBitsBefore alarmBitmap m := by
  intro m
  induction m with
  | zero => intro h; rw [Nat.le_zero.1 h]
  | succ m ih =>
    intro h
    rcases Nat.lt_or_ge p (m + 1) with hlt | hge
    · have := ih (by omega)
      rw [setBitsBefore_succ]
      omega
    · rw [show p = m + 1 by omega]

theorem setBitsBefore_lt (alarmBitmap : List Byte) (p m : Nat) (hp : p < m)
    (hset : alarmBitSet alarmBitmap p = true) :
    setBitsBefore alarmBitmap p < setBitsBefore alarmBitmap m := by
  have h1 := setBitsBefore_succ alarmBitmap p
  rw [hset, if_pos rfl] at h1
  have h2 := setBitsBefore_mono alarmBitmap (p + 1) m (by omega)
  omega

theorem setBitsBefore_le (alarmBitmap : List Byte) (p : Nat) : setBitsBefore alarmBitmap p ≤ p := by
  unfold setBitsBefore
  exact Nat.le_trans (List.length_filter_le _ _) (by simp)

/-- Every number below the count of set bits is the number of set bits before exactly
one set bit. -/
theorem setBitsBefore_surj (alarmBitmap : List Byte) : ∀ (m k : Nat),
    k < setBitsBefore alarmBitmap m →
    ∃ p, p < m ∧ alarmBitSet alarmBitmap p = true ∧ setBitsBefore alarmBitmap p = k := by
  intro m
  induction m with
  | zero => intro k h; simp [setBitsBefore] at h
  | succ m ih =>
    intro k h
    rw [setBitsBefore_succ] at h
    by_cases hk : k < setBitsBefore alarmBitmap m
    · obtain ⟨p, h1, h2, h3⟩ := ih k hk
      exact ⟨p, by omega, h2, h3⟩
    · by_cases hset : alarmBitSet alarmBitmap m = true
      · rw [if_pos hset] at h
        exact ⟨m, by omega, hset, by omega⟩
      · rw [if_neg hset] at h
        omega

/-- The scan by position, after the positions below `m`. -/
theorem alarmStep_fold (lib : OmciLibrary) (alarmClass : Nat) (alarmBitmap : List Byte)
    (data : MessageDataMap) : ∀ m : Nat,
    ((List.range m).foldl (alarmStep lib alarmClass alarmBitmap) (0, data)).1
      = setBitsBefore alarmBitmap m ∧
    (∀ p, p < m → alarmBitSet alarmBitmap p = true →
      dataGet ((List.range m).foldl (alarmStep lib alarmClass alarmBitmap) (0, data)).2
        (alarmKey (setBitsBefore alarmBitmap p))
        = some (DataValue.text (getAlarm lib alarmClass (p : Int)))) ∧
    (∀ key, (∀ k, k < setBitsBefore alarmBitmap m → key ≠ alarmKey k) →
      dataGet ((List.range m).foldl (alarmStep lib alarmClass alarmBitmap) (0, data)).2 key
        = dataGet data key) := by
  intro m
  induction m with
  | zero =>
    refine ⟨rfl, fun p h _ => by omega, fun key _ => rfl⟩
  | succ m ih =>
    obtain ⟨h1, h2, h3⟩ := ih
    rw [List.range_succ, List.foldl_append]
    simp only [List.foldl_cons, List.foldl_nil]
    rw [setBitsBefore_succ]
    generalize (List.range m).foldl (alarmStep lib alarmClass alarmBitmap) (0, data) = st
      at h1 h2 h3 ⊢
    by_cases hset : alarmBitSet alarmBitmap m = true
    · have e : alarmStep lib alarmClass alarmBitmap st m
          = (st.1 + 1, dataSet st.2 (alarmKey st.1)
              (DataValue.text (getAlarm lib alarmClass (m : Int)))) := by
        unfold alarmStep
        rw [if_pos hset]
      rw [e, if_pos hset]
      simp only
      refine ⟨by rw [h1], ?_, ?_⟩
      · intro p hp hps
        rw [h1]
        by_cases hpm : p = m
        · rw [hpm]
          exact dataGet_dataSet_self _ _ _
        · have hlt := setBitsBefore_lt alarmBitmap p m (by omega) hps
          rw [dataGet_dataSet_ne _ _ _ _ (fun e => by
            have := alarmKey_injective _ _ e
            omega)]
          exact h2 p (by omega) hps
      · intro key hkey
        rw [h1, dataGet_dataSet_ne _ _ _ _ (hkey _ (by omega))]
        exact h3 key (fun k hk => hkey k (by omega))
    · have e : alarmStep lib alarmClass alarmBitmap st m = st := by
        unfold alarmStep
        rw [if_neg hset]
      rw [e, if_neg hset]
      simp only [Nat.add_zero]
      refine ⟨h1, ?_, h3⟩
      intro p hp hps
      have : p ≠ m := fun e => hset (e ▸ hps)
      exact h2 p (by omega) hps

theorem fieldData_get (layer : MessageLayerFields) (data : MessageDataMap) (key : GoString)
    (h1 : key ≠ asciiBytes "Result".toList) (h2 : key ≠ asciiBytes "Attributes".toList)
    (h3 : key ≠ asciiBytes "Class".toList) (h4 : key ≠ asciiBytes "Instance".toList) :
    dataGet (fieldData layer data) key = dataGet data key := by
  unfold fieldData
  cases layer.Result <;> cases layer.ReportedME <;>
    simp only [dataGet_dataSet_ne _ _ _ _ h1, dataGet_dataSet_ne _ _ _ _ h2,
      dataGet_dataSet_ne _ _ _ _ h3, dataGet_dataSet_ne _ _ _ _ h4]

theorem lead_ne_fields (key : GoString) (h : alarmLead <+: key) :
    key ≠ asciiBytes "Result".toList ∧ key ≠ asciiBytes "Attributes".toList ∧
    key ≠ asciiBytes "Class".toList ∧ key ≠ asciiBytes "Instance".toList ∧
    key ≠ decodingErrorKey := by
  have hdec : ∀ s : GoString, ¬ alarmLead <+: s → key ≠ s := fun s hs e => hs (e ▸ h)
  refine ⟨hdec _ ?_, hdec _ ?_, hdec _ ?_, hdec _ ?_, hdec _ ?_⟩ <;>
    (rw [← List.isPrefixOf_iff_prefix]; decide)

theorem decodingErrorKey_ne_fields :
    decodingErrorKey ≠ asciiBytes "Result".toList ∧
    decodingErrorKey ≠ asciiBytes "Attributes".toList ∧
    decodingErrorKey ≠ asciiBytes "Class".toList ∧
    decodingErrorKey ≠ asciiBytes "Instance".toList ∧
    ¬ alarmLead <+: decodingErrorKey := by
  refine ⟨by decide, by decide, by decide, by decide, ?_⟩
  rw [← List.isPrefixOf_iff_prefix]; decide

theorem alarmBitmapOf_none (layer : MessageLayerFields) :
    alarmBitmapOf layer = none ↔ ¬ (layer.AlarmBitmap.isSome ∨ layer.AlarmBitMap.isSome) := by
  unfold alarmBitmapOf
  cases layer.AlarmBitmap <;> cases layer.AlarmBitMap <;> simp

/-- What `messageLayerData` returns, by the fields of the layer. -/
theorem messageLayerData_eq (lib : OmciLibrary) (layer : MessageLayerFields)
    (data : MessageDataMap) (entityClass entityInstance : Nat)
    (hc : layer.EntityClass = some entityClass) (hi : layer.EntityInstance = some entityInstance) :
    messageLayerData lib layer data
      = match alarmBitmapOf layer with
        | none => some (lib.classString entityClass, entityInstance, fieldData layer data)
        | some alarmBitmap =>
          (alarmLoop lib (alarmClassOf layer entityClass) alarmBitmap (fieldData layer data)).map
            (fun st => (lib.classString entityClass, entityInstance, st.2)) := by
  unfold messageLayerData alarmBitmapOf alarmClassOf
  rw [hc, hi]
  simp only
  cases h1 : layer.AlarmBitmap <;> cases h2 : layer.AlarmBitMap <;> simp

theorem messageLayerData_none_of_fields (lib : OmciLibrary) (layer : MessageLayerFields)
    (data : MessageDataMap) (h : layer.EntityClass = none ∨ layer.EntityInstance = none) :
    messageLayerData lib layer data = none := by
  unfold messageLayerData
  rcases h with h | h
  · rw [h]
  · rw [h]
    cases layer.EntityClass <;> rfl

theorem decodeOMCIMessage_of_invalid (lib : OmciLibrary) (c : Counters) (omciMessage : GoString)
    (hhex : hexDecodeString omciMessage = none) :
    decodeOMCIMessage lib c omciMessage = some (none, c) := by
  unfold decodeOMCIMessage
  rw [hhex]

theorem decodeOMCIMessage_of_error_only (lib : OmciLibrary) (c : Counters)
    (omciMessage bytes errorText : GoString) (hhex : hexDecodeString omciMessage = some bytes)
    (herr : (lib.NewPacket bytes).ErrorLayer = some errorText)
    (homci : (lib.NewPacket bytes).omciLayer = none) :
    decodeOMCIMessage lib c omciMessage
      = some (none, { totalOmciMessages := c.totalOmciMessages,
                      totalDecodingErrors := c.totalDecodingErrors + 1 }) := by
  unfold decodeOMCIMessage
  rw [hhex]
  simp only [herr, homci]
  simp

theorem decodeOMCIMessage_of_nothing (lib : OmciLibrary) (c : Counters)
    (omciMessage bytes : GoString) (hhex : hexDecodeString omciMessage = some bytes)
    (herr : (lib.NewPacket bytes).ErrorLayer = none)
    (homci : (lib.NewPacket bytes).omciLayer = none) :
    decodeOMCIMessage lib c omciMessage = none := by
  unfold decodeOMCIMessage
  rw [hhex]
  simp only [herr, homci]
  simp

/-- The counters after a call that gets past the two early returns. -/
theorem decodeOMCIMessage_of_header (lib : OmciLibrary) (c : Counters)
    (omciMessage bytes : GoString) (header : OMCIHeader)
    (hhex : hexDecodeString omciMessage = some bytes)
    (homci : (lib.NewPacket bytes).omciLayer = some header) :
    decodeOMCIMessage lib c omciMessage
      = match (lib.NewPacket bytes).messageLayer with
        | none =>
          some (some { MessageNumber := c.totalOmciMessages + 1,
                       Messagetype := header.MessageType,
                       TransactionId := header.TransactionID,
                       EntityClass := [],
                       InstanceId := 0,
                       MessageData := errorData (lib.NewPacket bytes) },
            { totalOmciMessages := c.totalOmciMessages + 1,
              totalDecodingErrors := c.totalDecodingErrors
                + (if (lib.NewPacket bytes).ErrorLayer.isSome then 1 else 0) })
        | some layer =>
          match messageLayerData lib layer (errorData (lib.NewPacket bytes)) with
          | none => none
          | some filled =>
            some (some { MessageNumber := c.totalOmciMessages + 1,
                         Messagetype := header.MessageType,
                         TransactionId := header.TransactionID,
                         EntityClass := filled.1,
                         InstanceId := filled.2.1,
                         MessageData := filled.2.2 },
              { totalOmciMessages := c.totalOmciMessages + 1,
                totalDecodingErrors := c.totalDecodingErrors
                  + (if (lib.NewPacket bytes).ErrorLayer.isSome then 1 else 0) }) := by
  unfold decodeOMCIMessage
  rw [hhex]
  simp only [homci]
  cases herr : (lib.NewPacket bytes).ErrorLayer <;> simp

/-- Every outcome of `decodeOMCIMessage`, by the hex decoding and the layers of the
packet. -/
theorem decodeOMCIMessage_outcome (lib : OmciLibrary) (c : Counters) (omciMessage : GoString)
    (r : Option omciMessageStruct) (c1 : Counters)
    (h : decodeOMCIMessage lib c omciMessage = some (r, c1)) :
    (hexDecodeString omciMessage = none ∧ r = none ∧ c1 = c) ∨
    (∃ bytes errorText, hexDecodeString omciMessage = some bytes ∧
      (lib.NewPacket bytes).ErrorLayer = some errorText ∧
      (lib.NewPacket bytes).omciLayer = none ∧ r = none ∧
      c1 = { totalOmciMessages := c.totalOmciMessages,
             totalDecodingErrors := c.totalDecodingErrors + 1 }) ∨
    (∃ bytes header record, hexDecodeString omciMessage = some bytes ∧
      (lib.NewPacket bytes).omciLayer = some header ∧ r = some record ∧
      record.MessageNumber = c.totalOmciMessages + 1 ∧
      c1 = { totalOmciMessages := c.totalOmciMessages + 1,
             totalDecodingErrors := c.totalDecodingErrors
               + (if (lib.NewPacket bytes).ErrorLayer.isSome then 1 else 0) } ∧
      (((lib.NewPacket bytes).messageLayer = none ∧
          record.MessageData = errorData (lib.NewPacket bytes)) ∨
        ∃ layer filled, (lib.NewPacket bytes).messageLayer = some layer ∧
          messageLayerData lib layer (errorData (lib.NewPacket bytes)) = some filled ∧
          record.MessageData = filled.2.2)) := by
  cases hhex : hexDecodeString omciMessage with
  | none =>
    rw [decodeOMCIMessage_of_invalid lib c omciMessage hhex] at h
    cases h
    exact Or.inl ⟨rfl, rfl, rfl⟩
  | some bytes =>
    cases homci : (lib.NewPacket bytes).omciLayer with
    | none =>
      cases herr : (lib.NewPacket bytes).ErrorLayer with
      | none =>
        rw [decodeOMCIMessage_of_nothing lib c omciMessage bytes hhex herr homci] at h
        cases h
      | some errorText =>
        rw [decodeOMCIMessage_of_error_only lib c omciMessage bytes errorText hhex herr homci] at h
        cases h
        exact Or.inr (Or.inl ⟨bytes, errorText, rfl, herr, homci, rfl, rfl⟩)
    | some header =>
      rw [decodeOMCIMessage_of_header lib c omciMessage bytes header hhex homci] at h
      refine Or.inr (Or.inr ?_)
      cases hlayer : (lib.NewPacket bytes).messageLayer with
      | none =>
        simp only [hlayer] at h
        cases h
        exact ⟨bytes, header, _, rfl, homci, rfl, rfl, rfl, Or.inl ⟨hlayer, rfl⟩⟩
      | some layer =>
        simp only [hlayer] at h
        cases hfill : messageLayerData lib layer (errorData (lib.NewPacket bytes)) with
        | none =>
          simp only [hfill] at h
          cases h
        | some filled =>
          simp only [hfill] at h
          cases h
          exact ⟨bytes, header, _, rfl, homci, rfl, rfl, rfl,
            Or.inr ⟨layer, filled, hlayer, hfill, rfl⟩⟩

theorem alarmLoop_some (lib : OmciLibrary) (alarmClass : Nat) (alarmBitmap : List Byte)
    (data : MessageDataMap) (st : Nat × MessageDataMap)
    (h : alarmLoop lib alarmClass alarmBitmap data = some st) :
    28 ≤ alarmBitmap.length ∧
    st = (List.range 224).foldl (alarmStep lib alarmClass alarmBitmap) (0, data) := by
  by_cases hlen : 28 ≤ alarmBitmap.length
  · rw [alarmLoop_eq lib alarmClass alarmBitmap data hlen] at h
    exact ⟨hlen, (Option.some.inj h).symm⟩
  · rw [alarmLoop_none lib alarmClass alarmBitmap data (by omega)] at h
    cases h

/-- A key that is no alarm key and none of the four field keys is stored as it was
before the message layer was looked at. -/
theorem messageLayerData_get (lib : OmciLibrary) (layer : MessageLayerFields)
    (data : MessageDataMap) (filled : GoString × Nat × MessageDataMap)
    (h : messageLayerData lib layer data = some filled) (key : GoString)
    (h1 : key ≠ asciiBytes "Result".toList) (h2 : key ≠ asciiBytes "Attributes".toList)
    (h3 : key ≠ asciiBytes "Class".toList) (h4 : key ≠ asciiBytes "Instance".toList)
    (h5 : ¬ alarmLead <+: key) :
    dataGet filled.2.2 key = dataGet data key := by
  cases hc : layer.EntityClass with
  | none => rw [messageLayerData_none_of_fields lib layer data (Or.inl hc)] at h; cases h
  | some entityClass =>
    cases hi : layer.EntityInstance with
    | none => rw [messageLayerData_none_of_fields lib layer data (Or.inr hi)] at h; cases h
    | some entityInstance =>
      rw [messageLayerData_eq lib layer data entityClass entityInstance hc hi] at h
      cases hb : alarmBitmapOf layer with
      | none =>
        simp only [hb] at h
        cases h
        exact fieldData_get layer data key h1 h2 h3 h4
      | some alarmBitmap =>
        simp only [hb] at h
        cases hl : alarmLoop lib (alarmClassOf layer entityClass) alarmBitmap
            (fieldData layer data) with
        | none => simp only [hl, Option.map_none'] at h; cases h
        | some st =>
          simp only [hl, Option.map_some'] at h
          cases h
          obtain ⟨_, hst⟩ := alarmLoop_some _ _ _ _ _ hl
          rw [hst]
          simp only
          rw [(alarmStep_fold lib (alarmClassOf layer entityClass) alarmBitmap
            (fieldData layer data) 224).2.2 key
            (fun k _ e => h5 (e ▸ alarmKey_lead k))]
          exact fieldData_get layer data key h1 h2 h3 h4

theorem errorData_get (omciPacket : Packet) :
    dataGet (errorData omciPacket) decodingErrorKey = omciPacket.ErrorLayer.map DataValue.text := by
  unfold errorData
  cases omciPacket.ErrorLayer with
  | none => rfl
  | some errorText => exact dataGet_dataSet_self _ _ _

theorem errorData_get_lead (omciPacket : Packet) (key : GoString) (h : alarmLead <+: key) :
    dataGet (errorData omciPacket) key = none := by
  unfold errorData
  cases omciPacket.ErrorLayer with
  | none => rfl
  | some errorText =>
    rw [dataGet_dataSet_ne _ _ _ _ (lead_ne_fields key h).2.2.2.2]
    rfl

theorem messageLayerData_total (lib : OmciLibrary) (layer : MessageLayerFields)
    (data : MessageDataMap) (hc : layer.EntityClass ≠ none) (hi : layer.EntityInstance ≠ none)
    (h1 : ∀ bitmap, layer.AlarmBitmap = some bitmap → bitmap.length = 28)
    (h2 : ∀ bitmap, layer.AlarmBitMap = some bitmap → bitmap.length = 28) :
    ∃ filled, messageLayerData lib layer data = some filled := by
  obtain ⟨entityClass, hc⟩ := Option.ne_none_iff_exists'.1 hc
  obtain ⟨entityInstance, hi⟩ := Option.ne_none_iff_exists'.1 hi
  rw [messageLayerData_eq lib layer data entityClass entityInstance hc hi]
  cases hb : alarmBitmapOf layer with
  | none => exact ⟨_, rfl⟩
  | some alarmBitmap =>
    have hlen : alarmBitmap.length = 28 := by
      unfold alarmBitmapOf at hb
      cases h : layer.AlarmBitmap with
      | none => rw [h] at hb; exact h2 _ hb
      | some b => rw [h] at hb; cases hb; exact h1 _ h
    simp only
    rw [alarmLoop_eq lib _ alarmBitmap _ (by omega)]
    exact ⟨_, rfl⟩

theorem decodeOMCIMessage_total (lib : OmciLibrary) (hlib : wellFormed lib) (c : Counters)
    (omciMessage : GoString) : ∃ r c1, decodeOMCIMessage lib c omciMessage = some (r, c1) := by
  cases hhex : hexDecodeString omciMessage with
  | none => exact ⟨_, _, decodeOMCIMessage_of_invalid lib c omciMessage hhex⟩
  | some bytes =>
    obtain ⟨hw1, hw2⟩ := hlib bytes
    cases homci : (lib.NewPacket bytes).omciLayer with
    | none =>
      cases herr : (lib.NewPacket bytes).ErrorLayer with
      | none => exact absurd homci (hw1 herr)
      | some errorText =>
        exact ⟨_, _, decodeOMCIMessage_of_error_only lib c omciMessage bytes errorText hhex herr
          homci⟩
    | some header =>
      rw [decodeOMCIMessage_of_header lib c omciMessage bytes header hhex homci]
      cases hlayer : (lib.NewPacket bytes).messageLayer with
      | none => exact ⟨_, _, rfl⟩
      | some layer =>
        obtain ⟨a, b, c3, d⟩ := hw2 layer hlayer
        obtain ⟨filled, hf⟩ := messageLayerData_total lib layer
          (errorData (lib.NewPacket bytes)) a b c3 d
        simp only
        rw [hf]
        exact ⟨_, _, rfl⟩

/-- The text-view loop calls the decoder on the strings it hands over, in order: its
final decoder state and records are those of `decodeAll` on these strings. -/
theorem textViewLoop_replay {σ μ : Type} (decode : σ → GoString → Option μ × σ) (s : GoString) :
    ∀ (idxs : List Nat) (st st1 : ScanState σ μ), textViewLoop decode s idxs st = some st1 →
    ∃ cs, st1.handed = st.handed ++ cs ∧
      decodeAll decode cs st.decoder (st.messagesList.map (fun m => m.message))
        = (st1.decoder, st1.messagesList.map (fun m => m.message)) := by
  intro idxs
  induction idxs with
  | nil =>
    intro st st1 h
    rw [textViewLoop] at h
    cases h
    exact ⟨[], by simp, rfl⟩
  | cons idx rest ih =>
    intro st st1 h
    rw [textViewLoop] at h
    split at h
    · split at h
      · cases h
      · rename_i omciString _
        split at h
        · split at h
          · rename_i d hdec
            obtain ⟨cs, h1, h2⟩ := ih _ _ h
            refine ⟨omciString :: cs, by rw [h1]; simp, ?_⟩
            rw [decodeAll, hdec]
            exact h2
          · rename_i message d hdec
            split at h
            · obtain ⟨cs, h1, h2⟩ := ih _ _ h
              refine ⟨omciString :: cs, by rw [h1]; simp, ?_⟩
              rw [decodeAll, hdec]
              simpa using h2
            · cases h
        · exact ih _ _ h
    · exact ih _ _ h

theorem hexViewLoop_replay {σ μ : Type} (decode : σ → GoString → Option μ × σ) (s : GoString) :
    ∀ (idxs : List Nat) (st st1 : ScanState σ μ), hexViewLoop decode s idxs st = some st1 →
    ∃ cs, st1.handed = st.handed ++ cs ∧
      decodeAll decode cs st.decoder (st.messagesList.map (fun m => m.message))
        = (st1.decoder, st1.messagesList.map (fun m => m.message)) := by
  intro idxs
  induction idxs with
  | nil =>
    intro st st1 h
    rw [hexViewLoop] at h
    cases h
    exact ⟨[], by simp, rfl⟩
  | cons idx rest ih =>
    intro st st1 h
    rw [hexViewLoop] at h
    split at h
    · split at h
      · cases h
      · rename_i omciString _
        split at h
        · split at h
          · rename_i d hdec
            obtain ⟨cs, h1, h2⟩ := ih _ _ h
            refine ⟨omciString :: cs, by rw [h1]; simp, ?_⟩
            rw [decodeAll, hdec]
            exact h2
          · rename_i message d hdec
            split at h
            · obtain ⟨cs, h1, h2⟩ := ih _ _ h
              refine ⟨omciString :: cs, by rw [h1]; simp, ?_⟩
              rw [decodeAll, hdec]
              simpa using h2
            · cases h
        · exact ih _ _ h
    · exact ih _ _ h

theorem decodeAll_append {σ μ : Type} (decode : σ → GoString → Option μ × σ) :
    ∀ (cs1 cs2 : List GoString) (d : σ) (ms : List μ),
    decodeAll decode (cs1 ++ cs2) d ms
      = decodeAll decode cs2 (decodeAll decode cs1 d ms).1 (decodeAll decode cs1 d ms).2 := by
  intro cs1
  induction cs1 with
  | nil => intro cs2 d ms; rfl
  | cons c rest ih =>
    intro cs2 d ms
    rw [List.cons_append, decodeAll, decodeAll]
    rcases decode d c with ⟨_ | m, d1⟩
    · exact ih cs2 d1 ms
    · exact ih cs2 d1 (ms ++ [m])

/-- The records and the decoder state `processPacket` ends with are those of the decoder
run over the candidates handed to it. -/
theorem processPacket_replay {σ μ : Type} (decode : σ → GoString → Option μ × σ)
    (payload : GoString) (d : σ) (st : ScanState σ μ)
    (h : processPacket decode payload d = some st) :
    decodeAll decode st.handed d [] = (st.decoder, st.messagesList.map (fun m => m.message)) := by
  unfold processPacket at h
  split at h
  · cases h1 : textView decode payload { decoder := d, messagesList := [], handed := [] } with
    | none => rw [h1] at h; cases h
    | some st1 =>
      rw [h1] at h
      simp only [Option.some_bind] at h
      unfold textView at h1
      unfold hexView at h
      cases hi1 : findOMCIMessageIndices payload with
      | none => rw [hi1] at h1; cases h1
      | some idxs1 =>
        rw [hi1] at h1
        simp only [Option.some_bind] at h1
        cases hi2 : findOMCIMessageIndices (hexEncodeToString payload) with
        | none => rw [hi2] at h; cases h
        | some idxs2 =>
          rw [hi2] at h
          simp only [Option.some_bind] at h
          obtain ⟨cs1, a1, a2⟩ := textViewLoop_replay decode payload idxs1 _ _ h1
          obtain ⟨cs2, b1, b2⟩ := hexViewLoop_replay decode _ idxs2 _ _ h
          simp only [List.nil_append, List.map_nil] at a1 a2
          rw [b1, a1, decodeAll_append, a2]
          exact b2
  · cases h
    rfl

theorem processPacket_some {σ μ : Type} (decode : σ → GoString → Option μ × σ)
    (payload : GoString) (d : σ) : ∃ st, processPacket decode payload d = some st := by
  unfold processPacket
  split
  · obtain ⟨_, st1, _, _, h2, _⟩ := textView_spec decode payload
      ({ decoder := d, messagesList := [], handed := [] } : ScanState σ μ)
    obtain ⟨_, st2, _, _, g2, _⟩ := hexView_spec decode payload st1
    exact ⟨st2, by rw [h2]; exact g2⟩
  · exact ⟨_, rfl⟩

/-- The loop over the packets never panics in the extractor, and its result is that of
the decoder run over some sequence of strings. -/
theorem processPackets_replay {σ μ : Type} (decode : σ → GoString → Option μ × σ) :
    ∀ (payloads : List GoString) (d : σ) (messagesList : List (StampedMessage μ)),
    ∃ cs r, processPackets decode payloads d messagesList = some r ∧
      decodeAll decode cs d (messagesList.map (fun m => m.message))
        = (r.1, r.2.map (fun m => m.message)) := by
  intro payloads
  induction payloads with
  | nil => intro d messagesList; exact ⟨[], _, rfl, rfl⟩
  | cons payload rest ih =>
    intro d messagesList
    obtain ⟨st, hst⟩ := processPacket_some decode payload d
    have hrep := processPacket_replay decode payload d st hst
    obtain ⟨cs, r, h1, h2⟩ := ih st.decoder (messagesList ++ st.messagesList)
    refine ⟨st.handed ++ cs, r, ?_, ?_⟩
    · rw [processPackets, hst]
      exact h1
    · rw [decodeAll_append, ← h2]
      have hgen : ∀ (cs0 : List GoString) (d0 : σ) (ms0 pre : List μ),
          decodeAll decode cs0 d0 (pre ++ ms0)
            = ((decodeAll decode cs0 d0 ms0).1, pre ++ (decodeAll decode cs0 d0 ms0).2) := by
        intro cs0
        induction cs0 with
        | nil => intro d0 ms0 pre; rfl
        | cons c0 rest0 ih0 =>
          intro d0 ms0 pre
          rw [decodeAll, decodeAll]
          rcases decode d0 c0 with ⟨_ | m, d1⟩
          · exact ih0 d1 ms0 pre
          · simp only
            rw [List.append_assoc]
            exact ih0 d1 (ms0 ++ [m]) pre
      have := hgen st.handed d [] (messagesList.map (fun m => m.message))
      rw [List.append_nil] at this
      rw [this, hrep]
      simp

theorem decodeAll_crashed (lib : OmciLibrary) : ∀ (cs : List GoString)
    (ms : List omciMessageStruct), decodeAll (decodeStep lib) cs none ms = (none, ms) := by
  intro cs
  induction cs with
  | nil => intro ms; rfl
  | cons c rest ih =>
    intro ms
    rw [decodeAll]
    exact ih ms

/-- The counter `totalOmciMessages` and the numbers of the records along a run of the
decoder that starts with `n` records numbered `1, …, n` and the counter at `n`. -/
theorem decodeAll_numbers (lib : OmciLibrary) : ∀ (cs : List GoString) (c c1 : Counters)
    (ms out : List omciMessageStruct),
    c.totalOmciMessages = (ms.length : Int) →
    ms.map (fun m => m.MessageNumber) = (List.range' 1 ms.length).map (fun (k : Nat) => (k : Int)) →
    decodeAll (decodeStep lib) cs (some c) ms = (some c1, out) →
    c1.totalOmciMessages = (out.length : Int) ∧
    out.map (fun m => m.MessageNumber) = (List.range' 1 out.length).map (fun (k : Nat) => (k : Int)) := by
  intro cs
  induction cs with
  | nil =>
    intro c c1 ms out h1 h2 h
    rw [decodeAll] at h
    cases h
    exact ⟨h1, h2⟩
  | cons msg rest ih =>
    intro c c1 ms out h1 h2 h
    rw [decodeAll] at h
    cases hd : decodeOMCIMessage lib c msg with
    | none =>
      have e : decodeStep lib (some c) msg = (none, none) := by
        simp only [decodeStep, hd]
      rw [e] at h
      simp only at h
      rw [decodeAll_crashed] at h
      cases h
    | some r =>
      obtain ⟨r1, c2⟩ := r
      have e : decodeStep lib (some c) msg = (r1, some c2) := by
        simp only [decodeStep, hd]
      rw [e] at h
      rcases decodeOMCIMessage_outcome lib c msg r1 c2 hd with
        ⟨_, hr, hc⟩ | ⟨_, _, _, _, _, hr, hc⟩ | ⟨_, _, record, _, _, hr, hnum, hc, _⟩
      · subst hr
        simp only at h
        exact ih c2 c1 ms out (by rw [hc]; exact h1) h2 h
      · subst hr
        simp only at h
        exact ih c2 c1 ms out (by rw [hc]; exact h1) h2 h
      · subst hr
        simp only at h
        refine ih c2 c1 (ms ++ [record]) out ?_ ?_ h
        · rw [hc, List.length_append, List.length_singleton]
          push_cast
          omega
        · rw [List.map_append, h2, List.length_append, List.length_singleton,
            List.range'_concat, List.map_append]
          simp only [List.map_cons, List.map_nil]
          rw [hnum, h1]
          congr 2
          push_cast
          omega

theorem decodeAll_total (lib : OmciLibrary) (hlib : wellFormed lib) : ∀ (cs : List GoString)
    (c : Counters) (ms : List omciMessageStruct),
    ∃ c1, (decodeAll (decodeStep lib) cs (some c) ms).1 = some c1 := by
  intro cs
  induction cs with
  | nil => intro c ms; exact ⟨c, rfl⟩
  | cons msg rest ih =>
    intro c ms
    obtain ⟨r, c2, hd⟩ := decodeOMCIMessage_total lib hlib c msg
    have e : decodeStep lib (some c) msg = (r, some c2) := by
      simp only [decodeStep, hd]
    rw [decodeAll, e]
    cases r with
    | none => exact ih c2 ms
    | some record => exact ih c2 (ms ++ [record])

/-- The example library keeps the contract. -/
theorem exampleOmciLibrary_wellFormed : wellFormed exampleOmciLibrary := by
  intro bytes
  rcases bytes with _ | ⟨b0, _ | ⟨b1, _ | ⟨b2, _ | ⟨b3, rest⟩⟩⟩⟩
  · exact ⟨fun h => (by cases h), fun layer h => (by cases h)⟩
  · exact ⟨fun h => (by cases h), fun layer h => (by cases h)⟩
  · exact ⟨fun h => (by cases h), fun layer h => (by cases h)⟩
  · exact ⟨fun h => (by cases h), fun layer h => (by cases h)⟩
  · refine ⟨fun _ h => (by cases h), fun layer h => ?_⟩
    have e : layer =
        { EntityClass := some b3.val, EntityInstance := some 0, Result := none,
          ReportedME := none,
          AlarmBitmap := some (if rest.length = 28 then rest else List.replicate 28 0),
          AlarmBitMap := none, AlarmEntityClass := none } := (Option.some.inj h).symm
    rw [e]
    refine ⟨by simp, by simp, ?_, fun bitmap hb => (by cases hb)⟩
    intro bitmap hb
    simp only [Option.some.injEq] at hb
    rw [← hb]
    split
    · assumption
    · simp

set_option maxRecDepth 1000000 in
/-- C22.  The failure policy of `decodeOMCIMessage`, for every library, counters and
input: it returns `nil` exactly when the input is not a valid hex string or the packet has
an error layer and no OMCI layer; a record it returns has the key `"Decoding Error"`
exactly when the packet has an error layer, and the value is the text of that layer;
`totalDecodingErrors` grows by 1 in the calls whose packet has an error layer and stays as
it was in all others; and with a library that keeps its contract every call returns.
Evaluated on an example library (which keeps the contract) for an input that is not hex,
for a message too short for an OMCI layer, and for a message with an OMCI layer and an
error. -/
theorem decodeOMCIMessage_failure_policy :
    (∀ (lib : OmciLibrary) (c : Counters) (omciMessage : GoString),
      (∃ c1, decodeOMCIMessage lib c omciMessage = some (none, c1)) ↔
        (hexDecodeString omciMessage = none ∨
          ∃ bytes, hexDecodeString omciMessage = some bytes ∧
            (lib.NewPacket bytes).ErrorLayer ≠ none ∧ (lib.NewPacket bytes).omciLayer = none)) ∧
    (∀ (lib : OmciLibrary) (c c1 : Counters) (omciMessage bytes : GoString)
        (record : omciMessageStruct), hexDecodeString omciMessage = some bytes →
      decodeOMCIMessage lib c omciMessage = some (some record, c1) →
      dataGet record.MessageData decodingErrorKey
        = (lib.NewPacket bytes).ErrorLayer.map DataValue.text) ∧
    (∀ (lib : OmciLibrary) (c c1 : Counters) (omciMessage : GoString)
        (r : Option omciMessageStruct), decodeOMCIMessage lib c omciMessage = some (r, c1) →
      c1.totalDecodingErrors = c.totalDecodingErrors +
        (match hexDecodeString omciMessage with
         | none => 0
         | some bytes => if (lib.NewPacket bytes).ErrorLayer.isSome then 1 else 0)) ∧
    (∀ (lib : OmciLibrary) (c : Counters) (omciMessage : GoString), wellFormed lib →
      ∃ r c1, decodeOMCIMessage lib c omciMessage = some (r, c1)) ∧
    wellFormed exampleOmciLibrary ∧
    decodeOMCIMessage exampleOmciLibrary resetCounters (asciiBytes "zz".toList)
      = some (none, resetCounters) ∧
    decodeOMCIMessage exampleOmciLibrary resetCounters (asciiBytes "0001".toList)
      = some (none, { totalOmciMessages := 0, totalDecodingErrors := 1 }) ∧
    decodeOMCIMessage exampleOmciLibrary resetCounters (asciiBytes "0001100180".toList)
      = some (some { MessageNumber := 1, Messagetype := [16], TransactionId := 1,
                     EntityClass := asciiBytes "1".toList, InstanceId := 0,
                     MessageData := [(decodingErrorKey,
                       DataValue.text (asciiBytes "bad length".toList))] },
          { totalOmciMessages := 1, totalDecodingErrors := 1 }) := by
  refine ⟨?_, ?_, ?_, ?_, exampleOmciLibrary_wellFormed, by decide, by decide, by decide⟩
  · intro lib c omciMessage
    constructor
    · rintro ⟨c1, h⟩
      rcases decodeOMCIMessage_outcome lib c omciMessage none c1 h with
        ⟨hhex, _, _⟩ | ⟨bytes, errorText, hhex, herr, homci, _, _⟩ | ⟨_, _, _, _, _, hr, _⟩
      · exact Or.inl hhex
      · exact Or.inr ⟨bytes, hhex, by rw [herr]; exact Option.some_ne_none _, homci⟩
      · cases hr
    · rintro (hhex | ⟨bytes, hhex, herr, homci⟩)
      · exact ⟨c, decodeOMCIMessage_of_invalid lib c omciMessage hhex⟩
      · obtain ⟨errorText, herr⟩ := Option.ne_none_iff_exists'.1 herr
        exact ⟨_, decodeOMCIMessage_of_error_only lib c omciMessage bytes errorText hhex herr
          homci⟩
  · intro lib c c1 omciMessage bytes record hhex h
    rcases decodeOMCIMessage_outcome lib c omciMessage _ c1 h with
      ⟨hhex2, _, _⟩ | ⟨_, _, _, _, _, hr, _⟩ | ⟨bytes2, _, record2, hhex2, _, hr, _, _, hdata⟩
    · rw [hhex] at hhex2; cases hhex2
    · cases hr
    · rw [hhex] at hhex2
      cases hhex2
      cases hr
      rcases hdata with ⟨_, hd⟩ | ⟨layer, filled, _, hfill, hd⟩
      · rw [hd]
        exact errorData_get _
      · rw [hd, messageLayerData_get lib layer _ filled hfill decodingErrorKey
          decodingErrorKey_ne_fields.1 decodingErrorKey_ne_fields.2.1
          decodingErrorKey_ne_fields.2.2.1 decodingErrorKey_ne_fields.2.2.2.1
          decodingErrorKey_ne_fields.2.2.2.2]
        exact errorData_get _
  · intro lib c c1 omciMessage r h
    rcases decodeOMCIMessage_outcome lib c omciMessage r c1 h with
      ⟨hhex, _, hc⟩ | ⟨bytes, errorText, hhex, herr, _, _, hc⟩ | ⟨bytes, _, _, hhex, _, _, _, hc, _⟩
    · rw [hhex, hc]
      simp
    · rw [hhex, hc]
      simp [herr]
    · rw [hhex, hc]
  · intro lib c omciMessage hlib
    exact decodeOMCIMessage_total lib hlib c omciMessage

set_option maxRecDepth 1000000 in
/-- C23.  A call of `decodeOMCIMessage` that returns a record increases
`totalOmciMessages` by exactly 1 and writes the new value into `MessageNumber`; a call
that returns `nil` leaves the counter as it was.  Hence, from reset counters, after any
sequence of packets `totalOmciMessages` is the number of records returned and the records
carry the numbers 1, 2, 3, … in the order they were decoded; and with a library that keeps
its contract every sequence of packets is processed to the end.  Evaluated on two
packets with one message each. -/
theorem decodeOMCIMessage_message_number :
    (∀ (lib : OmciLibrary) (c c1 : Counters) (omciMessage : GoString)
        (record : omciMessageStruct),
      decodeOMCIMessage lib c omciMessage = some (some record, c1) →
      c1.totalOmciMessages = c.totalOmciMessages + 1 ∧
      record.MessageNumber = c1.totalOmciMessages) ∧
    (∀ (lib : OmciLibrary) (c c1 : Counters) (omciMessage : GoString),
      decodeOMCIMessage lib c omciMessage = some (none, c1) →
      c1.totalOmciMessages = c.totalOmciMessages) ∧
    (∀ (lib : OmciLibrary) (payloads : List GoString) (c1 : Counters)
        (records : List (StampedMessage omciMessageStruct)),
      processPackets (decodeStep lib) payloads (some resetCounters) [] = some (some c1, records) →
      c1.totalOmciMessages = (records.length : Int) ∧
      records.map (fun m => m.message.MessageNumber)
        = (List.range' 1 records.length).map (fun (k : Nat) => (k : Int))) ∧
    (∀ (lib : OmciLibrary) (payloads : List GoString), wellFormed lib →
      ∃ c1 records,
        processPackets (decodeStep lib) payloads (some resetCounters) []
          = some (some c1, records)) ∧
    (processPackets (decodeStep exampleOmciLibrary) [textExamplePayload, alignedPayload]
        (some resetCounters) []).map
      (fun r => (r.1, r.2.map (fun m => (m.message.MessageNumber, m.message.TransactionId))))
      = some (some { totalOmciMessages := 2, totalDecodingErrors := 2 }, [(1, 0), (2, 1)]) := by
  refine ⟨?_, ?_, ?_, ?_, by decide⟩
  · intro lib c c1 omciMessage record h
    rcases decodeOMCIMessage_outcome lib c omciMessage _ c1 h with
      ⟨_, hr, _⟩ | ⟨_, _, _, _, _, hr, _⟩ | ⟨_, _, record2, _, _, hr, hnum, hc, _⟩
    · cases hr
    · cases hr
    · cases hr
      rw [hc, hnum]
      exact ⟨rfl, rfl⟩
  · intro lib c c1 omciMessage h
    rcases decodeOMCIMessage_outcome lib c omciMessage _ c1 h with
      ⟨_, _, hc⟩ | ⟨_, _, _, _, _, _, hc⟩ | ⟨_, _, _, _, _, hr, _⟩
    · rw [hc]
    · rw [hc]
    · cases hr
  · intro lib payloads c1 records h
    obtain ⟨cs, r, h1, h2⟩ := processPackets_replay (decodeStep lib) payloads (some resetCounters) []
    rw [h] at h1
    cases h1
    simp only [List.map_nil] at h2
    have := decodeAll_numbers lib cs resetCounters c1 [] (records.map (fun m => m.message))
      rfl rfl h2
    simpa [Function.comp_def] using this
  · intro lib payloads hlib
    obtain ⟨cs, r, h1, h2⟩ := processPackets_replay (decodeStep lib) payloads (some resetCounters) []
    obtain ⟨c1, hc1⟩ := decodeAll_total lib hlib cs resetCounters []
    simp only [List.map_nil] at h2
    rw [h2] at hc1
    obtain ⟨d, records⟩ := r
    simp only at hc1
    subst hc1
    exact ⟨c1, records, h1⟩

/-- C24.  For a message whose layer has an alarm bitmap of 28 bytes,
`decodeOMCIMessage` returns a record in which, for every set bit at a position
`p = 8*i + j` (bytes in order, bits from the most significant one) with `k` set bits
before it, `MessageData["Alarm k"]` is `getAlarm(alarm class, p)`; a key that starts with
`"Alarm "` is present exactly when it is `"Alarm k"` for a `k` below the number `n` of
set bits; and every `k < n` belongs to exactly one set bit. -/
theorem decodeOMCIMessage_alarm_bitmap (lib : OmciLibrary) (c : Counters) (omciMessage bytes : GoString)
    (header : OMCIHeader) (layer : MessageLayerFields) (entityClass entityInstance : Nat)
    (alarmBitmap : List Byte)
    (hhex : hexDecodeString omciMessage = some bytes)
    (homci : (lib.NewPacket bytes).omciLayer = some header)
    (hlayer : (lib.NewPacket bytes).messageLayer = some layer)
    (hclass : layer.EntityClass = some entityClass)
    (hinst : layer.EntityInstance = some entityInstance)
    (hbitmap : alarmBitmapOf layer = some alarmBitmap)
    (hlen : alarmBitmap.length = 28) :
    ∃ record c1, decodeOMCIMessage lib c omciMessage = some (some record, c1) ∧
      (∀ p, p < 224 → alarmBitSet alarmBitmap p = true →
        dataGet record.MessageData (alarmKey (setBitsBefore alarmBitmap p))
          = some (DataValue.text (getAlarm lib (alarmClassOf layer entityClass) (p : Int)))) ∧
      (∀ key, alarmLead <+: key →
        (dataGet record.MessageData key ≠ none ↔
          ∃ k, k < setBitsBefore alarmBitmap 224 ∧ key = alarmKey k)) ∧
      (∀ k, k < setBitsBefore alarmBitmap 224 →
        ∃ p, p < 224 ∧ alarmBitSet alarmBitmap p = true ∧ setBitsBefore alarmBitmap p = k ∧
          ∀ q, q < 224 → alarmBitSet alarmBitmap q = true →
            setBitsBefore alarmBitmap q = k → q = p) := by
  have hdec := decodeOMCIMessage_of_header lib c omciMessage bytes header hhex homci
  simp only [hlayer] at hdec
  rw [messageLayerData_eq lib layer _ entityClass entityInstance hclass hinst] at hdec
  simp only [hbitmap] at hdec
  rw [alarmLoop_eq lib _ alarmBitmap _ (by omega)] at hdec
  simp only [Option.map_some'] at hdec
  obtain ⟨f1, f2, f3⟩ := alarmStep_fold lib (alarmClassOf layer entityClass) alarmBitmap
    (fieldData layer (errorData (lib.NewPacket bytes))) 224
  have hsurj : ∀ k, k < setBitsBefore alarmBitmap 224 →
      ∃ p, p < 224 ∧ alarmBitSet alarmBitmap p = true ∧ setBitsBefore alarmBitmap p = k ∧
        ∀ q, q < 224 → alarmBitSet alarmBitmap q = true →
          setBitsBefore alarmBitmap q = k → q = p := by
    intro k hk
    obtain ⟨p, hp, hset, hcount⟩ := setBitsBefore_surj alarmBitmap 224 k hk
    refine ⟨p, hp, hset, hcount, ?_⟩
    intro q _ hqset hqcount
    by_contra hne
    rcases Nat.lt_or_gt_of_ne hne with hlt | hgt
    · have := setBitsBefore_lt alarmBitmap q p hlt hqset
      omega
    · have := setBitsBefore_lt alarmBitmap p q hgt hset
      omega
  refine ⟨_, _, hdec, ?_, ?_, hsurj⟩
  · intro p hp hset
    exact f2 p hp hset
  · intro key hkey
    constructor
    · intro hget
      by_contra hno
      apply hget
      show dataGet ((List.range 224).foldl
        (alarmStep lib (alarmClassOf layer entityClass) alarmBitmap)
        (0, fieldData layer (errorData (lib.NewPacket bytes)))).2 key = none
      rw [f3 key (fun k hk e => hno ⟨k, hk, e⟩)]
      obtain ⟨a1, a2, a3, a4, _⟩ := lead_ne_fields key hkey
      rw [fieldData_get layer _ key a1 a2 a3 a4]
      exact errorData_get_lead _ key hkey
    · rintro ⟨k, hk, rfl⟩
      obtain ⟨p, hp, hset, hcount, _⟩ := hsurj k hk
      have := f2 p hp hset
      rw [hcount] at this
      show dataGet ((List.range 224).foldl
        (alarmStep lib (alarmClassOf layer entityClass) alarmBitmap)
        (0, fieldData layer (errorData (lib.NewPacket bytes)))).2 (alarmKey k) ≠ none
      rw [this]
      exact Option.some_ne_none _

set_option maxRecDepth 1000000 in
/-- C24, witness: a message of the example library for class 1 whose bitmap has the
bits 0, 15 and 16 set: the record has `Alarm 0` = `Type 0: LOS`, `Alarm 1` = `Type 15: DG`
and `Alarm 2` = `Unknown Alarm No: 16`. -/
theorem decodeOMCIMessage_alarm_bitmap_witness :
    hexDecodeString exampleAlarmMessage = some exampleAlarmBytes ∧
    (exampleOmciLibrary.NewPacket exampleAlarmBytes).omciLayer
      = some { MessageType := [16], TransactionID := 1 } ∧
    (exampleOmciLibrary.NewPacket exampleAlarmBytes).messageLayer = some exampleAlarmLayer ∧
    exampleAlarmLayer.EntityClass = some 1 ∧
    exampleAlarmLayer.EntityInstance = some 0 ∧
    alarmBitmapOf exampleAlarmLayer = some exampleAlarmBitmap ∧
    exampleAlarmBitmap.length = 28 ∧
    decodeOMCIMessage exampleOmciLibrary resetCounters exampleAlarmMessage
      = some (some { MessageNumber := 1, Messagetype := [16], TransactionId := 1,
                     EntityClass := asciiBytes "1".toList, InstanceId := 0,
                     MessageData :=
                       [(asciiBytes "Alarm 0".toList,
                          DataValue.text (asciiBytes "Type 0: LOS".toList)),
                        (asciiBytes "Alarm 1".toList,
                          DataValue.text (asciiBytes "Type 15: DG".toList)),
                        (asciiBytes "Alarm 2".toList,
                          DataValue.text (asciiBytes "Unknown Alarm No: 16".toList))] },
          { totalOmciMessages := 1, totalDecodingErrors := 0 }) ∧
    (∃ record c1, decodeOMCIMessage exampleOmciLibrary resetCounters exampleAlarmMessage
        = some (some record, c1) ∧
      (∀ p, p < 224 → alarmBitSet exampleAlarmBitmap p = true →
        dataGet record.MessageData (alarmKey (setBitsBefore exampleAlarmBitmap p))
          = some (DataValue.text
              (getAlarm exampleOmciLibrary (alarmClassOf exampleAlarmLayer 1) (p : Int)))) ∧
      (∀ key, alarmLead <+: key →
        (dataGet record.MessageData key ≠ none ↔
          ∃ k, k < setBitsBefore exampleAlarmBitmap 224 ∧ key = alarmKey k)) ∧
      (∀ k, k < setBitsBefore exampleAlarmBitmap 224 →
        ∃ p, p < 224 ∧ alarmBitSet exampleAlarmBitmap p = true ∧
          setBitsBefore exampleAlarmBitmap p = k ∧
          ∀ q, q < 224 → alarmBitSet exampleAlarmBitmap q = true →
            setBitsBefore exampleAlarmBitmap q = k → q = p)) :=
  ⟨hexDecodeString_hexEncodeToString _, rfl, rfl, rfl, rfl, rfl, rfl, by decide,
    decodeOMCIMessage_alarm_bitmap exampleOmciLibrary resetCounters exampleAlarmMessage exampleAlarmBytes
      { MessageType := [16], TransactionID := 1 } exampleAlarmLayer 1 0 exampleAlarmBitmap
      (hexDecodeString_hexEncodeToString _) rfl rfl rfl rfl rfl rfl⟩

theorem markerOffsets_eq (s : GoString) :
    markerOffsets s = (List.range (s.length + 1)).filter (markerAt s) := by
  unfold markerOffsets
  apply List.filter_congr
  intro i _
  unfold markerAt
  by_cases h : (s.drop i).take 8 = marker
  · simp [h]
  · simp [h]

theorem mem_markerOffsets (s : GoString) (idx : Nat) :
    idx ∈ markerOffsets s ↔ (s.drop idx).take 8 = marker := by
  rw [markerOffsets_eq, List.mem_filter, List.mem_range, markerAt_eq]
  constructor
  · exact fun h => h.2
  · intro h
    have := markerAt_lt_length s idx ((markerAt_eq s idx).2 h)
    exact ⟨by omega, h⟩

/-- What one pass of the text-view loop leaves: the decoder run over the candidates of
the offsets, each record stamped with the ids of its own offset. -/
theorem textViewLoop_stamps {σ μ : Type} (decode : σ → GoString → Option μ × σ) (s : GoString) :
    ∀ (idxs : List Nat) (st : ScanState σ μ), (∀ i ∈ idxs, markerAt s i = true) →
    ∃ st1, textViewLoop decode s idxs st = some st1 ∧
      (st1.decoder, st1.messagesList)
        = stampAll decode
            ((idxs.filter
                (fun idx => decide (91 ≤ idx) && isASCII (window s (idx - 80) (idx + 8)))).map
              (fun idx => (window s (idx - 80) (idx + 8),
                shortestHex (s.getD (idx - 91) 0).val, shortestHex (s.getD (idx - 86) 0).val)))
            st.decoder st.messagesList := by
  intro idxs
  induction idxs with
  | nil => intro st _; exact ⟨st, rfl, rfl⟩
  | cons idx rest ih =>
    intro st hm
    have hrest : ∀ i ∈ rest, markerAt s i = true := fun i hi => hm i (List.mem_cons_of_mem _ hi)
    have hlen := markerAt_lt_length s idx (hm idx (List.mem_cons_self _ _))
    unfold textViewLoop
    by_cases h91 : 91 ≤ (idx : Int)
    · have h91n : 91 ≤ idx := by omega
      rw [if_pos h91, slice_nat s _ _ (idx - 80) (idx + 8) (by omega) (by omega) (by omega)
        (by omega)]
      simp only
      by_cases hasc : isASCII (window s (idx - 80) (idx + 8)) = true
      · rw [if_pos hasc, List.filter_cons_of_pos (by simp [h91n, hasc]), List.map_cons, stampAll]
        simp only
        rcases hdec : decode st.decoder (window s (idx - 80) (idx + 8)) with ⟨_ | message, d⟩
        · simp only
          exact ih _ hrest
        · simp only
          rw [byteAt_nat s _ (idx - 91) (by omega), byteAt_nat s _ (idx - 86) (by omega)]
          have hb1 : idx - 91 < s.length := by omega
          have hb2 : idx - 86 < s.length := by omega
          rw [List.getElem?_eq_getElem hb1, List.getElem?_eq_getElem hb2]
          simp only
          rw [cutPrefix_hex_shortest, cutPrefix_hex_shortest,
            List.getD_eq_getElem s 0 hb1, List.getD_eq_getElem s 0 hb2]
          exact ih _ hrest
      · rw [if_neg hasc, List.filter_cons_of_neg (by simp [hasc])]
        exact ih st hrest
    · rw [if_neg h91, List.filter_cons_of_neg (by simp; omega)]
      exact ih st hrest

theorem hexViewLoop_stamps {σ μ : Type} (decode : σ → GoString → Option μ × σ) (p : GoString) :
    ∀ (idxs : List Nat) (st : ScanState σ μ),
    (∀ i ∈ idxs, markerAt (hexEncodeToString p) i = true) →
    ∃ st1, hexViewLoop decode (hexEncodeToString p) idxs st = some st1 ∧
      (st1.decoder, st1.messagesList)
        = stampAll decode
            ((idxs.filter (fun idx => decide (102 ≤ idx))).map
              (fun idx => (hexCandidate (hexEncodeToString p) idx,
                cutPrefix (window (hexEncodeToString p) (idx - 102) (idx - 100)) [48],
                cutPrefix (window (hexEncodeToString p) (idx - 92) (idx - 90)) [48])))
            st.decoder st.messagesList := by
  intro idxs
  induction idxs with
  | nil => intro st _; exact ⟨st, rfl, rfl⟩
  | cons idx rest ih =>
    intro st hm
    have hrest : ∀ i ∈ rest, markerAt (hexEncodeToString p) i = true :=
      fun i hi => hm i (List.mem_cons_of_mem _ hi)
    have hlen := markerAt_lt_length _ idx (hm idx (List.mem_cons_self _ _))
    unfold hexViewLoop
    by_cases h102 : 102 ≤ (idx : Int)
    · have h102n : 102 ≤ idx := by omega
      rw [if_pos h102]
      have hsl : (if (idx : Int) + 16 ≤ ((hexEncodeToString p).length : Int)
             then slice (hexEncodeToString p) ((idx : Int) - 80) ((idx : Int) + 16)
             else slice (hexEncodeToString p) ((idx : Int) - 80) ((idx : Int) + 8))
          = some (hexCandidate (hexEncodeToString p) idx) := by
        unfold hexCandidate
        by_cases h16 : idx + 16 ≤ (hexEncodeToString p).length
        · rw [if_pos (by omega), if_pos h16]
          exact slice_nat _ _ _ _ _ (by omega) (by omega) (by omega) h16
        · rw [if_neg (by omega), if_neg h16]
          exact slice_nat _ _ _ _ _ (by omega) (by omega) (by omega) (by omega)
      rw [hsl]
      simp only
      have hasc : isASCII (hexCandidate (hexEncodeToString p) idx) = true := by
        unfold hexCandidate
        split <;> exact window_hex_ascii _ _ _
      rw [if_pos hasc, List.filter_cons_of_pos (by simp [h102n]), List.map_cons, stampAll]
      simp only
      rcases hdec : decode st.decoder (hexCandidate (hexEncodeToString p) idx) with
        ⟨_ | message, d⟩
      · simp only
        exact ih _ hrest
      · simp only
        rw [slice_nat _ _ _ (idx - 102) (idx - 100) (by omega) (by omega) (by omega) (by omega),
          slice_nat _ _ _ (idx - 92) (idx - 90) (by omega) (by omega) (by omega) (by omega)]
        simp only
        exact ih _ hrest
    · rw [if_neg h102, List.filter_cons_of_neg (by simp; omega)]
      exact ih st hrest

theorem stampAll_append {σ μ : Type} (decode : σ → GoString → Option μ × σ) :
    ∀ (l1 l2 : List Stamp) (d : σ) (ms : List (StampedMessage μ)),
    stampAll decode (l1 ++ l2) d ms
      = stampAll decode l2 (stampAll decode l1 d ms).1 (stampAll decode l1 d ms).2 := by
  intro l1
  induction l1 with
  | nil => intro l2 d ms; rfl
  | cons t rest ih =>
    intro l2 d ms
    rw [List.cons_append, stampAll, stampAll]
    rcases decode d t.1 with ⟨_ | m, d1⟩
    · exact ih l2 d1 ms
    · exact ih l2 d1 _

/-- Every record the run adds belongs to one of the candidates: its message is what the
decoder returned for that candidate, and its ids are those that come with it. -/
theorem stampAll_mem {σ μ : Type} (decode : σ → GoString → Option μ × σ) :
    ∀ (l : List Stamp) (d : σ) (ms : List (StampedMessage μ)),
    ∃ recs, (stampAll decode l d ms).2 = ms ++ recs ∧
      ∀ r ∈ recs, ∃ t ∈ l, ∃ d0 d1, decode d0 t.1 = (some r.message, d1) ∧
        r.InterfaceId = t.2.1 ∧ r.OnuId = t.2.2 := by
  intro l
  induction l with
  | nil => intro d ms; exact ⟨[], by simp [stampAll], by simp⟩
  | cons t rest ih =>
    intro d ms
    rw [stampAll]
    rcases hdec : decode d t.1 with ⟨_ | m, d1⟩
    · simp only
      obtain ⟨recs, h1, h2⟩ := ih d1 ms
      refine ⟨recs, h1, fun r hr => ?_⟩
      obtain ⟨t0, ht0, rest0⟩ := h2 r hr
      exact ⟨t0, List.mem_cons_of_mem _ ht0, rest0⟩
    · simp only
      obtain ⟨recs, h1, h2⟩ := ih d1 (ms ++ [{ message := m, InterfaceId := t.2.1, OnuId := t.2.2 }])
      refine ⟨StampedMessage.mk m t.2.1 t.2.2 :: recs, by rw [h1]; simp, fun r hr => ?_⟩
      rcases List.mem_cons.1 hr with rfl | hr
      · exact ⟨t, List.mem_cons_self _ _, d, d1, hdec, rfl, rfl⟩
      · obtain ⟨t0, ht0, rest0⟩ := h2 r hr
        exact ⟨t0, List.mem_cons_of_mem _ ht0, rest0⟩

theorem textView_stamps {σ μ : Type} (decode : σ → GoString → Option μ × σ) (payload : GoString)
    (st : ScanState σ μ) :
    ∃ st1, textView decode payload st = some st1 ∧
      (st1.decoder, st1.messagesList)
        = stampAll decode (textStamps payload) st.decoder st.messagesList := by
  obtain ⟨st1, h1, h2⟩ := textViewLoop_stamps decode payload
    ((List.range (payload.length + 1)).filter (markerAt payload)) st
    (fun i hi => (List.mem_filter.1 hi).2)
  refine ⟨st1, ?_, ?_⟩
  · unfold textView
    rw [findOMCIMessageIndices_eq]
    exact h1
  · rw [h2]
    unfold textStamps
    rw [markerOffsets_eq]

theorem hexView_stamps {σ μ : Type} (decode : σ → GoString → Option μ × σ) (payload : GoString)
    (st : ScanState σ μ) :
    ∃ st1, hexView decode payload st = some st1 ∧
      (st1.decoder, st1.messagesList)
        = stampAll decode (hexStamps payload) st.decoder st.messagesList := by
  obtain ⟨st1, h1, h2⟩ := hexViewLoop_stamps decode payload
    ((List.range ((hexEncodeToString payload).length + 1)).filter
      (markerAt (hexEncodeToString payload))) st
    (fun i hi => (List.mem_filter.1 hi).2)
  refine ⟨st1, ?_, ?_⟩
  · unfold hexView
    rw [findOMCIMessageIndices_eq]
    exact h1
  · rw [h2]
    unfold hexStamps
    rw [markerOffsets_eq]

theorem hexCandidate_marker (h : GoString) (idx : Nat)
    (hm : (h.drop idx).take 8 = marker) (h102 : 102 ≤ idx) :
    (idx + 16 ≤ h.length →
      hexCandidate h idx = window h (idx - 80) (idx + 16) ∧ (hexCandidate h idx).length = 96) ∧
    (¬ idx + 16 ≤ h.length →
      hexCandidate h idx = window h (idx - 80) (idx + 8) ∧ (hexCandidate h idx).length = 88) ∧
    ((hexCandidate h idx).drop 80).take 8 = marker := by
  have hma := (markerAt_eq h idx).2 hm
  have hl := markerAt_lt_length h idx hma
  unfold hexCandidate
  refine ⟨fun h16 => ?_, fun h16 => ?_, ?_⟩
  · rw [if_pos h16]
    exact ⟨rfl, by rw [window_length _ _ _ h16]; omega⟩
  · rw [if_neg h16]
    exact ⟨rfl, by rw [window_length _ _ _ hl]; omega⟩
  · split
    · exact window_drop_marker _ idx _ (by omega) (by omega) hma
    · exact window_drop_marker _ idx _ (by omega) (by omega) hma

/-- C8.  With `h` the hex encoding of the TCP payload, the strings the hex view hands to
the decoder are, in order, exactly one for each offset `idx ≥ 102` of `h` at which the
marker `"00000028"` starts, and none for a marker offset below 102: the candidate of `idx`
is `h[idx-80 : idx+16]` (96 characters) when `idx + 16 ≤ len(h)` and `h[idx-80 : idx+8]`
(88 characters) otherwise, and has `"00000028"` at its characters 80..87.  Every marker
offset `idx ≥ 102` of `h` has its candidate handed over, and every string handed over is
the candidate of such an offset.  The hex view is what `processPacket` runs after the text
view on a payload of at least 60 bytes. -/
theorem processPacket_hex_candidates {σ μ : Type} (decode : σ → GoString → Option μ × σ) (payload : GoString)
    (st : ScanState σ μ) :
    ∃ st2, hexView decode payload st = some st2 ∧
      st2.handed = st.handed ++
        ((List.range ((hexEncodeToString payload).length + 1)).filter
          (fun idx => decide (((hexEncodeToString payload).drop idx).take 8 = marker ∧
            102 ≤ idx))).map
          (fun idx => if idx + 16 ≤ (hexEncodeToString payload).length
            then window (hexEncodeToString payload) (idx - 80) (idx + 16)
            else window (hexEncodeToString payload) (idx - 80) (idx + 8)) ∧
      (∀ idx, ((hexEncodeToString payload).drop idx).take 8 = marker → 102 ≤ idx →
        hexCandidate (hexEncodeToString payload) idx ∈ st2.handed ∧
        (idx + 16 ≤ (hexEncodeToString payload).length →
          hexCandidate (hexEncodeToString payload) idx
            = window (hexEncodeToString payload) (idx - 80) (idx + 16) ∧
          (hexCandidate (hexEncodeToString payload) idx).length = 96) ∧
        (¬ idx + 16 ≤ (hexEncodeToString payload).length →
          hexCandidate (hexEncodeToString payload) idx
            = window (hexEncodeToString payload) (idx - 80) (idx + 8) ∧
          (hexCandidate (hexEncodeToString payload) idx).length = 88) ∧
        ((hexCandidate (hexEncodeToString payload) idx).drop 80).take 8 = marker) ∧
      (∀ c, c ∈ st2.handed → c ∈ st.handed ∨
        ∃ idx, ((hexEncodeToString payload).drop idx).take 8 = marker ∧ 102 ≤ idx ∧
          c = hexCandidate (hexEncodeToString payload) idx) ∧
      (60 ≤ payload.length → ∀ d : σ, processPacket decode payload d =
        (textView decode payload { decoder := d, messagesList := [], handed := [] }).bind
          (hexView decode payload)) := by
  obtain ⟨omciIndex, st2, recs, h1, h2, h3, _, _⟩ := hexView_spec decode payload st
  rw [findOMCIMessageIndices_eq] at h1
  cases h1
  have hlist : hexCandidates (hexEncodeToString payload)
        ((List.range ((hexEncodeToString payload).length + 1)).filter
          (markerAt (hexEncodeToString payload)))
      = ((List.range ((hexEncodeToString payload).length + 1)).filter
          (fun idx => decide (((hexEncodeToString payload).drop idx).take 8 = marker ∧
            102 ≤ idx))).map (hexCandidate (hexEncodeToString payload)) := by
    rw [hexCandidates_hex, List.filter_filter]
    congr 1
    apply List.filter_congr
    intro i _
    unfold markerAt
    by_cases hm : ((hexEncodeToString payload).drop i).take 8 = marker <;>
      by_cases h102 : 102 ≤ i <;> simp [hm, h102]
  have hmemc : ∀ c, c ∈ ((List.range ((hexEncodeToString payload).length + 1)).filter
          (fun idx => decide (((hexEncodeToString payload).drop idx).take 8 = marker ∧
            102 ≤ idx))).map (hexCandidate (hexEncodeToString payload)) ↔
      ∃ idx, ((hexEncodeToString payload).drop idx).take 8 = marker ∧ 102 ≤ idx ∧
          c = hexCandidate (hexEncodeToString payload) idx := by
    intro c
    rw [List.mem_map]
    constructor
    · rintro ⟨idx, hidx, rfl⟩
      rw [List.mem_filter] at hidx
      have := hidx.2
      simp only [decide_eq_true_eq] at this
      exact ⟨idx, this.1, this.2, rfl⟩
    · rintro ⟨idx, hm, h102, rfl⟩
      refine ⟨idx, ?_, rfl⟩
      rw [List.mem_filter, List.mem_range]
      have := markerAt_lt_length _ idx ((markerAt_eq _ idx).2 hm)
      exact ⟨by omega, by simp [hm, h102]⟩
  rw [hlist] at h3
  refine ⟨st2, h2, h3, ?_, ?_, ?_⟩
  · intro idx hm h102
    obtain ⟨a, b, c⟩ := hexCandidate_marker _ idx hm h102
    refine ⟨?_, a, b, c⟩
    rw [h3, List.mem_append]
    exact Or.inr ((hmemc _).2 ⟨idx, hm, h102, rfl⟩)
  · intro c hc
    rw [h3, List.mem_append] at hc
    rcases hc with hc | hc
    · exact Or.inl hc
    · exact Or.inr ((hmemc c).1 hc)
  · intro h60 d
    unfold processPacket
    rw [if_pos h60]

/-- C9, amended.  The two-digit lowercase hex of a byte `b` with a single leading `0`
removed is the shortest lowercase hexadecimal numeral of `b`, for every `b` in 0..255
(0x00 gives `"0"`, 0x0a gives `"a"`, 0x10 gives `"10"`).  The records `processPacket`
returns are those of the decoder run over the candidates of the text view and then of the
hex view, in the order of the marker offsets, and each record is stamped with the ids of
the marker offset `idx` of the candidate it was decoded from: in the text view the
shortest numerals of the payload bytes `payload[idx-91]` and `payload[idx-86]`, in the hex
view the digit pairs `h[idx-102 : idx-100]` and `h[idx-92 : idx-90]` with a single leading
`0` removed, which are the shortest numerals of the byte values the pairs denote; when
`idx` is even these are the payload bytes `payload[(idx-102)/2]` and
`payload[(idx-92)/2]`. -/
theorem processPacket_stamped_ids {σ μ : Type} (decode : σ → GoString → Option μ × σ) (payload : GoString)
    (d : σ) (h60 : 60 ≤ payload.length) :
    (∀ b : Byte, cutPrefix (hexEncodeToString [b]) [48] = shortestHex b.val) ∧
    cutPrefix (hexEncodeToString [0]) [48] = [48] ∧
    cutPrefix (hexEncodeToString [10]) [48] = [97] ∧
    cutPrefix (hexEncodeToString [16]) [48] = [49, 48] ∧
    (∃ st2, processPacket decode payload d = some st2 ∧
      (st2.decoder, st2.messagesList)
        = stampAll decode (textStamps payload ++ hexStamps payload) d [] ∧
      ∀ r ∈ st2.messagesList, ∃ t ∈ textStamps payload ++ hexStamps payload,
        ∃ d0 d1, decode d0 t.1 = (some r.message, d1) ∧
          r.InterfaceId = t.2.1 ∧ r.OnuId = t.2.2) ∧
    (∀ idx, (payload.drop idx).take 8 = marker → 91 ≤ idx →
      payload[idx - 91]? = some (payload.getD (idx - 91) 0) ∧
      payload[idx - 86]? = some (payload.getD (idx - 86) 0) ∧
      shortestHex (payload.getD (idx - 91) 0).val
        = cutPrefix (hexEncodeToString [payload.getD (idx - 91) 0]) [48] ∧
      shortestHex (payload.getD (idx - 86) 0).val
        = cutPrefix (hexEncodeToString [payload.getD (idx - 86) 0]) [48]) ∧
    (∀ idx, ((hexEncodeToString payload).drop idx).take 8 = marker → 102 ≤ idx →
      ∃ v1 v2 : Byte,
        window (hexEncodeToString payload) (idx - 102) (idx - 100) = hexEncodeToString [v1] ∧
        window (hexEncodeToString payload) (idx - 92) (idx - 90) = hexEncodeToString [v2] ∧
        cutPrefix (window (hexEncodeToString payload) (idx - 102) (idx - 100)) [48]
          = shortestHex v1.val ∧
        cutPrefix (window (hexEncodeToString payload) (idx - 92) (idx - 90)) [48]
          = shortestHex v2.val ∧
        (idx % 2 = 0 →
          payload[(idx - 102) / 2]? = some v1 ∧ payload[(idx - 92) / 2]? = some v2)) := by
  refine ⟨cutPrefix_hex_shortest, by decide, by decide, by decide, ?_, ?_, ?_⟩
  · obtain ⟨st1, h1, h2⟩ := textView_stamps decode payload
      ({ decoder := d, messagesList := [], handed := [] } : ScanState σ μ)
    obtain ⟨st2, g1, g2⟩ := hexView_stamps decode payload st1
    have hall : (st2.decoder, st2.messagesList)
        = stampAll decode (textStamps payload ++ hexStamps payload) d [] := by
      rw [stampAll_append, ← h2]
      exact g2
    refine ⟨st2, ?_, hall, ?_⟩
    · unfold processPacket
      rw [if_pos h60, h1]
      exact g1
    · obtain ⟨recs, e1, e2⟩ := stampAll_mem decode (textStamps payload ++ hexStamps payload) d []
      have e3 : st2.messagesList = recs := by
        have := congrArg Prod.snd hall
        simp only at this
        rw [this, e1, List.nil_append]
      rw [e3]
      exact e2
  · intro idx hm h91
    have hl := markerAt_lt_length payload idx ((markerAt_eq _ _).2 hm)
    have hb1 : idx - 91 < payload.length := by omega
    have hb2 : idx - 86 < payload.length := by omega
    refine ⟨?_, ?_, (cutPrefix_hex_shortest _).symm, (cutPrefix_hex_shortest _).symm⟩
    · rw [List.getD_eq_getElem payload 0 hb1]
      exact List.getElem?_eq_getElem hb1
    · rw [List.getD_eq_getElem payload 0 hb2]
      exact List.getElem?_eq_getElem hb2
  · intro idx hm h102
    have hl := markerAt_lt_length _ idx ((markerAt_eq _ _).2 hm)
    obtain ⟨v1, p1, q1, _⟩ := hex_pair payload (idx - 102) (by omega)
    obtain ⟨v2, p2, q2, _⟩ := hex_pair payload (idx - 92) (by omega)
    rw [show idx - 102 + 2 = idx - 100 by omega] at p1
    rw [show idx - 92 + 2 = idx - 90 by omega] at p2
    refine ⟨v1, v2, p1, p2, by rw [p1, cutPrefix_hex_shortest],
      by rw [p2, cutPrefix_hex_shortest], ?_⟩
    intro hev
    exact ⟨q1 (by omega), q2 (by omega)⟩

set_option maxRecDepth 1000000 in
/-- C9, witness: `alignedPayload`, with the marker at the even offset 104 of the hex
encoding, and a decoder that returns its argument: the one record is stamped `"2b"` and
`"4d"`, the numerals of the payload bytes 1 and 6.  For comparison, the stamps of
`misalignedPayload` are `"12"` and `"34"`. -/
theorem processPacket_stamped_ids_witness :
    60 ≤ alignedPayload.length ∧
    textStamps alignedPayload = [] ∧
    hexStamps alignedPayload = [(exampleFrame, [50, 98], [52, 100])] ∧
    alignedPayload[1]? = some 43 ∧ alignedPayload[6]? = some 77 ∧
    shortestHex 43 = [50, 98] ∧ shortestHex 77 = [52, 100] ∧
    hexStamps misalignedPayload = [(exampleFrame, [49, 50], [51, 52])] ∧
    (processPacket acceptAll alignedPayload ()).map
        (fun st => st.messagesList.map (fun r => (r.message, r.InterfaceId, r.OnuId)))
      = some [(exampleFrame, [50, 98], [52, 100])] ∧
    ((∀ b : Byte, cutPrefix (hexEncodeToString [b]) [48] = shortestHex b.val) ∧
    cutPrefix (hexEncodeToString [0]) [48] = [48] ∧
    cutPrefix (hexEncodeToString [10]) [48] = [97] ∧
    cutPrefix (hexEncodeToString [16]) [48] = [49, 48] ∧
    (∃ st2, processPacket acceptAll alignedPayload () = some st2 ∧
      (st2.decoder, st2.messagesList)
        = stampAll acceptAll (textStamps alignedPayload ++ hexStamps alignedPayload) () [] ∧
      ∀ r ∈ st2.messagesList, ∃ t ∈ textStamps alignedPayload ++ hexStamps alignedPayload,
        ∃ d0 d1, acceptAll d0 t.1 = (some r.message, d1) ∧
          r.InterfaceId = t.2.1 ∧ r.OnuId = t.2.2) ∧
    (∀ idx, (alignedPayload.drop idx).take 8 = marker → 91 ≤ idx →
      alignedPayload[idx - 91]? = some (alignedPayload.getD (idx - 91) 0) ∧
      alignedPayload[idx - 86]? = some (alignedPayload.getD (idx - 86) 0) ∧
      shortestHex (alignedPayload.getD (idx - 91) 0).val
        = cutPrefix (hexEncodeToString [alignedPayload.getD (idx - 91) 0]) [48] ∧
      shortestHex (alignedPayload.getD (idx - 86) 0).val
        = cutPrefix (hexEncodeToString [alignedPayload.getD (idx - 86) 0]) [48]) ∧
    (∀ idx, ((hexEncodeToString alignedPayload).drop idx).take 8 = marker → 102 ≤ idx →
      ∃ v1 v2 : Byte,
        window (hexEncodeToString alignedPayload) (idx - 102) (idx - 100) = hexEncodeToString [v1] ∧
        window (hexEncodeToString alignedPayload) (idx - 92) (idx - 90) = hexEncodeToString [v2] ∧
        cutPrefix (window (hexEncodeToString alignedPayload) (idx - 102) (idx - 100)) [48]
          = shortestHex v1.val ∧
        cutPrefix (window (hexEncodeToString alignedPayload) (idx - 92) (idx - 90)) [48]
          = shortestHex v2.val ∧
        (idx % 2 = 0 →
          alignedPayload[(idx - 102) / 2]? = some v1 ∧ alignedPayload[(idx - 92) / 2]? = some v2))) :=
  ⟨by decide, by decide, by decide, by decide, by decide, by decide, by decide, by decide,
    by decide, processPacket_stamped_ids acceptAll alignedPayload () (by decide)⟩

theorem buildMessage_of_error (lib : Libraries) (omciPart : OMCI) (messagetype : MessageLayer)
    (text : GoString) (h : lib.SerializeLayers omciPart messagetype = Except.error text) :
    buildMessage lib omciPart messagetype = errorLead ++ text := by
  simp only [buildMessage, h]

theorem buildMessage_of_bytes (lib : Libraries) (omciPart : OMCI) (messagetype : MessageLayer)
    (bytes : GoString) (h : lib.SerializeLayers omciPart messagetype = Except.ok bytes) :
    buildMessage lib omciPart messagetype = hexEncodeToString bytes := by
  simp only [buildMessage, h]

theorem parseAttributes_total (attributes : List Char) (definitions : AttributeDefinitionMap) :
    (∃ m, parseAttributes attributes definitions = (some m, none)) ∨
    (∃ e, parseAttributes attributes definitions = (none, some e)) := by
  unfold parseAttributes
  split
  · exact Or.inr ⟨_, rfl⟩
  · exact parseLoop_total definitions _ []

/-- When the serialiser refuses the layers of a class, `buildSetRequest` returns a string
that starts with `"ERROR:"`, whatever the attribute text. -/
theorem buildSetRequest_refused (lib : Libraries) (tid instanceId classId : Nat)
    (attributes : List Char) (meDef : ManagedEntityDefinition)
    (hreg : lib.LoadManagedEntityDefinition classId = Except.ok meDef)
    (hser : ∀ omciPart messagetype, layerClass messagetype = classId →
      ∃ text, lib.SerializeLayers omciPart messagetype = Except.error text)
    (hrange : ∀ m : AttributeValueMap, (lib.mapRange m).Perm (m.map (fun kv => kv.1))) :
    ∃ s, buildSetRequest lib tid instanceId classId attributes = some s ∧ errorTag <+: s := by
  rcases parseAttributes_total attributes meDef.AttributeDefinitions with ⟨m, hp⟩ | ⟨e, hp⟩
  · have hdef := parseAttributes_keys_defined meDef.AttributeDefinitions attributes m hp
    have hloop := attributeMaskLoop_eq meDef.AttributeDefinitions (lib.mapRange m) 0
      (fun k hk => hdef k ((hrange m).mem_iff.1 hk))
    obtain ⟨text, ht⟩ := hser { TransactionID := tid, MessageType := MessageType.SetRequest }
      (MessageLayer.SetRequest classId instanceId
        ((lib.mapRange m).foldl
          (fun mask key => mask ||| schemaMask meDef.AttributeDefinitions key) 0) m) rfl
    refine ⟨errorLead ++ text, ?_, errorTag_prefix_errorLead text⟩
    simp only [buildSetRequest, setRequestLayers, hreg, hp, hloop, buildMessage, ht]
  · refine ⟨errorLead ++ lib.errorText e, ?_, errorTag_prefix_errorLead _⟩
    simp only [buildSetRequest, setRequestLayers, hreg, hp]

theorem buildCreateRequest_refused (lib : Libraries) (tid instanceId classId : Nat)
    (attributes : List Char) (meDef : ManagedEntityDefinition)
    (hreg : lib.LoadManagedEntityDefinition classId = Except.ok meDef)
    (hser : ∀ omciPart messagetype, layerClass messagetype = classId →
      ∃ text, lib.SerializeLayers omciPart messagetype = Except.error text) :
    ∃ s, buildCreateRequest lib tid instanceId classId attributes = some s ∧
      errorTag <+: s := by
  rcases parseAttributes_total attributes meDef.AttributeDefinitions with ⟨m, hp⟩ | ⟨e, hp⟩
  · obtain ⟨text, ht⟩ := hser { TransactionID := tid, MessageType := MessageType.CreateRequest }
      (MessageLayer.CreateRequest classId instanceId m) rfl
    refine ⟨errorLead ++ text, ?_, errorTag_prefix_errorLead text⟩
    simp only [buildCreateRequest, hreg, hp, buildMessage, ht]
  · refine ⟨errorLead ++ lib.errorText e, ?_, errorTag_prefix_errorLead _⟩
    simp only [buildCreateRequest, hreg, hp]

theorem buildGetRequest_refused (lib : Libraries) (tid instanceId classId : Nat)
    (meDef : ManagedEntityDefinition)
    (hreg : lib.LoadManagedEntityDefinition classId = Except.ok meDef)
    (hser : ∀ omciPart messagetype, layerClass messagetype = classId →
      ∃ text, lib.SerializeLayers omciPart messagetype = Except.error text) :
    errorTag <+: buildGetRequest lib tid instanceId classId := by
  obtain ⟨text, ht⟩ := hser { TransactionID := tid, MessageType := MessageType.GetRequest }
    (MessageLayer.GetRequest classId instanceId meDef.AllowedAttributeMask) rfl
  have : buildGetRequest lib tid instanceId classId = errorLead ++ text := by
    simp only [buildGetRequest, hreg, buildMessage, ht]
  rw [this]
  exact errorTag_prefix_errorLead text

/-- C18.  The registry lookup of the OMCI library answers every class id, one outside
its table with the definition of an unknown managed entity, and the serialiser refuses a
request for such a class: this is how a class id that is not in the registry reaches the
builders.  For every such class id, `buildGetRequest`, `buildSetRequest` and
`buildCreateRequest` return a string that starts with `"ERROR:"` (whatever the attribute
text), and `InjectMessage` with the type `OMCI_GetRequest`, `OMCI_SetRequest` or
`OMCI_CreateRequest` returns that string and leaves the state of the injection as it was:
it issues no `OmciMsgOut` call. -/
theorem InjectMessage_unknown_class {ρ : Type} (lib : Libraries) (client : OltClient ρ) (w : World ρ)
    (intfId onuId tid instanceId classId : Nat) (commands : Int) (attributes : List Char)
    (customMessage : GoString) (meDef : ManagedEntityDefinition)
    (hreg : lib.LoadManagedEntityDefinition classId = Except.ok meDef)
    (hser : ∀ omciPart messagetype, layerClass messagetype = classId →
      ∃ text, lib.SerializeLayers omciPart messagetype = Except.error text)
    (hrange : ∀ m : AttributeValueMap, (lib.mapRange m).Perm (m.map (fun kv => kv.1))) :
    (errorTag <+: buildGetRequest lib tid instanceId classId ∧
      InjectMessage lib client w InjectionType.OMCI_GetRequest intfId onuId tid instanceId
          classId commands attributes customMessage
        = some (buildGetRequest lib tid instanceId classId, w)) ∧
    (∃ s, buildSetRequest lib tid instanceId classId attributes = some s ∧ errorTag <+: s ∧
      InjectMessage lib client w InjectionType.OMCI_SetRequest intfId onuId tid instanceId
          classId commands attributes customMessage = some (s, w)) ∧
    (∃ s, buildCreateRequest lib tid instanceId classId attributes = some s ∧ errorTag <+: s ∧
      InjectMessage lib client w InjectionType.OMCI_CreateRequest intfId onuId tid instanceId
          classId commands attributes customMessage = some (s, w)) := by
  have hg := buildGetRequest_refused lib tid instanceId classId meDef hreg hser
  obtain ⟨s1, hs1, hp1⟩ := buildSetRequest_refused lib tid instanceId classId attributes meDef
    hreg hser hrange
  obtain ⟨s2, hs2, hp2⟩ := buildCreateRequest_refused lib tid instanceId classId attributes meDef
    hreg hser
  refine ⟨⟨hg, ?_⟩, ⟨s1, hs1, hp1, ?_⟩, ⟨s2, hs2, hp2, ?_⟩⟩
  · simp only [InjectMessage]
    rw [injectOmciMessage_of_error client w intfId onuId _ hg]
  · simp only [InjectMessage, hs1, Option.map_some']
    rw [injectOmciMessage_of_error client w intfId onuId _ hp1]
  · simp only [InjectMessage, hs2, Option.map_some']
    rw [injectOmciMessage_of_error client w intfId onuId _ hp2]

/-- The example libraries refuse a request for every class but 262, OnuData and ONU-G. -/
theorem exampleLibraries_refuses (classId : Nat) (h1 : classId ≠ 262)
    (h2 : classId ≠ OnuDataClassID) (h3 : classId ≠ OnuGClassID) (omciPart : OMCI)
    (messagetype : MessageLayer) (h : layerClass messagetype = classId) :
    ∃ text, exampleLibraries.SerializeLayers omciPart messagetype = Except.error text := by
  show ∃ text, (if omciPart.TransactionID = 0 then
      Except.error (asciiBytes "transaction id 0 is not allowed".toList)
    else if layerClass messagetype = 262 ∨ layerClass messagetype = OnuDataClassID ∨
        layerClass messagetype = OnuGClassID then
      Except.ok [Fin.ofNat (omciPart.TransactionID / 256), Fin.ofNat omciPart.TransactionID]
    else Except.error (asciiBytes "managed entity does not support the message type".toList))
    = Except.error text
  by_cases h0 : omciPart.TransactionID = 0
  · rw [if_pos h0]
    exact ⟨_, rfl⟩
  · rw [if_neg h0, if_neg (by rw [h]; exact fun hc => hc.elim h1 (fun hc => hc.elim h2 h3))]
    exact ⟨_, rfl⟩

set_option maxRecDepth 1000000 in
/-- C18, witness: the class id 999 on the example libraries, with the attribute text
`AllocId=1`: the three injections return an `"ERROR: …"` string and send nothing, while a
GetRequest for the class 262 is sent. -/
theorem InjectMessage_unknown_class_witness :
    exampleLibraries.LoadManagedEntityDefinition 999
      = Except.ok { AttributeDefinitions := { getByName := fun _ => none },
                    AllowedAttributeMask := 0 } ∧
    (∀ omciPart messagetype, layerClass messagetype = 999 →
      ∃ text, exampleLibraries.SerializeLayers omciPart messagetype = Except.error text) ∧
    (∀ m : AttributeValueMap, (exampleLibraries.mapRange m).Perm (m.map (fun kv => kv.1))) ∧
    (InjectMessage exampleLibraries acceptingOlt emptyWorld InjectionType.OMCI_GetRequest
        3 5 1 0 999 0 [] []).map (fun r => (r.1, r.2.sent))
      = some (errorLead ++ asciiBytes "managed entity does not support the message type".toList,
          []) ∧
    (InjectMessage exampleLibraries acceptingOlt emptyWorld InjectionType.OMCI_SetRequest
        3 5 1 0 999 0 "AllocId=1".toList []).map (fun r => (r.1, r.2.sent))
      = some (errorLead ++ asciiBytes "attribute error".toList, []) ∧
    (InjectMessage exampleLibraries acceptingOlt emptyWorld InjectionType.OMCI_CreateRequest
        3 5 1 0 999 0 "AllocId".toList []).map (fun r => (r.1, r.2.sent))
      = some (errorLead ++ asciiBytes "managed entity does not support the message type".toList,
          []) ∧
    (InjectMessage exampleLibraries acceptingOlt emptyWorld InjectionType.OMCI_GetRequest
        3 5 1 0 262 0 [] []).map (fun r => (r.1, r.2.sent))
      = some (injectedText, [{ IntfId := 3, OnuId := 5, Pkt := asciiBytes "0001".toList }]) ∧
    ((errorTag <+: buildGetRequest exampleLibraries 1 0 999 ∧
      InjectMessage exampleLibraries acceptingOlt emptyWorld InjectionType.OMCI_GetRequest 3 5 1 0
          999 0 "AllocId=1".toList []
        = some (buildGetRequest exampleLibraries 1 0 999, emptyWorld)) ∧
    (∃ s, buildSetRequest exampleLibraries 1 0 999 "AllocId=1".toList = some s ∧ errorTag <+: s ∧
      InjectMessage exampleLibraries acceptingOlt emptyWorld InjectionType.OMCI_SetRequest 3 5 1 0
          999 0 "AllocId=1".toList [] = some (s, emptyWorld)) ∧
    (∃ s, buildCreateRequest exampleLibraries 1 0 999 "AllocId=1".toList = some s ∧ errorTag <+: s ∧
      InjectMessage exampleLibraries acceptingOlt emptyWorld InjectionType.OMCI_CreateRequest 3 5 1 0
          999 0 "AllocId=1".toList [] = some (s, emptyWorld))) :=
  ⟨rfl, exampleLibraries_refuses 999 (by decide) (by decide) (by decide),
    fun _ => List.reverse_perm _, by decide, by decide, by decide, by decide,
    InjectMessage_unknown_class (ρ := Unit) exampleLibraries acceptingOlt emptyWorld 3 5 1 0 999 0
      "AllocId=1".toList []
      { AttributeDefinitions := { getByName := fun _ => none }, AllowedAttributeMask := 0 }
      rfl (exampleLibraries_refuses 999 (by decide) (by decide) (by decide))
      (fun _ => List.reverse_perm _)⟩

/-- The `OmciMsgOut` calls of the loop of `buildMIBUploadProcess`: one for each index
whose PDU the serialiser accepts, in the order of the indices. -/
theorem mibUploadLoop_sent {ρ : Type} (lib : Libraries) (client : OltClient ρ)
    (intfId onuId tid : Nat) (commands : Int) (hc : commands ≤ 9223372036854775807) :
    ∀ (fuel k : Nat) (result : GoString) (w : World ρ), k + fuel = commands.toNat →
    (mibUploadLoop lib client intfId onuId tid commands fuel (k : Int) result w).2.sent
      = w.sent ++ (List.range' k fuel).filterMap (mibUploadMessage lib intfId onuId tid) := by
  intro fuel
  induction fuel with
  | zero => intro k result w _; simp [mibUploadLoop]
  | succ fuel ih =>
    intro k result w hk
    rw [mibUploadLoop, if_pos (by omega)]
    simp only
    rw [show wrapInt ((k : Int) + 1) = ((k + 1 : Nat) : Int) by
      rw [wrapInt_of_range _ (by omega) (by omega)]; push_cast; rfl]
    rw [ih (k + 1) _ _ (by omega), List.range'_succ, List.filterMap_cons]
    unfold mibUploadMessage
    cases hs : lib.SerializeLayers
        { TransactionID := addU16 tid (toUint16 (k : Int)),
          MessageType := MessageType.MibUploadNextRequest }
        (MessageLayer.MibUploadNextRequest OnuDataClassID 0 (toUint16 (k : Int))) with
    | error text =>
      rw [buildMessage_of_error lib _ _ text hs,
        injectOmciMessage_of_error client _ intfId onuId _ (errorTag_prefix_errorLead text)]
    | ok bytes =>
      rw [buildMessage_of_bytes lib _ _ bytes hs,
        injectOmciMessage_of_message client _ intfId onuId _ (hexEncodeToString_not_error bytes)]
      simp

/-- C19.  The `OmciMsgOut` calls of `buildMIBUploadProcess` are, in the order of the
indices `i = 0, …, commands - 1`, one for each index whose PDU, with the transaction id
`tid + uint16(i)`, the serialiser accepts; a PDU it refuses becomes an `"ERROR: …"` string
that `injectOmciMessage` drops.  The serialiser of the OMCI library refuses the
transaction id 0, and so no MibUploadNext PDU that is sent carries the transaction id 0,
for every starting tid and every command count. -/
theorem buildMIBUploadProcess_no_zero_tid {ρ : Type} (lib : Libraries) (client : OltClient ρ) (w : World ρ)
    (intfId onuId tid : Nat) (commands : Int) (hc : commands ≤ 9223372036854775807)
    (hzero : ∀ messagetype, ∃ text,
      lib.SerializeLayers { TransactionID := 0, MessageType := MessageType.MibUploadNextRequest }
        messagetype = Except.error text) :
    (buildMIBUploadProcess lib client w intfId onuId tid commands).2.sent
      = w.sent ++
        (List.range commands.toNat).filterMap (mibUploadMessage lib intfId onuId tid) ∧
    ∀ msg ∈ (List.range commands.toNat).filterMap (mibUploadMessage lib intfId onuId tid),
      ∃ i bytes, (i : Int) < commands ∧ addU16 tid (toUint16 (i : Int)) ≠ 0 ∧
        lib.SerializeLayers
          { TransactionID := addU16 tid (toUint16 (i : Int)),
            MessageType := MessageType.MibUploadNextRequest }
          (MessageLayer.MibUploadNextRequest OnuDataClassID 0 (toUint16 (i : Int)))
          = Except.ok bytes ∧
        msg = { IntfId := intfId, OnuId := onuId, Pkt := hexEncodeToString bytes } := by
  constructor
  · unfold buildMIBUploadProcess
    have := mibUploadLoop_sent lib client intfId onuId tid commands hc commands.toNat 0
      noCommandsText w (by omega)
    rw [List.range_eq_range']
    exact this
  · intro msg hmsg
    rw [List.mem_filterMap] at hmsg
    obtain ⟨i, hi, hm⟩ := hmsg
    rw [List.mem_range] at hi
    unfold mibUploadMessage at hm
    cases hs : lib.SerializeLayers
        { TransactionID := addU16 tid (toUint16 (i : Int)),
          MessageType := MessageType.MibUploadNextRequest }
        (MessageLayer.MibUploadNextRequest OnuDataClassID 0 (toUint16 (i : Int))) with
    | error text => rw [hs] at hm; cases hm
    | ok bytes =>
      rw [hs] at hm
      refine ⟨i, bytes, by omega, ?_, hs, (Option.some.inj hm).symm⟩
      intro h0
      rw [h0] at hs
      obtain ⟨text, ht⟩ := hzero (MessageLayer.MibUploadNextRequest OnuDataClassID 0
        (toUint16 (i : Int)))
      rw [ht] at hs
      cases hs

set_option maxRecDepth 1000000 in
/-- C19, witness: `tid = 0xFFFF` and two commands on the example libraries, whose
serialiser refuses the transaction id 0: one message is sent, with the id FFFF.  With
`tid = 0xFFFE` and four commands the ids sent are FFFE, FFFF and 0001. -/
theorem buildMIBUploadProcess_no_zero_tid_witness :
    (2 : Int) ≤ 9223372036854775807 ∧
    (∀ messagetype, ∃ text,
      exampleLibraries.SerializeLayers
        { TransactionID := 0, MessageType := MessageType.MibUploadNextRequest }
        messagetype = Except.error text) ∧
    ((buildMIBUploadProcess exampleLibraries acceptingOlt emptyWorld 3 5 65535 2).2.sent
      = [{ IntfId := 3, OnuId := 5, Pkt := asciiBytes "ffff".toList }]) ∧
    ((buildMIBUploadProcess exampleLibraries acceptingOlt emptyWorld 3 5 65534 4).2.sent.map
        (fun m => m.Pkt)
      = [asciiBytes "fffe".toList, asciiBytes "ffff".toList, asciiBytes "0001".toList]) ∧
    ((buildMIBUploadProcess exampleLibraries acceptingOlt emptyWorld 3 5 65535 2).2.sent
      = emptyWorld.sent ++
        (List.range (2 : Int).toNat).filterMap (mibUploadMessage exampleLibraries 3 5 65535) ∧
    ∀ msg ∈ (List.range (2 : Int).toNat).filterMap (mibUploadMessage exampleLibraries 3 5 65535),
      ∃ i bytes, (i : Int) < (2 : Int) ∧ addU16 65535 (toUint16 (i : Int)) ≠ 0 ∧
        exampleLibraries.SerializeLayers
          { TransactionID := addU16 65535 (toUint16 (i : Int)),
            MessageType := MessageType.MibUploadNextRequest }
          (MessageLayer.MibUploadNextRequest OnuDataClassID 0 (toUint16 (i : Int)))
          = Except.ok bytes ∧
        msg = { IntfId := 3, OnuId := 5, Pkt := hexEncodeToString bytes }) :=
  ⟨by decide, fun _ => ⟨_, rfl⟩, by decide, by decide,
    buildMIBUploadProcess_no_zero_tid exampleLibraries acceptingOlt emptyWorld 3 5 65535 2
      (by decide) (fun _ => ⟨_, rfl⟩)⟩

end PONAlyzer
